import Mathlib

/-!
# Session core of `api_free_demo`: token lifecycle manager

Shallow embedding of `internal/infrastructure/auth/jwt_manager.go`.

* Machine time is an integer count of nanoseconds since the Unix epoch; every read of the
  clock (`time.Now()`) and every fresh identifier (`uuid.NewString()`) is an explicit input.
* The encoded text of a token is identified with what it decodes to (header algorithm, claim
  set, signature); text that does not decode is the constructor `TokenString.malformed`.
* The keyed hash behind the `HS*` signing methods is a parameter `mac` of every definition
  that signs or verifies.
* The refresh store is a finite key/value list; the shared store additionally fails when the
  caller's context is done or when the environment injects a fault.
-/

set_option autoImplicit false

/-!
# Machine numbers of the Go run time on a 64-bit platform

* An `int` has 64 bits; its arithmetic wraps around in two's complement (`wrap64`).
* A `float64` is an IEEE 754 binary64 value. Every operation gives the exact result rounded to
  the nearest value, a tie going to the even one; the product and the sum of
  `a + b * c` are rounded one after the other, as on amd64. Values are kept as exact
  rationals, so the rounding is the only place a result can differ from the exact one.
* The conversion of a `float64` to an integer truncates toward zero; outside the range of the
  integer type the result is that of amd64.
-/

namespace Go

/-- The constant `math.MaxInt64`, also the largest `int`. -/
def MaxInt64 : Int := 9223372036854775807

/-- The constant `math.MinInt64`, also the smallest `int`. -/
def MinInt64 : Int := -9223372036854775808

/-- The value of an `int` or `int64` expression whose mathematical value is `x`: two's
complement arithmetic wraps around. -/
def wrap64 (x : Int) : Int :=
  (x + 9223372036854775808) % 18446744073709551616 - 9223372036854775808

/-- A `float64`: a finite value, given by its exact rational value (the two zeros are not
told apart), an infinity or a NaN. -/
inductive Float64 where
  | finite (q : ℚ)
  | inf (negative : Bool)
  | nan
  deriving DecidableEq, Repr

/-- Rounding to the nearest integer, a tie going to the even one. -/
def roundHalfEven (m : ℚ) : Int :=
  if m - ⌊m⌋ < 1 / 2 then ⌊m⌋
  else if 1 / 2 < m - ⌊m⌋ then ⌊m⌋ + 1
  else if ⌊m⌋ % 2 = 0 then ⌊m⌋ else ⌊m⌋ + 1

/-- The number of binary digits of `n`, counted with at most `fuel` halvings. -/
def bitLen : Nat → Nat → Nat
  | 0, _ => 0
  | fuel + 1, n => if n = 0 then 0 else bitLen fuel (n / 2) + 1

/-- The binary exponent of a positive `a`: the integer `e` with `2 ^ e ≤ a < 2 ^ (e + 1)`. -/
def log2 (a : ℚ) : Int :=
  let d : Int := (bitLen a.num.natAbs a.num.natAbs : Int) - (bitLen a.den a.den : Int)
  if (2 : ℚ) ^ d ≤ a then d else d - 1

/-- The spacing of the `float64` values around a positive `a`: 52 binary places below the
leading one, and never finer than that of the subnormal values. -/
def ulp (a : ℚ) : ℚ := (2 : ℚ) ^ (max (log2 a) (-1022) - 52)

/-- The multiple of the spacing nearest to a positive `a`, a tie going to the even multiple:
IEEE 754 rounding to nearest, before the test for overflow. -/
def roundPos (a : ℚ) : ℚ := (roundHalfEven (a / ulp a) : ℚ) * ulp a

/-- The rounding of the exact value `x`, with the sign put back. -/
def roundQ (x : ℚ) : ℚ :=
  if x = 0 then 0 else if x < 0 then -roundPos (-x) else roundPos x

/-- The `float64` an exact result `x` is rounded to; beyond the largest finite value it is an
infinity. -/
def Float64.round (x : ℚ) : Float64 :=
  if (2 : ℚ) ^ (1024 : Nat) ≤ roundQ x then .inf false
  else if roundQ x ≤ -(2 : ℚ) ^ (1024 : Nat) then .inf true
  else .finite (roundQ x)

/-- The conversion `float64(n)` of an integer. -/
def Float64.ofInt (n : Int) : Float64 := .round (n : ℚ)

/-- The sum `a + b`. -/
def Float64.add : Float64 → Float64 → Float64
  | .finite a, .finite b => .round (a + b)
  | .nan, _ => .nan
  | _, .nan => .nan
  | .inf s, .inf s' => if s = s' then .inf s else .nan
  | .inf s, .finite _ => .inf s
  | .finite _, .inf s => .inf s

/-- The negation `-a`. -/
def Float64.neg : Float64 → Float64
  | .finite a => .finite (-a)
  | .inf s => .inf (!s)
  | .nan => .nan

/-- The difference `a - b`. -/
def Float64.sub (a b : Float64) : Float64 := a.add b.neg

/-- The product `a * b`. -/
def Float64.mul : Float64 → Float64 → Float64
  | .finite a, .finite b => .round (a * b)
  | .nan, _ => .nan
  | _, .nan => .nan
  | .inf s, .inf s' => .inf (s != s')
  | .inf s, .finite b => if b = 0 then .nan else .inf (s != decide (b < 0))
  | .finite a, .inf s => if a = 0 then .nan else .inf (s != decide (a < 0))

/-- The quotient `a / b`; a zero divisor counts as positive. -/
def Float64.div : Float64 → Float64 → Float64
  | .finite a, .finite b =>
    if b = 0 then (if a = 0 then .nan else .inf (decide (a < 0))) else .round (a / b)
  | .nan, _ => .nan
  | _, .nan => .nan
  | .inf _, .inf _ => .nan
  | .inf s, .finite b => .inf (s != decide (b < 0))
  | .finite _, .inf _ => .finite 0

/-- The comparison `a < b`; false when either is a NaN. -/
def Float64.lt : Float64 → Float64 → Bool
  | .finite a, .finite b => decide (a < b)
  | .nan, _ => false
  | _, .nan => false
  | .inf s, .inf s' => s && !s'
  | .inf s, .finite _ => s
  | .finite _, .inf s => !s

/-- The comparison `a >= b`; false when either is a NaN. -/
def Float64.ge : Float64 → Float64 → Bool
  | .nan, _ => false
  | _, .nan => false
  | a, b => !(a.lt b)

/-- The conversion `int(x)` or `int64(x)`: truncation toward zero; for a value outside the
range of `int64`, an infinity or a NaN the result depends on the platform, and is the smallest
`int64`, as the conversion instruction of amd64 yields it. -/
def Float64.toInt : Float64 → Int
  | .finite q =>
    let t : Int := if 0 ≤ q then ⌊q⌋ else ⌈q⌉
    if MinInt64 ≤ t ∧ t ≤ MaxInt64 then t else MinInt64
  | _ => MinInt64

end Go

namespace Auth

/-! ## Basic types -/

/-- An instant (`time.Time`), in nanoseconds since the Unix epoch. -/
abbrev Time := Int

/-- A `time.Duration`, in nanoseconds. -/
abbrev Duration := Int

/-- The constant `time.Second`. -/
def Second : Duration := 1000000000

/-- The method `Time.Sub`: the difference `t - u`, or the largest or smallest `Duration` when
the difference does not fit. -/
def Time.Sub (t u : Time) : Duration :=
  if t - u < Go.MinInt64 then Go.MinInt64
  else if Go.MaxInt64 < t - u then Go.MaxInt64
  else t - u

/-- A `uuid.UUID`, identified with its canonical text form (`UUID.String()` is the identity). -/
abbrev UUID := String

/-- The fields of `config.AuthConfig`. -/
structure AuthConfig where
  AccessSecret : String
  RefreshSecret : String
  AccessTokenTTL : Duration
  RefreshTokenTTL : Duration
  TokenIssuer : String
  SecretVersion : String
  OAuthRedirectURL : String := ""
  OAuthGoogleClientID : String := ""
  deriving DecidableEq, Repr

/-- The fields of `user.User` that the manager reads. -/
structure User where
  ID : UUID
  Role : String
  deriving DecidableEq, Repr

/-- Errors of the JWT library, of the store client, and those made with `errors.New`. -/
inductive Err where
  /-- The error `jwt.ErrTokenMalformed` -/
  | tokenMalformed
  /-- The error `jwt.ErrTokenUnverifiable`, with the reason -/
  | tokenUnverifiable (msg : String)
  /-- The error `jwt.ErrTokenSignatureInvalid` -/
  | tokenSignatureInvalid
  /-- The error `jwt.ErrTokenInvalidClaims`, joined from `ErrTokenExpired` and `ErrTokenNotValidYet` -/
  | tokenInvalidClaims (expired notValidYet : Bool)
  /-- The error `jwt.ErrInvalidKeyType` and the refusal of the `none` method when signing -/
  | invalidKey
  /-- An error made by `errors.New(msg)` -/
  | New (msg : String)
  /-- The error `redis.Nil`: the key does not exist -/
  | redisNil
  /-- The error `ctx.Err()` of a done context (`context.Canceled`, `context.DeadlineExceeded`) -/
  | contextDone
  /-- Any other failure reported by the store client -/
  | storage (msg : String)
  deriving DecidableEq, Repr

/-- A `context.Context`: only `ctx.Err()` is observed. -/
structure Context where
  Err : Option Err
  deriving DecidableEq, Repr

/-- The context `context.Background()`, never done. -/
def Context.Background : Context := ⟨none⟩

/-! ## JWT library -/

/-- Hash functions of the HMAC / RSA / ECDSA signing methods. -/
inductive Hash where
  | SHA256 | SHA384 | SHA512
  deriving DecidableEq, Repr

/-- Signing methods registered by the JWT library. `hmac` is `*jwt.SigningMethodHMAC`. -/
inductive SigningMethod where
  | hmac (h : Hash)
  | rsa (h : Hash)
  | rsapss (h : Hash)
  | ecdsa (h : Hash)
  | ed25519
  | unsecured
  deriving DecidableEq, Repr

/-- The variable `jwt.SigningMethodHS256`. -/
def SigningMethodHS256 : SigningMethod := .hmac .SHA256

/-- The header name `Alg()` of a signing method. -/
def SigningMethod.Alg : SigningMethod → String
  | .hmac .SHA256 => "HS256"
  | .hmac .SHA384 => "HS384"
  | .hmac .SHA512 => "HS512"
  | .rsa .SHA256 => "RS256"
  | .rsa .SHA384 => "RS384"
  | .rsa .SHA512 => "RS512"
  | .rsapss .SHA256 => "PS256"
  | .rsapss .SHA384 => "PS384"
  | .rsapss .SHA512 => "PS512"
  | .ecdsa .SHA256 => "ES256"
  | .ecdsa .SHA384 => "ES384"
  | .ecdsa .SHA512 => "ES512"
  | .ed25519 => "EdDSA"
  | .unsecured => "none"

/-- Modelled from the spec: the registry of signing methods of the JWT library the source
imports (§4.1 "unsupported/absent algorithm"); the library itself is not under `src/`. The
registered methods are those of golang-jwt v5. -/
def signingMethods : List SigningMethod :=
  [.hmac .SHA256, .hmac .SHA384, .hmac .SHA512,
   .rsa .SHA256, .rsa .SHA384, .rsa .SHA512,
   .rsapss .SHA256, .rsapss .SHA384, .rsapss .SHA512,
   .ecdsa .SHA256, .ecdsa .SHA384, .ecdsa .SHA512,
   .ed25519, .unsecured]

/-- The registry lookup `jwt.GetSigningMethod`: the registered method of that name, if any. -/
def GetSigningMethod (alg : String) : Option SigningMethod :=
  signingMethods.find? (fun method => method.Alg == alg)

/-- The type assertion `t.Method.(*jwt.SigningMethodHMAC)`. -/
def SigningMethod.isHMAC : SigningMethod → Bool
  | .hmac _ => true
  | _ => false

/-- The struct `jwt.RegisteredClaims`; a `NumericDate` is a whole number of seconds. -/
structure RegisteredClaims where
  Issuer : String
  Subject : String
  ExpiresAt : Option Int
  NotBefore : Option Int
  IssuedAt : Option Int
  ID : String
  deriving DecidableEq, Repr

/-- The struct `Claims`: registered claims extended with app metadata. -/
structure Claims where
  UserID : UUID
  Role : String
  SecretVer : String
  TokenType : String
  RegisteredClaims : RegisteredClaims
  deriving DecidableEq, Repr

/-- A signature (the bytes of the third segment of a token). -/
abbrev Signature := List Nat

/-- What a signature covers: the header and the claim set (the text `header.payload`). -/
structure SigningInput where
  alg : Option String
  claims : Claims
  deriving DecidableEq, Repr

/-- A token that decodes: header `alg` (if any), claim set and signature. -/
structure Token where
  alg : Option String
  claims : Claims
  signature : Signature
  deriving DecidableEq, Repr

/-- The text of a token as passed around by callers. -/
inductive TokenString where
  | malformed (raw : String)
  | jws (t : Token)
  deriving DecidableEq, Repr

/-- The keyed hash primitive: hash function, key, signed text, resulting tag. -/
abbrev MAC := Hash → String → SigningInput → Signature

/-- The function `jwt.NewNumericDate`: truncation to `jwt.TimePrecision`, one second. -/
def NewNumericDate (t : Time) : Int := t / Second

/-- The instant a `NumericDate` stands for. -/
def NumericDate.Time (d : Int) : Time := d * Second

/-- Modelled from the spec: `SigningMethod.Sign` of the JWT library with a `[]byte` key
(§4.1 "Signing uses a symmetric MAC scheme"). Only the HMAC methods take such a key. -/
def SigningMethod.Sign (mac : MAC) (m : SigningMethod) (input : SigningInput) (key : String) :
    Except Err Signature :=
  match m with
  | .hmac h => .ok (mac h key input)
  | _ => .error .invalidKey

/-- Modelled from the spec: `SigningMethod.Verify` of the JWT library with a `[]byte` key
(§4.1 "Decoding must reject: signature mismatch"). -/
def SigningMethod.Verify (mac : MAC) (m : SigningMethod) (input : SigningInput)
    (sig : Signature) (key : String) : Option Err :=
  match m with
  | .hmac h => if mac h key input = sig then none else some .tokenSignatureInvalid
  | _ => some .invalidKey

/-- The calls `jwt.NewWithClaims(method, claims)` followed by `SignedString(key)`. -/
def SignedString (mac : MAC) (method : SigningMethod) (claims : Claims) (key : String) :
    Except Err TokenString :=
  match method.Sign mac ⟨some method.Alg, claims⟩ key with
  | .error e => .error e
  | .ok sig => .ok (.jws ⟨some method.Alg, claims, sig⟩)

/-- Modelled from the spec: the default claims validator of the JWT library (§4.1 "expiry in
the past"): `exp`, when present, must be after now; `nbf`, when present, must not be after
now. The result lists which of the two checks failed. -/
def Validate (now : Time) (c : Claims) : Bool × Bool :=
  (match c.RegisteredClaims.ExpiresAt with
    | none => false
    | some exp => !decide (now < NumericDate.Time exp),
   match c.RegisteredClaims.NotBefore with
    | none => false
    | some nbf => decide (now < NumericDate.Time nbf))

/-- The result of `jwt.ParseWithClaims` when it returns no error. -/
structure ParsedToken where
  Method : SigningMethod
  Claims : Claims
  Valid : Bool
  deriving DecidableEq, Repr

/-- Modelled from the spec: `jwt.ParseWithClaims` of the JWT library (§4.1 decode contract),
with the default parser options: decode, look the header algorithm up in the registry, ask
`keyFunc` for the key, verify the signature, validate the claims. -/
def ParseWithClaims (mac : MAC) (now : Time) (tokenString : TokenString)
    (keyFunc : SigningMethod → Except String String) : Except Err ParsedToken :=
  match tokenString with
  | .malformed _ => .error .tokenMalformed
  | .jws t =>
    match t.alg with
    | none => .error (.tokenUnverifiable "signing method (alg) is unspecified")
    | some alg =>
      match GetSigningMethod alg with
      | none => .error (.tokenUnverifiable "signing method (alg) is unavailable")
      | some method =>
        match keyFunc method with
        | .error msg => .error (.tokenUnverifiable msg)
        | .ok key =>
          match method.Verify mac ⟨t.alg, t.claims⟩ t.signature key with
          | some _ => .error .tokenSignatureInvalid
          | none =>
            match Validate now t.claims with
            | (false, false) => .ok ⟨method, t.claims, true⟩
            | (expired, notValidYet) => .error (.tokenInvalidClaims expired notValidYet)

/-! ## Refresh store -/

/-- The contents of a key/value store: `sync.Map` of the manager, or the keys of the shared
store. At most the first entry of a key is visible. -/
abbrev KV := List (String × TokenString)

/-- The method `sync.Map.Load`. -/
def KV.Load (s : KV) (key : String) : Option TokenString :=
  List.lookup key s

/-- The method `sync.Map.Delete`. -/
def KV.Delete (s : KV) (key : String) : KV :=
  s.filter (fun e => !(e.1 == key))

/-- The method `sync.Map.Store`. -/
def KV.Store (s : KV) (key : String) (value : TokenString) : KV :=
  (key, value) :: s.Delete key

/-- The shared store seen through a `*redis.Client`. Expiry of entries is not modelled: an
entry is written with the refresh lifetime, so it outlives the `exp` of the token it holds. -/
structure RedisClient where
  keys : KV
  deriving DecidableEq, Repr

/-- Modelled from the spec: the command `Get(ctx, key).Result()` of the store client (§4.2
`get`, §5 cancellation): a done context or an injected fault fails the command; a missing key
is the error `redis.Nil`. -/
def RedisClient.Get (r : RedisClient) (ctx : Context) (fault : Option Err) (key : String) :
    Except Err TokenString :=
  match ctx.Err with
  | some _ => .error .contextDone
  | none =>
    match fault with
    | some e => .error e
    | none =>
      match r.keys.Load key with
      | none => .error .redisNil
      | some v => .ok v

/-- Modelled from the spec: the command `Set(ctx, key, value, ttl).Err()` of the store client
(§4.2 `put`, §5 cancellation): a done context or an injected fault fails the command and
writes nothing. -/
def RedisClient.Set (r : RedisClient) (ctx : Context) (fault : Option Err) (key : String)
    (value : TokenString) (_ttl : Duration) : Option Err × RedisClient :=
  match ctx.Err with
  | some _ => (some .contextDone, r)
  | none =>
    match fault with
    | some e => (some e, r)
    | none => (none, ⟨r.keys.Store key value⟩)

/-- Modelled from the spec: the command `Del(ctx, key).Err()` of the store client (§4.2
`delete`, §5 cancellation): a done context or an injected fault fails the command and
deletes nothing. -/
def RedisClient.Del (r : RedisClient) (ctx : Context) (fault : Option Err) (key : String) :
    Option Err × RedisClient :=
  match ctx.Err with
  | some _ => (some .contextDone, r)
  | none =>
    match fault with
    | some e => (some e, r)
    | none => (none, ⟨r.keys.Delete key⟩)

/-! ## Manager -/

/-- The struct `user.AuthTokens`. -/
structure AuthTokens where
  AccessToken : TokenString
  RefreshToken : TokenString
  ExpiresIn : Int
  TokenType : String
  deriving DecidableEq, Repr

/-- The struct `Manager`; `redis = none` is the nil client. -/
structure Manager where
  cfg : AuthConfig
  redis : Option RedisClient
  memoryTokens : KV
  deriving DecidableEq, Repr

/-- The constructor `NewManager`. -/
def NewManager (cfg : AuthConfig) (redisClient : Option RedisClient) : Manager :=
  ⟨cfg, redisClient, []⟩

/-- The store the manager consults: the shared one when a client is set, else its own map. -/
def Manager.store (m : Manager) : KV :=
  match m.redis with
  | some r => r.keys
  | none => m.memoryTokens

/-- What one call of the manager reads from its environment: the clock at each `time.Now()`,
the identifiers drawn by `uuid.NewString()`, and the failure (if any) the shared store
answers each command with. -/
structure Env where
  parseNow : Time
  accessNow : Time
  accessID : String
  refreshNow : Time
  refreshID : String
  getFault : Option Err := none
  setFault : Option Err := none
  delFault : Option Err := none
  deriving DecidableEq, Repr

/-- The method `Manager.refreshKey`. -/
def Manager.refreshKey (_m : Manager) (id : String) : String :=
  "refresh:" ++ id

/-- The method `Duration.Seconds()`: the whole seconds and the remaining nanoseconds, each
converted to `float64`, the latter divided by `1e9`, added. -/
def Duration.Seconds (d : Duration) : Go.Float64 :=
  let sec := Int.tdiv d Second
  let nsec := Int.tmod d Second
  (Go.Float64.ofInt sec).add ((Go.Float64.ofInt nsec).div (.finite 1000000000))

/-- The method `Manager.issueAccess`, reading the clock as `now` and drawing `id`. -/
def Manager.issueAccess (mac : MAC) (m : Manager) (now : Time) (id : String) (u : User) :
    Except Err (TokenString × Int) :=
  let expires := now + m.cfg.AccessTokenTTL
  let claims : Claims :=
    { UserID := u.ID
      Role := u.Role
      SecretVer := m.cfg.SecretVersion
      TokenType := "access"
      RegisteredClaims :=
        { Issuer := m.cfg.TokenIssuer
          Subject := u.ID
          ExpiresAt := some (NewNumericDate expires)
          NotBefore := none
          IssuedAt := some (NewNumericDate now)
          ID := id } }
  match SignedString mac SigningMethodHS256 claims m.cfg.AccessSecret with
  | .error err => .error err
  | .ok encoded => .ok (encoded, (Duration.Seconds m.cfg.AccessTokenTTL).toInt)

/-- The method `Manager.issueRefresh`, reading the clock as `now` and drawing `id`. -/
def Manager.issueRefresh (mac : MAC) (m : Manager) (now : Time) (id : String) (u : User) :
    Except Err (TokenString × Claims) :=
  let expires := now + m.cfg.RefreshTokenTTL
  let claims : Claims :=
    { UserID := u.ID
      Role := u.Role
      SecretVer := m.cfg.SecretVersion
      TokenType := "refresh"
      RegisteredClaims :=
        { Issuer := m.cfg.TokenIssuer
          Subject := u.ID
          ExpiresAt := some (NewNumericDate expires)
          NotBefore := none
          IssuedAt := some (NewNumericDate now)
          ID := id } }
  match SignedString mac SigningMethodHS256 claims m.cfg.RefreshSecret with
  | .error err => .error err
  | .ok encoded => .ok (encoded, claims)

/-- The key function `parse` hands to the JWT library. -/
def keyFunc (secret : String) (method : SigningMethod) : Except String String :=
  if !method.isHMAC then .error "unexpected signing method" else .ok secret

/-- The method `Manager.parse`, reading the clock as `now`. The type assertion
`parsed.Claims.(*Claims)` always holds, the claims having been passed in as `&Claims{}`. -/
def Manager.parse (mac : MAC) (m : Manager) (now : Time) (token : TokenString)
    (secret : String) : Except Err Claims :=
  match ParseWithClaims mac now token (keyFunc secret) with
  | .error err => .error err
  | .ok parsed =>
    if !parsed.Valid then .error (.New "invalid token")
    else if parsed.Claims.SecretVer ≠ m.cfg.SecretVersion then
      .error (.New "token version mismatch")
    else .ok parsed.Claims

/-- The method `Manager.persistRefresh`. -/
def Manager.persistRefresh (m : Manager) (ctx : Context) (fault : Option Err)
    (claims : Claims) (token : TokenString) : Option Err × Manager :=
  let key := m.refreshKey claims.RegisteredClaims.ID
  match m.redis with
  | some r =>
    let (err, r') := r.Set ctx fault key token m.cfg.RefreshTokenTTL
    (err, { m with redis := some r' })
  | none => (none, { m with memoryTokens := m.memoryTokens.Store key token })

/-- The method `Manager.ensureRefreshValid`. -/
def Manager.ensureRefreshValid (m : Manager) (ctx : Context) (fault : Option Err)
    (claims : Claims) (token : TokenString) : Option Err :=
  let key := m.refreshKey claims.RegisteredClaims.ID
  match m.redis with
  | some r =>
    match r.Get ctx fault key with
    | .error err => some err
    | .ok val => if val ≠ token then some (.New "refresh token revoked") else none
  | none =>
    match m.memoryTokens.Load key with
    | some val => if val ≠ token then some (.New "refresh token revoked") else none
    | none => some (.New "refresh token missing")

/-- The method `Manager.revoke`. -/
def Manager.revoke (m : Manager) (ctx : Context) (fault : Option Err) (claims : Claims) :
    Option Err × Manager :=
  let key := m.refreshKey claims.RegisteredClaims.ID
  match m.redis with
  | some r =>
    let (err, r') := r.Del ctx fault key
    (err, { m with redis := some r' })
  | none => (none, { m with memoryTokens := m.memoryTokens.Delete key })

/-- The method `Manager.IssueTokens`: the result and the manager afterwards. -/
def Manager.IssueTokens (mac : MAC) (m : Manager) (ctx : Context) (env : Env) (u : User) :
    Except Err AuthTokens × Manager :=
  match m.issueAccess mac env.accessNow env.accessID u with
  | .error err => (.error err, m)
  | .ok (access, exp) =>
    match m.issueRefresh mac env.refreshNow env.refreshID u with
    | .error err => (.error err, m)
    | .ok (refresh, refreshClaims) =>
      match m.persistRefresh ctx env.setFault refreshClaims refresh with
      | (some err, m') => (.error err, m')
      | (none, m') => (.ok ⟨access, refresh, exp, "Bearer"⟩, m')

/-- The method `Manager.RefreshTokens`: the result and the manager afterwards. -/
def Manager.RefreshTokens (mac : MAC) (m : Manager) (ctx : Context) (env : Env) (u : User)
    (token : TokenString) : Except Err AuthTokens × Manager :=
  match m.parse mac env.parseNow token m.cfg.RefreshSecret with
  | .error err => (.error err, m)
  | .ok claims =>
    if claims.UserID ≠ u.ID ∨ claims.TokenType ≠ "refresh" then
      (.error (.New "invalid refresh token"), m)
    else
      match m.ensureRefreshValid ctx env.getFault claims token with
      | some err => (.error err, m)
      | none =>
        match m.issueAccess mac env.accessNow env.accessID u with
        | .error err => (.error err, m)
        | .ok (access, exp) =>
          match m.issueRefresh mac env.refreshNow env.refreshID u with
          | .error err => (.error err, m)
          | .ok (newRefresh, refreshClaims) =>
            match m.persistRefresh ctx env.setFault refreshClaims newRefresh with
            | (some err, m') => (.error err, m')
            | (none, m') =>
              let (_, m'') := m'.revoke ctx env.delFault claims
              (.ok ⟨access, newRefresh, exp, "Bearer"⟩, m'')

/-- The method `Manager.ParseAccessToken`. -/
def Manager.ParseAccessToken (mac : MAC) (m : Manager) (now : Time) (token : TokenString) :
    Except Err Claims :=
  m.parse mac now token m.cfg.AccessSecret

/-- The method `Manager.ExtractUserID`. -/
def Manager.ExtractUserID (mac : MAC) (m : Manager) (now : Time) (refreshToken : TokenString) :
    Except Err UUID :=
  match m.parse mac now refreshToken m.cfg.RefreshSecret with
  | .error err => .error err
  | .ok claims => .ok claims.UserID

/-! ## Derived notions used to state properties -/

/-- The token `SignedString` produces for `SigningMethodHS256`, claim set and key. -/
def HS256Token (mac : MAC) (claims : Claims) (key : String) : TokenString :=
  .jws ⟨some "HS256", claims, mac .SHA256 key ⟨some "HS256", claims⟩⟩

/-- The claim set `issueAccess` builds. -/
def Manager.accessClaims (m : Manager) (now : Time) (id : String) (u : User) : Claims :=
  { UserID := u.ID, Role := u.Role, SecretVer := m.cfg.SecretVersion, TokenType := "access",
    RegisteredClaims :=
      { Issuer := m.cfg.TokenIssuer, Subject := u.ID,
        ExpiresAt := some (NewNumericDate (now + m.cfg.AccessTokenTTL)), NotBefore := none,
        IssuedAt := some (NewNumericDate now), ID := id } }

/-- The claim set `issueRefresh` builds. -/
def Manager.refreshClaims (m : Manager) (now : Time) (id : String) (u : User) : Claims :=
  { UserID := u.ID, Role := u.Role, SecretVer := m.cfg.SecretVersion, TokenType := "refresh",
    RegisteredClaims :=
      { Issuer := m.cfg.TokenIssuer, Subject := u.ID,
        ExpiresAt := some (NewNumericDate (now + m.cfg.RefreshTokenTTL)), NotBefore := none,
        IssuedAt := some (NewNumericDate now), ID := id } }

/-- The manager with the contents of the store it consults replaced. -/
def Manager.withStore (m : Manager) (s : KV) : Manager :=
  match m.redis with
  | some _ => { m with redis := some ⟨s⟩ }
  | none => { m with memoryTokens := s }

/-- The error a store command of the manager ends with before touching the store: none on the
in-process map; on the shared store, that of a done context, else the injected fault. -/
def Manager.storeErr (m : Manager) (ctx : Context) (fault : Option Err) : Option Err :=
  match m.redis with
  | none => none
  | some _ =>
    match ctx.Err with
    | some _ => some .contextDone
    | none => fault

/-- The error of a lookup that finds no entry under the key. -/
def Manager.absentErr (m : Manager) : Err :=
  match m.redis with
  | some _ => .redisNil
  | none => .New "refresh token missing"

/-- The keys a store holds an entry for. -/
def KV.keys (s : KV) : Finset String := (s.map Prod.fst).toFinset

/-- One call of the manager that may write to the refresh store. -/
inductive Call where
  | issue (ctx : Context) (env : Env) (u : User)
  | refresh (ctx : Context) (env : Env) (u : User) (token : TokenString)
  deriving DecidableEq, Repr

/-- The identifier a call draws for the refresh token it mints. -/
def Call.refreshID : Call → String
  | .issue _ env _ => env.refreshID
  | .refresh _ env _ _ => env.refreshID

/-- A stand-in for the keyed hash: the tag spells out hash, key and signed claims, so two
tags agree only when those agree. -/
def demoMAC : MAC := fun h key input =>
  let hs : Nat := match h with
    | .SHA256 => 256
    | .SHA384 => 384
    | .SHA512 => 512
  let c := input.claims
  hs :: (key ++ "|" ++ (input.alg.getD "") ++ "|" ++ c.UserID ++ "|" ++ c.Role ++ "|" ++
    c.SecretVer ++ "|" ++ c.TokenType ++ "|" ++ c.RegisteredClaims.ID).toList.map Char.toNat
    ++ [(c.RegisteredClaims.ExpiresAt.getD 0).toNat]

/-- The configuration defaults of `config.Load`, with distinct secrets. -/
def demoCfg : AuthConfig :=
  { AccessSecret := "a-secret"
    RefreshSecret := "r-secret"
    AccessTokenTTL := 15 * 60 * Second
    RefreshTokenTTL := 24 * 3600 * Second
    TokenIssuer := "kidpech.app"
    SecretVersion := "v1" }

/-- A sample user. -/
def demoUser : User := { ID := "u1", Role := "user" }

/-- A sample environment: clock at 1000 s, identifiers `a1` and `r1`, no store fault. -/
def demoEnv : Env :=
  { parseNow := 1000 * Second, accessNow := 1000 * Second, accessID := "a1",
    refreshNow := 1000 * Second, refreshID := "r1" }

/-- A manager on the in-process map, fresh. -/
def demoManager : Manager := NewManager demoCfg none

/-- A manager on the shared store, fresh. -/
def demoShared : Manager := NewManager demoCfg (some ⟨[]⟩)

/-- The pair `IssueTokens` returns to `demoUser` in `demoEnv`. -/
def demoTokens : AuthTokens :=
  { AccessToken :=
      HS256Token demoMAC (demoManager.accessClaims (1000 * Second) "a1" demoUser) "a-secret"
    RefreshToken :=
      HS256Token demoMAC (demoManager.refreshClaims (1000 * Second) "r1" demoUser) "r-secret"
    ExpiresIn := (Duration.Seconds demoCfg.AccessTokenTTL).toInt
    TokenType := "Bearer" }

/-- The in-process manager after that issue. -/
def demoIssued : Manager :=
  { demoManager with memoryTokens := [("refresh:r1", demoTokens.RefreshToken)] }

/-- The shared-store manager after that issue. -/
def demoSharedIssued : Manager :=
  { demoShared with redis := some ⟨[("refresh:r1", demoTokens.RefreshToken)]⟩ }

/-- A later environment: clock at 2000 s, identifiers `a2` and `r2`. -/
def demoEnv2 : Env :=
  { parseNow := 2000 * Second, accessNow := 2000 * Second, accessID := "a2",
    refreshNow := 2000 * Second, refreshID := "r2" }

/-- The refresh token a rotation in `demoEnv2` returns. -/
def demoRefresh2 : TokenString :=
  HS256Token demoMAC (demoManager.refreshClaims (2000 * Second) "r2" demoUser) "r-secret"

/-- The in-process manager after rotating `demoTokens` in `demoEnv2`. -/
def demoRotated : Manager :=
  { demoManager with memoryTokens := [("refresh:r2", demoRefresh2)] }

/-- The environment `demoEnv2` with a failing delete command. -/
def demoEnv2DelFails : Env := { demoEnv2 with delFault := some (.storage "i/o timeout") }

/-- The shared-store manager after rotating `demoTokens` while the delete command fails. -/
def demoSharedStale : Manager :=
  { demoShared with
    redis := some ⟨[("refresh:r2", demoRefresh2), ("refresh:r1", demoTokens.RefreshToken)]⟩ }

/-- A refresh token for `demoUser` signed under a secret that is not the refresh secret. -/
def demoForged : Token :=
  { alg := some "HS256"
    claims := demoManager.refreshClaims (1000 * Second) "r1" demoUser
    signature := demoMAC .SHA256 "not-the-secret"
      ⟨some "HS256", demoManager.refreshClaims (1000 * Second) "r1" demoUser⟩ }

/-- The access token of `demoTokens`, decoded. -/
def demoAccess : Token :=
  { alg := some "HS256"
    claims := demoManager.accessClaims (1000 * Second) "a1" demoUser
    signature := demoMAC .SHA256 "a-secret"
      ⟨some "HS256", demoManager.accessClaims (1000 * Second) "a1" demoUser⟩ }

/-- The manager `demoIssued` after the active secret version was bumped to `v2`. -/
def demoBumped : Manager :=
  { demoIssued with cfg := { demoCfg with SecretVersion := "v2" } }

/-- The pair a rotation in `demoEnv2` returns. -/
def demoRefreshed : AuthTokens :=
  { AccessToken :=
      HS256Token demoMAC (demoManager.accessClaims (2000 * Second) "a2" demoUser) "a-secret"
    RefreshToken := demoRefresh2
    ExpiresIn := (Duration.Seconds demoCfg.AccessTokenTTL).toInt
    TokenType := "Bearer" }

/-- The refresh token of `demoTokens`, decoded. -/
def demoRefresh1 : Token :=
  { alg := some "HS256"
    claims := demoManager.refreshClaims (1000 * Second) "r1" demoUser
    signature := demoMAC .SHA256 "r-secret"
      ⟨some "HS256", demoManager.refreshClaims (1000 * Second) "r1" demoUser⟩ }

/-- The environment `demoEnv2` with a failing set command. -/
def demoEnv2SetFails : Env := { demoEnv2 with setFault := some (.storage "i/o timeout") }

/-- The environment `demoEnv2` with a failing get command. -/
def demoEnv2GetFails : Env := { demoEnv2 with getFault := some (.storage "i/o timeout") }

/-- A context that was cancelled. -/
def demoCancelled : Context := ⟨some .contextDone⟩

/-- The refresh claims of `demoTokens` under a header naming `HS384`, signed with the refresh
secret by the keyed hash over SHA-384. -/
def demoHS384 : Token :=
  { alg := some "HS384"
    claims := demoManager.refreshClaims (1000 * Second) "r1" demoUser
    signature := demoMAC .SHA384 "r-secret"
      ⟨some "HS384", demoManager.refreshClaims (1000 * Second) "r1" demoUser⟩ }

end Auth

/-!
# Throttling core: `internal/infrastructure/ratelimit/limiter.go`

* The token count of a bucket and `Duration.Minutes()` are `float64` values, every operation
  rounding to nearest; `limit` and `burst` are 64-bit `int`s, whose sums wrap around.
* The mutex of `MemoryLimiter` is not modelled: calls are taken one after the other.
-/

namespace RateLimit

open Auth (Time Duration Context Err)
open Go (Float64 wrap64)

/-- The constant `time.Minute`. -/
def Minute : Duration := 60 * Auth.Second

/-- The struct `RateLimitInfo`. -/
structure RateLimitInfo where
  Allowed : Bool
  Limit : Int
  Remaining : Int
  Reset : Time
  deriving DecidableEq, Repr

/-- The zero value `RateLimitInfo{}`; the zero `time.Time` is taken as instant 0. -/
def RateLimitInfo.zero : RateLimitInfo := ⟨false, 0, 0, 0⟩

/-- The struct `bucket`. -/
structure bucket where
  tokens : Float64
  last : Time
  deriving DecidableEq, Repr

/-- The struct `MemoryLimiter`; `store` is the map, total as a lookup function. -/
structure MemoryLimiter where
  limit : Int
  burst : Int
  store : String → Option bucket

/-- The constructor `NewMemoryLimiter`. -/
def NewMemoryLimiter (limit burst : Int) : MemoryLimiter :=
  { limit := limit, burst := burst, store := fun _ => none }

/-- The helper `min` of the package. -/
def min (a b : Float64) : Float64 :=
  if a.lt b then a else b

/-- The method `Duration.Minutes()`: the whole minutes and the remaining nanoseconds, each
converted to `float64`, the latter divided by `60 * 1e9`, added. -/
def Minutes (d : Duration) : Float64 :=
  let min := Int.tdiv d Minute
  let nsec := Int.tmod d Minute
  (Float64.ofInt min).add ((Float64.ofInt nsec).div (.finite 60000000000))

/-- The map assignment `m.store[key] = b`, also the write through the pointer `b`. -/
def MemoryLimiter.setBucket (m : MemoryLimiter) (key : String) (b : bucket) : MemoryLimiter :=
  { m with store := fun k => if k = key then some b else m.store k }

/-- The method `MemoryLimiter.Allow`, reading the clock as `now`: the answer, the error (always
nil) and the limiter afterwards. -/
def MemoryLimiter.Allow (m : MemoryLimiter) (_ctx : Context) (now : Time) (key : String) :
    (RateLimitInfo × Option Err) × MemoryLimiter :=
  match m.store key with
  | none =>
    let b : bucket :=
      { tokens := Float64.ofInt (wrap64 (wrap64 (m.limit + m.burst) - 1)), last := now }
    ((⟨true, m.limit, wrap64 (m.limit - 1), now + Minute⟩, none), m.setBucket key b)
  | some b =>
    let delta := Minutes (Auth.Time.Sub now b.last)
    let tokens := min (Float64.ofInt (wrap64 (m.limit + m.burst)))
      (b.tokens.add (delta.mul (Float64.ofInt m.limit)))
    if tokens.ge (.finite 1) then
      let tokens := tokens.sub (.finite 1)
      ((⟨true, m.limit, tokens.toInt, now + Minute⟩, none),
        m.setBucket key { tokens := tokens, last := now })
    else
      ((⟨false, m.limit, 0, now + Minute⟩, none),
        m.setBucket key { tokens := tokens, last := b.last })

/-- One call of `Allow`: the instant the clock shows and the key. -/
structure Call where
  now : Time
  key : String
  deriving DecidableEq, Repr

/-- The answers to a sequence of calls of `MemoryLimiter.Allow`, made one after the other, and
the limiter after the last. -/
def MemoryLimiter.run (m : MemoryLimiter) (calls : List Call) :
    List RateLimitInfo × MemoryLimiter :=
  calls.foldl (fun acc c =>
    let r := acc.2.Allow .Background c.now c.key
    (acc.1 ++ [r.1.1], r.2)) ([], m)

/-! ## Shared counter store and `RedisLimiter` -/

/-- A counter of the shared store with the instant at which its key expires. -/
structure Counter where
  value : Int
  expiresAt : Time
  deriving DecidableEq, Repr

/-- The shared store seen through the `*redis.Client` of the limiter: the counters by key. -/
structure RedisClient where
  counters : String → Option Counter

/-- The counter under a key at instant `t` of the store's clock, if it has not expired. -/
def RedisClient.live (r : RedisClient) (t : Time) (key : String) : Option Counter :=
  match r.counters key with
  | some c => if t < c.expiresAt then some c else none
  | none => none

/-- Modelled from the spec: the command `Decr(ctx, key).Result()` of the store client, with the
behaviour the limiter is written against (§4.4, §6 "atomic-decrement-with-lazy-init"): a done
context or an injected fault fails the command; a key without a live counter is reported
absent (`redis.Nil`) and nothing is written; a live counter is decremented and its new value
returned. -/
def RedisClient.Decr (r : RedisClient) (ctx : Context) (fault : Option Err) (t : Time)
    (key : String) : Except Err Int × RedisClient :=
  match ctx.Err with
  | some _ => (.error .contextDone, r)
  | none =>
    match fault with
    | some e => (.error e, r)
    | none =>
      match r.live t key with
      | none => (.error .redisNil, r)
      | some c =>
        (.ok (c.value - 1),
          { counters := fun k => if k = key then some { c with value := c.value - 1 }
                                 else r.counters k })

/-- Modelled from the spec: the transaction `TxPipeline()`, `Set(ctx, key, value, ttl)`,
`Exec(ctx)` of the store client (§4.4 "creates a counter ... with a one-minute expiry"): a done
context or an injected fault fails it and writes nothing; else the key holds `value` and
expires `ttl` after instant `t` of the store's clock. -/
def RedisClient.TxSet (r : RedisClient) (ctx : Context) (fault : Option Err) (t : Time)
    (key : String) (value : Int) (ttl : Duration) : Option Err × RedisClient :=
  match ctx.Err with
  | some _ => (some .contextDone, r)
  | none =>
    match fault with
    | some e => (some e, r)
    | none =>
      (none, { counters := fun k => if k = key then some ⟨value, t + ttl⟩ else r.counters k })

/-- The struct `RedisLimiter`; `pfx` is its field `prefix`. -/
structure RedisLimiter where
  client : RedisClient
  limit : Int
  pfx : String

/-- The constructor `NewRedisLimiter`. -/
def NewRedisLimiter (client : RedisClient) (limit : Int) (pfx : String) : RedisLimiter :=
  { client := client, limit := limit, pfx := pfx }

/-- What one call of `RedisLimiter.Allow` reads from its environment: the clock at
`time.Now()`, the clock of the store, and the failure (if any) the store answers the
decrement and the transaction with. -/
structure Env where
  now : Time
  storeNow : Time
  decrFault : Option Err := none
  execFault : Option Err := none
  deriving DecidableEq, Repr

/-- The method `RedisLimiter.Allow`: the answer, the error and the limiter afterwards. -/
def RedisLimiter.Allow (r : RedisLimiter) (ctx : Context) (env : Env) (key : String) :
    (RateLimitInfo × Option Err) × RedisLimiter :=
  let redisKey := r.pfx ++ ":" ++ key
  match r.client.Decr ctx env.decrFault env.storeNow redisKey with
  | (.error .redisNil, client) =>
    match client.TxSet ctx env.execFault env.storeNow redisKey (r.limit - 1) Minute with
    | (some err, client') =>
      ((⟨false, r.limit, 0, env.now + Minute⟩, some err), { r with client := client' })
    | (none, client') =>
      ((⟨true, r.limit, r.limit - 1, env.now + Minute⟩, none), { r with client := client' })
  | (.error err, client) => ((RateLimitInfo.zero, some err), { r with client := client })
  | (.ok remaining, client) =>
    if remaining ≥ 0 then
      ((⟨true, r.limit, remaining, env.now + Minute⟩, none), { r with client := client })
    else
      ((⟨false, r.limit, 0, env.now + Minute⟩, none), { r with client := client })

/-- The answers to a sequence of calls of `RedisLimiter.Allow` on one key, made one after the
other under a context that is not done, and the limiter after the last. -/
def RedisLimiter.run (r : RedisLimiter) (key : String) (envs : List Env) :
    List (RateLimitInfo × Option Err) × RedisLimiter :=
  envs.foldl (fun acc env =>
    let res := acc.2.Allow .Background env key
    (acc.1 ++ [res.1], res.2)) ([], r)

end RateLimit

namespace RateLimit

open Auth (Second)

/-- Calls on one key: one at 0 s, four at 15 s, four at 30 s. -/
def pollingCalls : List Call :=
  [⟨0, "k"⟩,
   ⟨15 * Second, "k"⟩, ⟨15 * Second, "k"⟩, ⟨15 * Second, "k"⟩, ⟨15 * Second, "k"⟩,
   ⟨30 * Second, "k"⟩, ⟨30 * Second, "k"⟩, ⟨30 * Second, "k"⟩, ⟨30 * Second, "k"⟩]

/-- Calls on two keys at 0 s, 0 s and 30 s. -/
def mixedCalls : List Call :=
  [⟨0, "k"⟩, ⟨0, "k"⟩, ⟨30 * Second, "j"⟩]

/-- Two calls on one key, at 0 s and at 30 s. -/
def twoCalls : List Call :=
  [⟨0, "k"⟩, ⟨30 * Second, "k"⟩]

end RateLimit

namespace RateLimit

open Auth (Second)

/-- A limiter on an empty shared store with `limit = 10`. -/
def demoRedisLimiter : RedisLimiter := NewRedisLimiter ⟨fun _ => none⟩ 10 "ratelimit:ip"

/-- The first call of a window, at 0 s. -/
def demoFirst : Env := { now := 0, storeNow := 0 }

/-- A call at 1 s. -/
def demoLater : Env := { now := 1 * Second, storeNow := 1 * Second }

/-- A call at 1 s whose decrement command fails. -/
def demoDecrFails : Env :=
  { now := 1 * Second, storeNow := 1 * Second, decrFault := some (.storage "i/o timeout") }

end RateLimit

/-!
# Rate-limit middleware: `internal/app/middleware/ratelimit.go`, `pkg/response/response.go`

* Of a `gin.Context` only what the middleware reads and writes is kept: the request context,
  the client IP, the value under the key `user_id`, the response headers, the status and body
  written by `c.JSON`, and whether `c.Abort()` and `c.Next()` were called.
* A limiter behind the interface `ratelimit.Limiter` is the answer it gives to the one call
  the middleware may make to it; the calls made are returned as a trace.
* Every read of the clock by `time.Until` is an explicit input; `time.Until(t)` is
  `t.Sub(now)`, and `int(d.Seconds())` converts the `float64` that `Seconds()` returns.
-/

namespace Response

open Auth (Time Duration Context Err UUID Second)

/-- The struct `ErrorResponse` (without `Details`, which these responses leave empty). -/
structure ErrorResponse where
  Error : String
  Message : String
  deriving DecidableEq, Repr

/-- What `c.Get("user_id")` finds: nothing, a `uuid.UUID`, or a value of another type. -/
inductive KeyValue where
  | absent
  | uuid (id : UUID)
  | other
  deriving DecidableEq, Repr

/-- The parts of a `gin.Context` the middleware touches. -/
structure GinContext where
  requestCtx : Context
  clientIP : String
  userID : KeyValue
  header : List (String × String) := []
  status : Option Nat := none
  body : Option ErrorResponse := none
  aborted : Bool := false
  nextCalled : Bool := false
  deriving DecidableEq, Repr

/-- The call `c.Writer.Header().Set(name, value)`. -/
def GinContext.SetHeader (c : GinContext) (name value : String) : GinContext :=
  { c with header := (name, value) :: c.header.filter (fun h => !(h.1 == name)) }

/-- The value `c.Writer.Header().Get(name)`. -/
def GinContext.GetHeader (c : GinContext) (name : String) : Option String :=
  List.lookup name c.header

/-- The call `c.JSON(code, obj)`. -/
def GinContext.JSON (c : GinContext) (code : Nat) (obj : ErrorResponse) : GinContext :=
  { c with status := some code, body := some obj }

/-- The call `c.Abort()`. -/
def GinContext.Abort (c : GinContext) : GinContext :=
  { c with aborted := true }

/-- The call `c.Next()`: the downstream handlers run. -/
def GinContext.Next (c : GinContext) : GinContext :=
  { c with nextCalled := true }

/-- The method `Time.Unix()`: whole seconds since the epoch. -/
def Unix (t : Time) : Int := t / Second

/-- The constant `http.StatusTooManyRequests`. -/
def StatusTooManyRequests : Nat := 429

/-- The value `TooManyRequests` writes to `Retry-After`, the clock showing `now`: truncate to
seconds, then clamp. -/
def retryAfter (reset now : Time) : Int :=
  let retryAfter := (Auth.Duration.Seconds (Auth.Time.Sub reset now)).toInt
  if retryAfter < 0 then 0 else retryAfter

/-- The function `TooManyRequests`, the clock showing `now`. -/
def TooManyRequests (c : GinContext) (now : Time) (reset : Time) : GinContext :=
  let resetSeconds := toString (Unix reset)
  ((c.SetHeader "Retry-After" (toString (retryAfter reset now))).SetHeader
    "X-RateLimit-Reset" resetSeconds).JSON StatusTooManyRequests
      ⟨"rate_limited", "slow down"⟩

/-- The function `UserIDFromContext`. -/
def UserIDFromContext (c : GinContext) : String :=
  match c.userID with
  | .absent => ""
  | .uuid id => id
  | .other => ""

end Response

namespace Middleware

open Auth (Time Duration Context Err Second)
open RateLimit (RateLimitInfo)
open Response (GinContext)

/-- A value of the interface `ratelimit.Limiter`, as the answer to a call of `Allow`. -/
structure Limiter where
  Allow : Context → String → RateLimitInfo × Option Err

/-- A call the middleware makes to one of its limiters, with the key passed. -/
inductive LimiterCall where
  | ip (key : String)
  | user (key : String)
  deriving DecidableEq, Repr

/-- The clock at each `time.Until` of one run of the middleware. -/
structure Clock where
  ipHeaders : Time
  ipReject : Time
  userHeaders : Time
  userReject : Time
  deriving DecidableEq, Repr

/-- The function `intToString`. -/
def intToString (val : Int) : String := toString val

/-- The value `setHeaders` writes to `Retry-After`, the clock showing `now`: clamp the
duration, then truncate to seconds. -/
def retryAfter (reset now : Time) : Int :=
  let reset := Auth.Time.Sub reset now
  let reset := if reset < 0 then 0 else reset
  (Auth.Duration.Seconds reset).toInt

/-- The function `setHeaders`, the clock showing `now`. -/
def setHeaders (c : GinContext) (now : Time) (info : RateLimitInfo) : GinContext :=
  let c := c.SetHeader "X-RateLimit-Limit" (intToString info.Limit)
  let c := c.SetHeader "X-RateLimit-Remaining" (intToString info.Remaining)
  let c := c.SetHeader "X-RateLimit-Reset" (toString (Response.Unix info.Reset))
  if !info.Allowed then c.SetHeader "Retry-After" (toString (retryAfter info.Reset now))
  else c

/-- The handler `RateLimit(ipLimiter, userLimiter)` builds, run on `c`: the context
afterwards and the calls made to the limiters, in order. -/
def RateLimit (ipLimiter userLimiter : Option Limiter) (clock : Clock) (c : GinContext) :
    GinContext × List LimiterCall :=
  let ctx := c.requestCtx
  let clientIP := c.clientIP
  let ipStage : GinContext × List LimiterCall × Bool :=
    match ipLimiter with
    | none => (c, [], false)
    | some l =>
      match l.Allow ctx ("ip:" ++ clientIP) with
      | (_, some _) => (c, [.ip ("ip:" ++ clientIP)], false)
      | (info, none) =>
        let c := setHeaders c clock.ipHeaders info
        if !info.Allowed then
          ((Response.TooManyRequests c clock.ipReject info.Reset).Abort,
            [.ip ("ip:" ++ clientIP)], true)
        else (c, [.ip ("ip:" ++ clientIP)], false)
  match ipStage with
  | (c, calls, true) => (c, calls)
  | (c, calls, false) =>
    let userID := Response.UserIDFromContext c
    match userLimiter with
    | none => (c.Next, calls)
    | some l =>
      if userID ≠ "" then
        match l.Allow ctx ("user:" ++ userID) with
        | (_, some _) => (c.Next, calls ++ [.user ("user:" ++ userID)])
        | (info, none) =>
          let c := setHeaders c clock.userHeaders info
          if !info.Allowed then
            ((Response.TooManyRequests c clock.userReject info.Reset).Abort,
              calls ++ [.user ("user:" ++ userID)])
          else (c.Next, calls ++ [.user ("user:" ++ userID)])
      else (c.Next, calls)

/-- A `RedisLimiter` behind the interface, answering in environment `env`. -/
def ofRedis (r : RateLimit.RedisLimiter) (env : RateLimit.Env) : Limiter :=
  ⟨fun ctx key => (r.Allow ctx env key).1⟩

/-- A `MemoryLimiter` behind the interface, the clock showing `now`. -/
def ofMemory (m : RateLimit.MemoryLimiter) (now : Time) : Limiter :=
  ⟨fun ctx key => (m.Allow ctx now key).1⟩

/-- A limiter that allows, with 4 of 5 left and the reset at 60 s. -/
def allowing : Limiter := ⟨fun _ _ => (⟨true, 5, 4, 60 * Second⟩, none)⟩

/-- A limiter that denies, with the reset at 60 s. -/
def denying : Limiter := ⟨fun _ _ => (⟨false, 5, 0, 60 * Second⟩, none)⟩

/-- A limiter whose store fails. -/
def failing : Limiter := ⟨fun _ _ => (RateLimitInfo.zero, some (.storage "i/o timeout"))⟩

/-- A request from 10.0.0.1 carrying the user id `u1`. -/
def demoRequest : GinContext :=
  { requestCtx := .Background, clientIP := "10.0.0.1", userID := .uuid "u1" }

/-- The clock at 10 s throughout. -/
def demoClock : Clock := ⟨10 * Second, 10 * Second, 10 * Second, 10 * Second⟩

end Middleware

/-! # The configuration loader (package `config`), as far as the token secrets go -/

namespace Settings

open Auth

/-- What `Load` reads from outside the repository: the process environment (`os.Getenv`, the
empty string for a variable that is not set) and the library functions `strings.TrimSpace`,
`strings.ToLower` and `strconv.Atoi`. -/
structure Host where
  Getenv : String → String
  TrimSpace : String → String
  ToLower : String → String
  Atoi : String → Option Int

/-- The function `getenv`. -/
def getenv (h : Host) (key dflt : String) : String :=
  let val := h.TrimSpace (h.Getenv key)
  if val = "" then dflt else val

/-- The function `getInt`. -/
def getInt (h : Host) (key : String) (dflt : Int) : Int :=
  let val := h.TrimSpace (h.Getenv key)
  if val = "" then dflt
  else
    match h.Atoi val with
    | none => dflt
    | some i => i

/-- The parts of the struct `Config` the token manager and `validate` read. -/
structure Config where
  Driver : String
  Auth : AuthConfig
  deriving DecidableEq, Repr

/-- The method `Config.validate`. -/
def Config.validate (c : Config) : Option Err :=
  if c.Auth.AccessSecret = "" ∨ c.Auth.RefreshSecret = "" then
    some (.New "jwt secrets must be provided")
  else if c.Driver = "postgres" ∨ c.Driver = "mysql" then none
  else some (.New ("unsupported db driver " ++ c.Driver))

/-- The function `Load`, restricted to the database driver and the `Auth` section. -/
def Load (h : Host) : Except Err Config :=
  let cfg : Config :=
    { Driver := h.ToLower (getenv h "DB_DRIVER" "postgres")
      Auth :=
        { AccessSecret := getenv h "JWT_ACCESS_SECRET" (getenv h "JWT_SECRET" "change-me")
          RefreshSecret := getenv h "JWT_REFRESH_SECRET" (getenv h "JWT_SECRET" "change-me")
          AccessTokenTTL := Go.wrap64 (getInt h "JWT_ACCESS_EXP_MIN" 15 * (60 * Second))
          RefreshTokenTTL := Go.wrap64 (getInt h "JWT_REFRESH_EXP_HOURS" 24 * (3600 * Second))
          TokenIssuer := getenv h "JWT_ISSUER" "kidpech.app"
          SecretVersion := getenv h "JWT_SECRET_VERSION" "v1"
          OAuthRedirectURL := getenv h "OAUTH_REDIRECT_URL" ""
          OAuthGoogleClientID := getenv h "OAUTH_GOOGLE_CLIENT_ID" "" } }
  match cfg.validate with
  | some err => .error err
  | none => .ok cfg

/-- A stand-in for `strings.TrimSpace`: leading and trailing ASCII white space removed. -/
def trimASCII (s : String) : String :=
  ⟨((s.data.dropWhile Char.isWhitespace).reverse.dropWhile Char.isWhitespace).reverse⟩

/-- A stand-in for `strings.ToLower`: the letters `A` to `Z` lowered. -/
def lowerASCII (s : String) : String :=
  ⟨s.data.map Char.toLower⟩

/-- A host on which no variable is set. -/
def bareHost : Host :=
  { Getenv := fun _ => "", TrimSpace := trimASCII, ToLower := lowerASCII,
    Atoi := String.toInt? }

/-- The `Auth` section `Load` builds on `bareHost`: the defaults. -/
def defaultAuth : AuthConfig :=
  { AccessSecret := "change-me"
    RefreshSecret := "change-me"
    AccessTokenTTL := 15 * (60 * Second)
    RefreshTokenTTL := 24 * (3600 * Second)
    TokenIssuer := "kidpech.app"
    SecretVersion := "v1" }

/-- A manager built from the defaults, on the in-process map. -/
def defaultManager : Manager := NewManager defaultAuth none

/-- The refresh token `IssueTokens` of `defaultManager` mints for `demoUser` in `demoEnv`. -/
def defaultRefresh : TokenString :=
  HS256Token demoMAC (defaultManager.refreshClaims (1000 * Second) "r1" demoUser) "change-me"

end Settings

/-! # The log buffer (package `diagnostics`) -/

namespace Diagnostics

/-- A slice of strings `[]string`: the address of its backing array, the offset of its first
element in that array, its length and its capacity. -/
structure Slice where
  arr : Nat
  off : Nat
  len : Nat
  cap : Nat
  deriving DecidableEq, Repr

/-- The backing arrays allocated so far; an array's address is its position. -/
abbrev Heap := List (List String)

/-- The elements of a slice. -/
def Heap.elems (h : Heap) (s : Slice) : List String :=
  ((h.getD s.arr []).drop s.off).take s.len

/-- The assignment `s[i] = v`; `none` is the run-time panic of an index out of range. -/
def Heap.setIndex (h : Heap) (s : Slice) (i : Nat) (v : String) : Option Heap :=
  if i < s.len then some (h.set s.arr ((h.getD s.arr []).set (s.off + i) v)) else none

/-- The built-in `make([]string, len, cap)`: a new array of `cap` empty strings. -/
def make (h : Heap) (len cap : Nat) : Slice × Heap :=
  (⟨h.length, 0, len, cap⟩, h ++ [List.replicate cap ""])

/-- The built-in `append(s, entry)`: in place when the capacity allows, else into a new array
that holds the elements, the entry and `grow s.cap` spare places (how many is the run-time
system's choice). -/
def append (grow : Nat → Nat) (h : Heap) (s : Slice) (entry : String) : Slice × Heap :=
  if s.len < s.cap then
    (⟨s.arr, s.off, s.len + 1, s.cap⟩,
      h.set s.arr ((h.getD s.arr []).set (s.off + s.len) entry))
  else
    (⟨h.length, 0, s.len + 1, s.len + 1 + grow s.cap⟩,
      h ++ [h.elems s ++ [entry] ++ List.replicate (grow s.cap) ""])

/-- The built-in `copy(dst, src)`: the first `min(len(dst), len(src))` elements. -/
def copy (h : Heap) (dst src : Slice) : Heap :=
  let n := Nat.min dst.len src.len
  let a := h.getD dst.arr []
  h.set dst.arr (a.take dst.off ++ (h.elems src).take n ++ a.drop (dst.off + n))

/-- The struct `LogBuffer`, without its mutex. -/
structure LogBuffer where
  cap : Int
  data : Slice
  deriving DecidableEq, Repr

/-- The constructor `NewLogBuffer`. -/
def NewLogBuffer (h : Heap) (limit : Int) : LogBuffer × Heap :=
  let limit := if limit ≤ 0 then 100 else limit
  let r := make h 0 limit.toNat
  ({ cap := limit, data := r.1 }, r.2)

/-- The method `LogBuffer.Append`; `none` is the run-time panic of slicing `data[1:]` with no
element. -/
def LogBuffer.Append (grow : Nat → Nat) (b : LogBuffer) (h : Heap) (entry : String) :
    Option (LogBuffer × Heap) :=
  if (b.data.len : Int) ≥ b.cap then
    if b.data.len = 0 then none
    else
      let data : Slice := ⟨b.data.arr, b.data.off + 1, b.data.len - 1, b.data.cap - 1⟩
      let r := append grow h data entry
      some ({ b with data := r.1 }, r.2)
  else
    let r := append grow h b.data entry
    some ({ b with data := r.1 }, r.2)

/-- The method `LogBuffer.Snapshot`: the slice returned and the heap afterwards. -/
def LogBuffer.Snapshot (b : LogBuffer) (h : Heap) : Slice × Heap :=
  let r := make h b.data.len b.data.len
  (r.1, copy r.2 r.1 b.data)

/-- A sequence of `Append` calls, one after the other. -/
def LogBuffer.appendAll (grow : Nat → Nat) (b : LogBuffer) (h : Heap) :
    List String → Option (LogBuffer × Heap)
  | [] => some (b, h)
  | entry :: rest =>
    match b.Append grow h entry with
    | none => none
    | some r => LogBuffer.appendAll grow r.1 r.2 rest

/-- A slice lies within the heap: its array is allocated, its capacity ends within the array,
and its length is within its capacity. -/
def Slice.within (s : Slice) (h : Heap) : Prop :=
  s.arr < h.length ∧ s.off + s.cap ≤ (h.getD s.arr []).length ∧ s.len ≤ s.cap

instance (s : Slice) (h : Heap) : Decidable (s.within h) := by
  unfold Slice.within
  infer_instance

/-- A sample of the run-time system's growth: as many spare places as the old capacity. -/
def doubling : Nat → Nat := fun c => c

end Diagnostics

/-! # The user service (package `user`) -/

namespace UserService

open Auth (Err Context UUID Time TokenString AuthTokens)

/-- The struct `User`; a zero `time.Time` is instant 0. -/
structure User where
  ID : UUID
  Email : String
  Name : String
  PasswordHash : String
  ProfileImage : Option String := none
  Role : String
  RefreshVersion : Int := 0
  LastLoginAt : Option Time := none
  PasswordResetAt : Option Time := none
  LastPasswordHash : String := ""
  CreatedAt : Time := 0
  UpdatedAt : Time := 0
  DeletedAt : Option Time := none
  deriving DecidableEq, Repr

/-- The struct `RegisterRequest`. -/
structure RegisterRequest where
  Email : String
  Password : String
  Name : String
  ProfileImage : String := ""
  deriving DecidableEq, Repr

/-- The struct `LoginRequest`. -/
structure LoginRequest where
  Email : String
  Password : String
  deriving DecidableEq, Repr

/-- The struct `AuthResponse`. -/
structure AuthResponse where
  User : User
  Tokens : AuthTokens
  deriving DecidableEq, Repr

/-- The sentinel `ErrDuplicateEmail`. -/
def ErrDuplicateEmail : Err := .New "email already registered"

/-- The sentinel `ErrInvalidCreds`. -/
def ErrInvalidCreds : Err := .New "invalid credentials"

/-- The sentinel `ErrUserNotFound`. -/
def ErrUserNotFound : Err := .New "user not found"

/-- The sentinel `ErrInvalidToken`. -/
def ErrInvalidToken : Err := .New "invalid token"

/-- The sentinel `ErrRegistrationDisabled`. -/
def ErrRegistrationDisabled : Err := .New "registration disabled"

/-- The interface `Repository`, over the state `ρ` of an implementation: the methods the three
service methods below call. A write returns the state afterwards; a read returns the pair
`(*User, error)` and leaves the state as it is. -/
structure Repository (ρ : Type) where
  Create : ρ → Context → User → Option Err × ρ
  Update : ρ → Context → User → Option Err × ρ
  GetByEmail : ρ → Context → String → Option User × Option Err
  GetByID : ρ → Context → UUID → Option User × Option Err

/-- The interface `TokenManager`, over the state `τ` of an implementation. -/
structure TokenManager (τ : Type) where
  IssueTokens : τ → Context → User → Except Err AuthTokens × τ
  RefreshTokens : τ → Context → User → TokenString → Except Err AuthTokens × τ
  ExtractUserID : τ → TokenString → Except Err UUID

/-- The validator `*validator.Validate`: what `Struct` answers for each request type. -/
structure Validator where
  Register : RegisterRequest → Option Err
  Login : LoginRequest → Option Err

/-- The library functions the service calls: `strings.TrimSpace`, `strings.ToLower`,
`bcrypt.GenerateFromPassword` at the default cost (its salt being part of the function),
`bcrypt.CompareHashAndPassword` (hash first) and `errors.Is`. -/
structure Lib where
  TrimSpace : String → String
  ToLower : String → String
  GenerateFromPassword : String → Except Err String
  CompareHashAndPassword : String → String → Option Err
  Is : Err → Err → Bool

/-- The struct `Service`, without its logger; `sanitizer` is `Policy.Sanitize`. -/
structure Service (ρ τ : Type) where
  repo : Repository ρ
  tokens : TokenManager τ
  validator : Validator
  sanitizer : String → String
  allowSignup : Bool

/-- What one call reads from its surroundings: the clock (`time.Now().UTC()`) and the
identifier `uuid.New()` returns. -/
structure Env where
  now : Time
  newID : UUID
  deriving DecidableEq, Repr

/-- A call of a method of the repository or of the token manager. -/
inductive Call where
  | Create (u : User)
  | Update (u : User)
  | GetByEmail (email : String)
  | GetByID (id : UUID)
  | IssueTokens (u : User)
  | RefreshTokens (u : User) (token : TokenString)
  | ExtractUserID (token : TokenString)
  deriving DecidableEq, Repr

/-- What a service method leaves behind: its result `(*AuthResponse, error)`, the repository
and the token manager afterwards, and the calls it made on them, in order. -/
structure Outcome (ρ τ : Type) where
  result : Except Err AuthResponse
  repo : ρ
  tokens : τ
  calls : List Call

end UserService

namespace UserService

open Auth (Err Context UUID Time TokenString AuthTokens)

variable {ρ τ : Type}

/-- The method `Service.Register`. -/
def Service.Register (lib : Lib) (s : Service ρ τ) (r : ρ) (t : τ) (ctx : Context) (env : Env)
    (req : RegisterRequest) : Outcome ρ τ :=
  if !s.allowSignup then ⟨.error ErrRegistrationDisabled, r, t, []⟩
  else
    let req : RegisterRequest :=
      { req with
        Email := lib.TrimSpace req.Email
        Password := lib.TrimSpace req.Password
        Name := lib.TrimSpace (s.sanitizer req.Name) }
    match s.validator.Register req with
    | some err => ⟨.error err, r, t, []⟩
    | none =>
      let email := lib.ToLower req.Email
      match s.repo.GetByEmail r ctx email with
      | (some _, none) => ⟨.error ErrDuplicateEmail, r, t, [.GetByEmail email]⟩
      | _ =>
        match lib.GenerateFromPassword req.Password with
        | .error err => ⟨.error err, r, t, [.GetByEmail email]⟩
        | .ok hash =>
          let now := env.now
          let user : User :=
            { ID := env.newID
              Email := lib.ToLower req.Email
              Name := req.Name
              PasswordHash := hash
              Role := "user"
              RefreshVersion := 1
              CreatedAt := now
              UpdatedAt := now
              ProfileImage := if req.ProfileImage ≠ "" then some req.ProfileImage else none }
          match s.repo.Create r ctx user with
          | (some err, r') =>
            if lib.Is err ErrDuplicateEmail then
              ⟨.error ErrDuplicateEmail, r', t, [.GetByEmail email, .Create user]⟩
            else ⟨.error err, r', t, [.GetByEmail email, .Create user]⟩
          | (none, r') =>
            match s.tokens.IssueTokens t ctx user with
            | (.error err, t') =>
              ⟨.error err, r', t', [.GetByEmail email, .Create user, .IssueTokens user]⟩
            | (.ok tokens, t') =>
              ⟨.ok ⟨user, tokens⟩, r', t',
                [.GetByEmail email, .Create user, .IssueTokens user]⟩

/-- The method `Service.Login`. -/
def Service.Login (lib : Lib) (s : Service ρ τ) (r : ρ) (t : τ) (ctx : Context) (env : Env)
    (req : LoginRequest) : Outcome ρ τ :=
  let req : LoginRequest :=
    { req with Email := lib.TrimSpace req.Email, Password := lib.TrimSpace req.Password }
  match s.validator.Login req with
  | some err => ⟨.error err, r, t, []⟩
  | none =>
    let email := lib.ToLower req.Email
    match s.repo.GetByEmail r ctx email with
    | (some user, none) =>
      match lib.CompareHashAndPassword user.PasswordHash req.Password with
      | some _ => ⟨.error ErrInvalidCreds, r, t, [.GetByEmail email]⟩
      | none =>
        let now := env.now
        let user : User := { user with LastLoginAt := some now, UpdatedAt := now }
        let r' := (s.repo.Update r ctx user).2
        match s.tokens.IssueTokens t ctx user with
        | (.error err, t') =>
          ⟨.error err, r', t', [.GetByEmail email, .Update user, .IssueTokens user]⟩
        | (.ok tokens, t') =>
          ⟨.ok ⟨user, tokens⟩, r', t', [.GetByEmail email, .Update user, .IssueTokens user]⟩
    | _ => ⟨.error ErrInvalidCreds, r, t, [.GetByEmail email]⟩

/-- The method `Service.Refresh`. -/
def Service.Refresh (s : Service ρ τ) (r : ρ) (t : τ) (ctx : Context)
    (refreshToken : TokenString) : Outcome ρ τ :=
  match s.tokens.ExtractUserID t refreshToken with
  | .error _ => ⟨.error ErrInvalidToken, r, t, [.ExtractUserID refreshToken]⟩
  | .ok userID =>
    match s.repo.GetByID r ctx userID with
    | (some user, none) =>
      match s.tokens.RefreshTokens t ctx user refreshToken with
      | (.error _, t') =>
        ⟨.error ErrInvalidToken, r, t',
          [.ExtractUserID refreshToken, .GetByID userID, .RefreshTokens user refreshToken]⟩
      | (.ok tokens, t') =>
        ⟨.ok ⟨user, tokens⟩, r, t',
          [.ExtractUserID refreshToken, .GetByID userID, .RefreshTokens user refreshToken]⟩
    | _ => ⟨.error ErrInvalidToken, r, t, [.ExtractUserID refreshToken, .GetByID userID]⟩

end UserService

namespace UserService

open Auth (Err Context UUID Time TokenString AuthTokens)

/-- The request as `Register` validates it: email and password trimmed, name sanitized and
trimmed. -/
def RegisterRequest.trimmed (lib : Lib) (sanitizer : String → String) (req : RegisterRequest) :
    RegisterRequest :=
  { req with
    Email := lib.TrimSpace req.Email
    Password := lib.TrimSpace req.Password
    Name := lib.TrimSpace (sanitizer req.Name) }

/-- The request as `Login` validates it: email and password trimmed. -/
def LoginRequest.trimmed (lib : Lib) (req : LoginRequest) : LoginRequest :=
  { req with Email := lib.TrimSpace req.Email, Password := lib.TrimSpace req.Password }

/-- The user `Register` builds from a trimmed request, a password hash and its surroundings. -/
def newUser (lib : Lib) (env : Env) (req : RegisterRequest) (hash : String) : User :=
  { ID := env.newID
    Email := lib.ToLower req.Email
    Name := req.Name
    PasswordHash := hash
    Role := "user"
    RefreshVersion := 1
    CreatedAt := env.now
    UpdatedAt := env.now
    ProfileImage := if req.ProfileImage ≠ "" then some req.ProfileImage else none }

/-- The token manager of package `auth` as a `TokenManager`, as `main` wires it: the manager
reads the user's ID and role; `mac` and `env` are what its methods take from outside. -/
def managerTokens (mac : Auth.MAC) (env : Auth.Env) : TokenManager Auth.Manager :=
  { IssueTokens := fun m ctx u => m.IssueTokens mac ctx env ⟨u.ID, u.Role⟩
    RefreshTokens := fun m ctx u token => m.RefreshTokens mac ctx env ⟨u.ID, u.Role⟩ token
    ExtractUserID := fun m token => m.ExtractUserID mac env.parseNow token }

/-- The identifier `uuid.Nil`. -/
def uuidNil : UUID := "00000000-0000-0000-0000-000000000000"

/-- The assignment `m[k] = v` on a map kept as a list of entries. -/
def put {κ α : Type} [DecidableEq κ] (m : List (κ × α)) (k : κ) (v : α) : List (κ × α) :=
  if (m.lookup k).isSome then m.map (fun e => if e.1 = k then (k, v) else e) else m ++ [(k, v)]

/-- The struct `fakeTokens` of the package's tests. -/
structure fakeTokens where
  userID : UUID
  deriving DecidableEq, Repr

/-- The tokens both `fakeTokens` methods return. -/
def fakePair : AuthTokens :=
  { AccessToken := .malformed "access", RefreshToken := .malformed "refresh", ExpiresIn := 60,
    TokenType := "Bearer" }

/-- The methods of `fakeTokens`. -/
def fakeTokens.manager : TokenManager fakeTokens :=
  { IssueTokens := fun _ _ user => (.ok fakePair, ⟨user.ID⟩)
    RefreshTokens := fun f _ user refreshToken =>
      if refreshToken ≠ .malformed "refresh" then (.error ErrInvalidToken, f)
      else (.ok fakePair, ⟨user.ID⟩)
    ExtractUserID := fun f refreshToken =>
      if refreshToken ≠ .malformed "refresh" ∨ f.userID = uuidNil then .error ErrInvalidToken
      else .ok f.userID }

/-- The struct `fakeUserRepo` of the package's tests. -/
structure fakeUserRepo where
  users : List (UUID × User)
  emailIndex : List (String × UUID)
  deriving DecidableEq, Repr

/-- The constructor `newFakeRepo`. -/
def newFakeRepo : fakeUserRepo := ⟨[], []⟩

/-- The method `fakeUserRepo.count`. -/
def fakeUserRepo.count (f : fakeUserRepo) : Nat := f.users.length

/-- The methods of `fakeUserRepo`. In `GetByEmail` an index entry without user, where the
source dereferences a nil pointer, is answered `(nil, nil)`; `Create` and `Update` write both
maps, so no such entry arises. -/
def fakeUserRepo.repository : Repository fakeUserRepo :=
  { Create := fun f _ u =>
      if (f.emailIndex.lookup u.Email).isSome then (some ErrDuplicateEmail, f)
      else (none, ⟨put f.users u.ID u, put f.emailIndex u.Email u.ID⟩)
    Update := fun f _ u =>
      if (f.users.lookup u.ID).isNone then (some ErrUserNotFound, f)
      else (none, ⟨put f.users u.ID u, put f.emailIndex u.Email u.ID⟩)
    GetByEmail := fun f _ email =>
      match f.emailIndex.lookup email with
      | some id =>
        match f.users.lookup id with
        | some u => (some u, none)
        | none => (none, none)
      | none => (none, some ErrUserNotFound)
    GetByID := fun f _ id =>
      match f.users.lookup id with
      | some u => (some u, none)
      | none => (none, some ErrUserNotFound) }

end UserService

namespace UserService

open Auth (Err Context UUID Time TokenString AuthTokens)

/-- Stand-ins for the library functions: ASCII trimming and lowering, a password "hash" that
prefixes the password, and `errors.Is` on errors that wrap nothing. -/
def demoLib : Lib :=
  { TrimSpace := Settings.trimASCII
    ToLower := Settings.lowerASCII
    GenerateFromPassword := fun pw => .ok ("$2a$" ++ pw)
    CompareHashAndPassword := fun hash pw =>
      if hash = "$2a$" ++ pw then none
      else some (.New "crypto/bcrypt: hashedPassword is not the hash of the given password")
    Is := fun a b => decide (a = b) }

/-- A stand-in for the validator: the `required` and `min` tags of the two request types. -/
def demoValidator : Validator :=
  { Register := fun req =>
      if req.Email = "" ∨ req.Password.length < 8 ∨ req.Name.length < 2 then
        some (.New "validation failed")
      else none
    Login := fun req =>
      if req.Email = "" ∨ req.Password.length < 8 then some (.New "validation failed")
      else none }

/-- The service of the package's tests: fake repository, fake tokens, signup allowed. -/
def demoService : Service fakeUserRepo fakeTokens :=
  { repo := fakeUserRepo.repository, tokens := fakeTokens.manager, validator := demoValidator,
    sanitizer := fun s => s, allowSignup := true }

/-- The same service with signup switched off. -/
def demoClosed : Service fakeUserRepo fakeTokens := { demoService with allowSignup := false }

/-- The request of `TestRegisterCreatesUser`. -/
def demoRegister : RegisterRequest :=
  { Email := "Demo@Example.com", Password := "Passw0rd!", Name := "Demo User" }

/-- The surroundings of the sample calls: clock at 1000 s, next identifier `u1`. -/
def demoEnv : Env := { now := 1000 * Auth.Second, newID := "u1" }

/-- The user `Register` stores for `demoRegister` in `demoEnv`. -/
def demoStored : User :=
  { ID := "u1", Email := "demo@example.com", Name := "Demo User",
    PasswordHash := "$2a$Passw0rd!", Role := "user", RefreshVersion := 1,
    CreatedAt := 1000 * Auth.Second, UpdatedAt := 1000 * Auth.Second }

/-- The fake repository holding `demoStored`. -/
def demoRepo : fakeUserRepo := ⟨[("u1", demoStored)], [("demo@example.com", "u1")]⟩

/-- A service on the fake repository and the token manager of package `auth`, whose store
fails on a get command. -/
def demoWired : Service fakeUserRepo Auth.Manager :=
  { repo := fakeUserRepo.repository
    tokens := managerTokens Auth.demoMAC Auth.demoEnv2GetFails
    validator := demoValidator, sanitizer := fun s => s, allowSignup := true }

end UserService

/-! # The profile service (package `profile`) -/

namespace ProfileService

open Auth (Err Context UUID Time)

/-- The struct `Profile`. -/
structure Profile where
  ID : UUID
  UserID : UUID
  FirstName : String
  LastName : String
  Bio : Option String := none
  ProfileImage : Option String := none
  CoverImage : Option String := none
  DateOfBirth : Option Time := none
  Phone : Option String := none
  Website : Option String := none
  Location : Option String := none
  CreatedAt : Time := 0
  UpdatedAt : Time := 0
  DeletedAt : Option Time := none
  Version : Int
  deriving DecidableEq, Repr

/-- The struct `CreateRequest`. -/
structure CreateRequest where
  FirstName : String
  LastName : String
  Bio : Option String := none
  ProfileImage : Option String := none
  CoverImage : Option String := none
  DateOfBirth : Option String := none
  Phone : Option String := none
  Website : Option String := none
  Location : Option String := none
  deriving DecidableEq, Repr

/-- The struct `UpdateRequest`, which embeds `CreateRequest`. -/
structure UpdateRequest extends CreateRequest where
  Version : Int
  deriving DecidableEq, Repr

/-- A value of type `interface{}` as a decoded request holds it: a string, or a value of
another dynamic type (a number, a boolean, nil). -/
inductive Value where
  | string (s : String)
  | number (x : Int)
  | bool (b : Bool)
  | null
  deriving DecidableEq, Repr

/-- A map `map[string]interface{}`, as the list of its entries in the order a `range` loop
visits them. -/
abbrev Fields := List (String × Value)

/-- The assignment `m[k] = v`. -/
def Fields.set (m : Fields) (k : String) (v : Value) : Fields :=
  if (m.lookup k).isSome then m.map (fun e => if e.1 = k then (k, v) else e) else m ++ [(k, v)]

/-- The struct `PatchRequest`. -/
structure PatchRequest where
  Fields : Fields
  Version : Int
  deriving DecidableEq, Repr

/-- The sentinel `ErrNotFound`. -/
def ErrNotFound : Err := .New "profile not found"

/-- The sentinel `ErrVersionConflict`. -/
def ErrVersionConflict : Err := .New "version mismatch"

/-- The interface `Repository`, over the state `ρ` of an implementation: the methods `Update`
and `Patch` of the service call. A write returns the state afterwards; `GetByID` returns the
pair `(*Profile, error)` and leaves the state as it is. -/
structure Repository (ρ : Type) where
  Update : ρ → Context → Profile → Option Err × ρ
  Patch : ρ → Context → UUID → UUID → Fields → Int → (Option Profile × Option Err) × ρ
  GetByID : ρ → Context → UUID → UUID → Option Profile × Option Err

/-- The validator `*validator.Validate`: what `Struct` answers for each request type. -/
structure Validator where
  Update : UpdateRequest → Option Err
  Patch : PatchRequest → Option Err

/-- The library functions the service calls: `strings.TrimSpace` and `time.Parse` with the
layout "2006-01-02", the instant returned being in UTC. -/
structure Lib where
  TrimSpace : String → String
  ParseDate : String → Except Err Time

/-- The struct `Service`; `sanitizer` is `Policy.Sanitize`. -/
structure Service (ρ : Type) where
  repo : Repository ρ
  validator : Validator
  sanitizer : String → String

/-- A call of a method of the repository. -/
inductive Call where
  | Update (p : Profile)
  | Patch (profileID userID : UUID) (fields : Fields) (version : Int)
  | GetByID (profileID userID : UUID)
  deriving DecidableEq, Repr

/-- The function `sanitizeField`. -/
def sanitizeField (lib : Lib) (policy : String → String) (val : String) : String :=
  lib.TrimSpace (policy val)

/-- The function `assignOptionalFields`: the profile as the assignments through the pointer
leave it when the function returns nil, else the error. -/
def assignOptionalFields (lib : Lib) (policy : String → String) (profile : Profile)
    (req : CreateRequest) : Except Err Profile :=
  let profile := match req.Bio with
    | some bio => { profile with Bio := some (sanitizeField lib policy bio) }
    | none => profile
  let profile := match req.ProfileImage with
    | some _ => { profile with ProfileImage := req.ProfileImage }
    | none => profile
  let profile := match req.CoverImage with
    | some _ => { profile with CoverImage := req.CoverImage }
    | none => profile
  let profile := match req.Phone with
    | some phone => { profile with Phone := some (sanitizeField lib policy phone) }
    | none => profile
  let profile := match req.Website with
    | some _ => { profile with Website := req.Website }
    | none => profile
  let profile := match req.Location with
    | some location => { profile with Location := some (sanitizeField lib policy location) }
    | none => profile
  match req.DateOfBirth with
  | some dob =>
    if dob ≠ "" then
      match lib.ParseDate dob with
      | .error _ => .error (.New "invalid date_of_birth")
      | .ok t => .ok { profile with DateOfBirth := some t }
    else .ok profile
  | none => .ok profile

end ProfileService

namespace ProfileService

open Auth (Err Context UUID Time)

variable {ρ : Type}

/-- The method `Service.Update`, reading the clock as `now`: its result `(*Profile, error)`,
the repository afterwards and the calls made on it, in order. -/
def Service.Update (lib : Lib) (s : Service ρ) (r : ρ) (ctx : Context) (now : Time)
    (id userID : UUID) (req : UpdateRequest) : Except Err Profile × ρ × List Call :=
  match s.validator.Update req with
  | some err => (.error err, r, [])
  | none =>
    match s.repo.GetByID r ctx id userID with
    | (_, some err) => (.error err, r, [.GetByID id userID])
    | (none, none) => (.error ErrNotFound, r, [.GetByID id userID])
    | (some profile, none) =>
      if profile.Version ≠ req.Version then
        (.error ErrVersionConflict, r, [.GetByID id userID])
      else
        let profile : Profile :=
          { profile with
            FirstName := sanitizeField lib s.sanitizer req.FirstName
            LastName := sanitizeField lib s.sanitizer req.LastName }
        match assignOptionalFields lib s.sanitizer profile req.toCreateRequest with
        | .error err => (.error err, r, [.GetByID id userID])
        | .ok profile =>
          let profile : Profile :=
            { profile with Version := Go.wrap64 (profile.Version + 1), UpdatedAt := now }
          match s.repo.Update r ctx profile with
          | (some err, r') => (.error err, r', [.GetByID id userID, .Update profile])
          | (none, r') => (.ok profile, r', [.GetByID id userID, .Update profile])

/-- The keys of the map `allowed` in `Service.Patch`. -/
def allowed : List String :=
  ["first_name", "last_name", "bio", "profile_image", "cover_image", "date_of_birth", "phone",
    "website", "location"]

/-- The loop of `Service.Patch` that fills the map `update`. -/
def Service.patchUpdate (lib : Lib) (s : Service ρ) (fields : Fields) : Fields :=
  fields.foldl (fun update kv =>
    if kv.1 ∉ allowed then update
    else
      match kv.2 with
      | .string str => Fields.set update kv.1 (.string (sanitizeField lib s.sanitizer str))
      | v => Fields.set update kv.1 v) []

/-- The method `Service.Patch`: its result `(*Profile, error)`, the repository afterwards and
the calls made on it, in order. -/
def Service.Patch (lib : Lib) (s : Service ρ) (r : ρ) (ctx : Context) (id userID : UUID)
    (req : PatchRequest) : (Option Profile × Option Err) × ρ × List Call :=
  match s.validator.Patch req with
  | some err => ((none, some err), r, [])
  | none =>
    let update := s.patchUpdate lib req.Fields
    if update.length = 0 then ((none, some (.New "no valid fields to update")), r, [])
    else
      match s.repo.Patch r ctx id userID update req.Version with
      | ((_, some err), r') => ((none, some err), r', [.Patch id userID update req.Version])
      | ((updated, none), r') => ((updated, none), r', [.Patch id userID update req.Version])

/-- What a value becomes on its way into the map `update`. -/
def cleaned (lib : Lib) (policy : String → String) : Value → Value
  | .string str => .string (sanitizeField lib policy str)
  | v => v

/-- A repository for samples: the profiles stored, in a list. `GetByID` finds by ID and owner,
`Update` replaces the profile of that ID and owner, or reports `ErrNotFound`; `Patch` is not
used by the samples and reports the same error. -/
def listRepository : Repository (List Profile) :=
  { GetByID := fun ps _ id userID =>
      (ps.find? (fun p => p.ID = id ∧ p.UserID = userID), none)
    Update := fun ps _ p =>
      if ps.any (fun q => q.ID = p.ID ∧ q.UserID = p.UserID) then
        (none, ps.map (fun q => if q.ID = p.ID ∧ q.UserID = p.UserID then p else q))
      else (some ErrNotFound, ps)
    Patch := fun ps _ _ _ _ _ => ((none, some ErrNotFound), ps) }

/-- Stand-ins for the library functions: ASCII trimming; a date parser that knows one date. -/
def demoLib : Lib :=
  { TrimSpace := Settings.trimASCII
    ParseDate := fun s =>
      if s = "2000-01-01" then .ok (946684800 * Auth.Second)
      else .error (.New "parsing time") }

/-- A sample service: every request passes validation, the sanitizer drops the character `<`. -/
def demoService : Service (List Profile) :=
  { repo := listRepository
    validator := { Update := fun _ => none, Patch := fun _ => none }
    sanitizer := fun s => ⟨s.data.filter (fun c => c ≠ '<')⟩ }

/-- A stored profile, at version 3. -/
def demoProfile : Profile :=
  { ID := "p1", UserID := "u1", FirstName := "Ada", LastName := "L", Version := 3 }

/-- An update request for version 3. -/
def demoUpdate : UpdateRequest :=
  { FirstName := " Ada ", LastName := "Love<lace", Bio := some " maths ", Version := 3 }

/-- The profile `Update` writes for `demoUpdate` at 2000 s. -/
def demoUpdated : Profile :=
  { demoProfile with
    FirstName := "Ada", LastName := "Lovelace", Bio := some "maths",
    UpdatedAt := 2000 * Auth.Second, Version := 4 }

/-- A patch request with a whitelisted string, a whitelisted number and two other keys. -/
def demoPatch : PatchRequest :=
  { Fields := [("bio", .string " <b>hi "), ("version", .number 99), ("phone", .number 5),
      ("id = id; --", .string "x")]
    Version := 3 }

end ProfileService

namespace UserService

/-- A service on the fake repository and the token manager of package `auth`, whose store
fails on a set command. -/
def demoSetFails : Service fakeUserRepo Auth.Manager :=
  { repo := fakeUserRepo.repository
    tokens := managerTokens Auth.demoMAC Auth.demoEnv2SetFails
    validator := demoValidator, sanitizer := fun s => s, allowSignup := true }

end UserService

/-! # Theorems -/

/-! # Theorems on the machine numbers -/

namespace Go

theorem bitLen_spec (fuel : Nat) : ∀ n : Nat, n ≤ fuel → n ≠ 0 →
    n < 2 ^ bitLen fuel n ∧ 2 ^ bitLen fuel n ≤ 2 * n := by
  induction fuel with
  | zero => intro n h h0; omega
  | succ fuel ih =>
    intro n h h0
    rw [bitLen, if_neg h0]
    by_cases h2 : n / 2 = 0
    · have hb : bitLen fuel (n / 2) = 0 := by
        rw [h2]
        cases fuel with
        | zero => rfl
        | succ f => simp [bitLen]
      rw [hb]
      omega
    · obtain ⟨h3, h4⟩ := ih (n / 2) (by omega) h2
      rw [pow_succ]
      omega

theorem ratio_bounds (p q P Q : Nat) (hq : 0 < q) (hp1 : p < 2 ^ P) (hp2 : 2 ^ P ≤ 2 * p)
    (hq1 : q < 2 ^ Q) (hq2 : 2 ^ Q ≤ 2 * q) :
    (p : ℚ) / (q : ℚ) < (2 : ℚ) ^ ((P : Int) - (Q : Int) + 1) ∧
    (2 : ℚ) ^ ((P : Int) - (Q : Int) - 1) ≤ (p : ℚ) / (q : ℚ) := by
  have h2 : (2 : ℚ) ≠ 0 := by norm_num
  have hqpos : (0 : ℚ) < (q : ℚ) := by exact_mod_cast hq
  have hp1q : (p : ℚ) < (2 : ℚ) ^ (P : Int) := by
    rw [zpow_natCast]; exact_mod_cast hp1
  have hp2q : (2 : ℚ) ^ (P : Int) ≤ 2 * (p : ℚ) := by
    rw [zpow_natCast]; exact_mod_cast hp2
  have hq1q : (q : ℚ) < (2 : ℚ) ^ (Q : Int) := by
    rw [zpow_natCast]; exact_mod_cast hq1
  have hq2q : (2 : ℚ) ^ (Q : Int) ≤ 2 * (q : ℚ) := by
    rw [zpow_natCast]; exact_mod_cast hq2
  have hQpos : (0 : ℚ) < (2 : ℚ) ^ (Q : Int) := by positivity
  have hPpos : (0 : ℚ) < (2 : ℚ) ^ (P : Int) := by positivity
  constructor
  · have he : (2 : ℚ) ^ ((P : Int) - (Q : Int) + 1)
        = 2 * (2 : ℚ) ^ (P : Int) / (2 : ℚ) ^ (Q : Int) := by
      rw [zpow_add₀ h2, zpow_sub₀ h2]; ring
    rw [he, div_lt_div_iff₀ hqpos hQpos]
    nlinarith
  · have he : (2 : ℚ) ^ ((P : Int) - (Q : Int) - 1)
        = (2 : ℚ) ^ (P : Int) / (2 * (2 : ℚ) ^ (Q : Int)) := by
      rw [zpow_sub₀ h2, zpow_sub₀ h2]; field_simp; ring
    rw [he, div_le_div_iff₀ (by positivity) hqpos]
    nlinarith

theorem log2_spec {a : ℚ} (ha : 0 < a) :
    (2 : ℚ) ^ log2 a ≤ a ∧ a < (2 : ℚ) ^ (log2 a + 1) := by
  have hnum : 0 < a.num := Rat.num_pos.2 ha
  have hp0 : a.num.natAbs ≠ 0 := by omega
  have hq0 : a.den ≠ 0 := a.den_nz
  obtain ⟨hp1, hp2⟩ := bitLen_spec a.num.natAbs a.num.natAbs (le_refl _) hp0
  obtain ⟨hq1, hq2⟩ := bitLen_spec a.den a.den (le_refl _) hq0
  have hpa : ((a.num.natAbs : Nat) : ℚ) = (a.num : ℚ) := by
    have h : ((a.num.natAbs : Nat) : Int) = a.num := Int.natAbs_of_nonneg hnum.le
    calc ((a.num.natAbs : Nat) : ℚ) = (((a.num.natAbs : Nat) : Int) : ℚ) := (Int.cast_natCast _).symm
      _ = (a.num : ℚ) := by rw [h]
  have ha_eq : ((a.num.natAbs : Nat) : ℚ) / ((a.den : Nat) : ℚ) = a := by
    rw [hpa]
    exact Rat.num_div_den a
  obtain ⟨hup, hlow⟩ := ratio_bounds _ _ _ _ (Nat.pos_of_ne_zero hq0) hp1 hp2 hq1 hq2
  rw [ha_eq] at hup hlow
  unfold log2
  simp only
  split
  · rename_i h
    exact ⟨h, hup⟩
  · rename_i h
    rw [sub_add_cancel]
    exact ⟨hlow, lt_of_not_le h⟩

theorem log2_le {a : ℚ} (ha : 0 < a) : (2 : ℚ) ^ log2 a ≤ a := (log2_spec ha).1

theorem lt_log2_succ {a : ℚ} (ha : 0 < a) : a < (2 : ℚ) ^ (log2 a + 1) := (log2_spec ha).2

theorem log2_eq_log {a : ℚ} (ha : 0 < a) : log2 a = Int.log 2 a := by
  obtain ⟨h1, h2⟩ := log2_spec ha
  have hle : log2 a ≤ Int.log 2 a :=
    (Int.zpow_le_iff_le_log (b := 2) (by norm_num) (x := log2 a) ha).1 (by simpa using h1)
  have hlt : Int.log 2 a < log2 a + 1 :=
    (Int.lt_zpow_iff_log_lt (b := 2) (by norm_num) (x := log2 a + 1) ha).1 (by simpa using h2)
  omega

theorem log2_mono {a b : ℚ} (ha : 0 < a) (hab : a ≤ b) : log2 a ≤ log2 b := by
  rw [log2_eq_log ha, log2_eq_log (lt_of_lt_of_le ha hab)]
  exact Int.log_mono_right ha hab

theorem log2_lt_of_lt_zpow {a : ℚ} {x : Int} (ha : 0 < a) (h : a < (2 : ℚ) ^ x) :
    log2 a < x := by
  rw [log2_eq_log ha]
  exact (Int.lt_zpow_iff_log_lt (b := 2) (by norm_num) (x := x) ha).1 (by simpa using h)

end Go

namespace Go

theorem roundHalfEven_floor_le (m : ℚ) : ⌊m⌋ ≤ roundHalfEven m := by
  unfold roundHalfEven
  split_ifs <;> omega

theorem roundHalfEven_le_floor_succ (m : ℚ) : roundHalfEven m ≤ ⌊m⌋ + 1 := by
  unfold roundHalfEven
  split_ifs <;> omega

theorem roundHalfEven_intCast (n : Int) : roundHalfEven (n : ℚ) = n := by
  unfold roundHalfEven
  simp

theorem roundHalfEven_mono {m₁ m₂ : ℚ} (h : m₁ ≤ m₂) : roundHalfEven m₁ ≤ roundHalfEven m₂ := by
  have hf : ⌊m₁⌋ ≤ ⌊m₂⌋ := Int.floor_mono h
  rcases lt_or_eq_of_le hf with hlt | heq
  · have h1 := roundHalfEven_le_floor_succ m₁
    have h2 := roundHalfEven_floor_le m₂
    omega
  · unfold roundHalfEven
    rw [← heq]
    have hd : m₁ - (⌊m₁⌋ : ℚ) ≤ m₂ - (⌊m₁⌋ : ℚ) := by linarith
    split_ifs <;> first | omega | (exfalso; linarith)

theorem roundHalfEven_le_of_le {m : ℚ} {n : Int} (h : m ≤ n) : roundHalfEven m ≤ n := by
  have := roundHalfEven_mono h
  rwa [roundHalfEven_intCast] at this

theorem roundHalfEven_ge_of_ge {m : ℚ} {n : Int} (h : (n : ℚ) ≤ m) : n ≤ roundHalfEven m := by
  have := roundHalfEven_mono h
  rwa [roundHalfEven_intCast] at this

theorem ulp_pos (a : ℚ) : 0 < ulp a := by
  unfold ulp
  positivity

end Go

namespace Go

theorem two_zpow_succ_split (e : Int) :
    (2 : ℚ) ^ (e + 1) = 9007199254740992 * (2 : ℚ) ^ (e - 52) := by
  have h : e + 1 = 53 + (e - 52) := by ring
  rw [h, zpow_add₀ (by norm_num : (2 : ℚ) ≠ 0)]
  norm_num

theorem two_zpow_split (e : Int) :
    (2 : ℚ) ^ e = 4503599627370496 * (2 : ℚ) ^ (e - 52) := by
  have h : e = 52 + (e - 52) := by ring
  nth_rewrite 1 [h]
  rw [zpow_add₀ (by norm_num : (2 : ℚ) ≠ 0)]
  norm_num

theorem roundPos_nonneg {a : ℚ} (ha : 0 ≤ a) : 0 ≤ roundPos a := by
  unfold roundPos
  have hu := ulp_pos a
  have : (0 : Int) ≤ roundHalfEven (a / ulp a) :=
    roundHalfEven_ge_of_ge (by simpa using div_nonneg ha hu.le)
  have : (0 : ℚ) ≤ (roundHalfEven (a / ulp a) : ℚ) := by exact_mod_cast this
  positivity

/-- For a positive value the rounding stays below the next power of two above it. -/
theorem roundPos_le_zpow {a : ℚ} (ha : 0 < a) :
    roundPos a ≤ (2 : ℚ) ^ (max (log2 a) (-1022) + 1) := by
  have hu := ulp_pos a
  have h1 : a < (2 : ℚ) ^ (max (log2 a) (-1022) + 1) :=
    lt_of_lt_of_le (lt_log2_succ ha)
      (zpow_le_zpow_right₀ (by norm_num) (by omega))
  rw [two_zpow_succ_split] at h1 ⊢
  unfold roundPos
  have hu' : ulp a = (2 : ℚ) ^ (max (log2 a) (-1022) - 52) := rfl
  rw [← hu'] at h1 ⊢
  have h2 : a / ulp a ≤ ((9007199254740992 : Int) : ℚ) := by
    rw [div_le_iff₀ hu]
    push_cast
    exact h1.le
  have h3 : (roundHalfEven (a / ulp a) : ℚ) ≤ ((9007199254740992 : Int) : ℚ) := by
    exact_mod_cast roundHalfEven_le_of_le h2
  push_cast at h3
  exact mul_le_mul_of_nonneg_right h3 hu.le

/-- For a value in the normal range the rounding stays above the power of two below it. -/
theorem zpow_le_roundPos {a : ℚ} (ha : 0 < a) (hn : -1022 ≤ log2 a) :
    (2 : ℚ) ^ log2 a ≤ roundPos a := by
  have hu := ulp_pos a
  have hmax : max (log2 a) (-1022) = log2 a := max_eq_left hn
  have hu' : ulp a = (2 : ℚ) ^ (log2 a - 52) := by unfold ulp; rw [hmax]
  have h1 := log2_le ha
  rw [two_zpow_split] at h1 ⊢
  rw [← hu'] at h1 ⊢
  unfold roundPos
  have h2 : ((4503599627370496 : Int) : ℚ) ≤ a / ulp a := by
    rw [le_div_iff₀ hu]
    push_cast
    exact h1
  have h3 : ((4503599627370496 : Int) : ℚ) ≤ (roundHalfEven (a / ulp a) : ℚ) := by
    exact_mod_cast roundHalfEven_ge_of_ge h2
  push_cast at h3
  exact mul_le_mul_of_nonneg_right h3 hu.le

theorem roundPos_mono {a b : ℚ} (ha : 0 < a) (hab : a ≤ b) : roundPos a ≤ roundPos b := by
  have hb : 0 < b := lt_of_lt_of_le ha hab
  have hlog : log2 a ≤ log2 b := log2_mono ha hab
  rcases lt_or_eq_of_le (max_le_max hlog (le_refl (-1022 : Int))) with hlt | heq
  · have hb2 : -1022 ≤ log2 b := by
      by_contra hcon
      have : max (log2 b) (-1022) = -1022 := max_eq_right (by omega)
      have h2 := le_max_right (log2 a) (-1022)
      omega
    have hmaxb : max (log2 b) (-1022) = log2 b := max_eq_left hb2
    rw [hmaxb] at hlt
    calc roundPos a ≤ (2 : ℚ) ^ (max (log2 a) (-1022) + 1) := roundPos_le_zpow ha
      _ ≤ (2 : ℚ) ^ log2 b := zpow_le_zpow_right₀ (by norm_num) (by omega)
      _ ≤ roundPos b := zpow_le_roundPos hb hb2
  · have hu : ulp a = ulp b := by unfold ulp; rw [heq]
    unfold roundPos
    rw [hu]
    have hub := ulp_pos b
    have h1 : a / ulp b ≤ b / ulp b := div_le_div_of_nonneg_right hab hub.le
    have h2 : (roundHalfEven (a / ulp b) : ℚ) ≤ (roundHalfEven (b / ulp b) : ℚ) := by
      exact_mod_cast roundHalfEven_mono h1
    exact mul_le_mul_of_nonneg_right h2 hub.le

end Go

namespace Go

/-- A value `n * 2 ^ k` whose integer part `n` has at most 53 binary places, `k` not below the
exponent of the subnormal values, is left as it is by the rounding. -/
theorem roundPos_dyadic_lt (n : Int) (k : Int) (hn1 : 1 ≤ n) (hn2 : n < 9007199254740992)
    (hk : -1074 ≤ k) : roundPos ((n : ℚ) * (2 : ℚ) ^ k) = (n : ℚ) * (2 : ℚ) ^ k := by
  have h2 : (2 : ℚ) ≠ 0 := by norm_num
  have hpk : (0 : ℚ) < (2 : ℚ) ^ k := by positivity
  have hnq : (1 : ℚ) ≤ (n : ℚ) := by exact_mod_cast hn1
  have hnq2 : (n : ℚ) < 9007199254740992 := by exact_mod_cast hn2
  have ha : 0 < (n : ℚ) * (2 : ℚ) ^ k := by positivity
  have hlog : log2 ((n : ℚ) * (2 : ℚ) ^ k) ≤ k + 52 := by
    have hlt : (n : ℚ) * (2 : ℚ) ^ k < (2 : ℚ) ^ (k + 52 + 1) := by
      rw [two_zpow_succ_split]
      have : k + 52 - 52 = k := by ring
      rw [this]
      exact mul_lt_mul_of_pos_right hnq2 hpk
    have := log2_lt_of_lt_zpow ha hlt
    omega
  have hj : max (log2 ((n : ℚ) * (2 : ℚ) ^ k)) (-1022) - 52 ≤ k := by
    have := max_le hlog (by omega : (-1022 : Int) ≤ k + 52)
    omega
  obtain ⟨t, ht⟩ := Int.eq_ofNat_of_zero_le (sub_nonneg.2 hj)
  have hu : ulp ((n : ℚ) * (2 : ℚ) ^ k) = (2 : ℚ) ^ (k - (t : Int)) := by
    unfold ulp
    congr 1
    omega
  have hdiv : (n : ℚ) * (2 : ℚ) ^ k / ulp ((n : ℚ) * (2 : ℚ) ^ k) = ((n * 2 ^ t : Int) : ℚ) := by
    rw [hu, zpow_sub₀ h2, zpow_natCast]
    push_cast
    field_simp
    ring
  unfold roundPos
  rw [hdiv, roundHalfEven_intCast, hu, zpow_sub₀ h2, zpow_natCast]
  push_cast
  field_simp
  ring

theorem roundPos_dyadic (n : Int) (k : Int) (hn1 : 1 ≤ n) (hn2 : n ≤ 9007199254740992)
    (hk : -1074 ≤ k) : roundPos ((n : ℚ) * (2 : ℚ) ^ k) = (n : ℚ) * (2 : ℚ) ^ k := by
  rcases lt_or_eq_of_le hn2 with h | h
  · exact roundPos_dyadic_lt n k hn1 h hk
  · have he : (n : ℚ) * (2 : ℚ) ^ k = ((4503599627370496 : Int) : ℚ) * (2 : ℚ) ^ (k + 1) := by
      rw [h, zpow_add₀ (by norm_num : (2 : ℚ) ≠ 0)]
      push_cast
      ring
    rw [he]
    exact roundPos_dyadic_lt _ _ (by norm_num) (by norm_num) (by omega)

theorem roundQ_neg (x : ℚ) : roundQ (-x) = -roundQ x := by
  unfold roundQ
  rcases lt_trichotomy x 0 with h | h | h
  · have h1 : ¬ -x = 0 := by linarith
    have h2 : ¬ -x < 0 := by linarith
    have h3 : ¬ x = 0 := by linarith
    simp [h1, h2, h3, h]
  · simp [h]
  · have h1 : ¬ -x = 0 := by linarith
    have h2 : -x < 0 := by linarith
    have h3 : ¬ x = 0 := by linarith
    have h4 : ¬ x < 0 := by linarith
    simp [h1, h2, h3, h4]

theorem roundQ_zero : roundQ 0 = 0 := by simp [roundQ]

theorem roundQ_of_pos {x : ℚ} (h : 0 < x) : roundQ x = roundPos x := by
  unfold roundQ
  rw [if_neg (ne_of_gt h), if_neg (not_lt.2 h.le)]

theorem roundQ_nonneg {x : ℚ} (h : 0 ≤ x) : 0 ≤ roundQ x := by
  rcases eq_or_lt_of_le h with h0 | hpos
  · rw [← h0, roundQ_zero]
  · rw [roundQ_of_pos hpos]
    exact roundPos_nonneg h

theorem roundQ_nonpos {x : ℚ} (h : x ≤ 0) : roundQ x ≤ 0 := by
  have := roundQ_nonneg (neg_nonneg.2 h)
  rw [roundQ_neg] at this
  linarith

/-- Rounding is monotone. -/
theorem roundQ_mono {x y : ℚ} (h : x ≤ y) : roundQ x ≤ roundQ y := by
  rcases le_or_lt y 0 with hy | hy
  · rcases eq_or_lt_of_le hy with hy0 | hyneg
    · rw [hy0, roundQ_zero]
      exact roundQ_nonpos (by linarith)
    · have hx : x < 0 := lt_of_le_of_lt h hyneg
      have h1 := roundPos_mono (neg_pos.2 hyneg) (neg_le_neg h)
      have hxe : roundQ x = -roundPos (-x) := by
        rw [← neg_neg x, roundQ_neg, roundQ_of_pos (neg_pos.2 hx), neg_neg]
      have hye : roundQ y = -roundPos (-y) := by
        rw [← neg_neg y, roundQ_neg, roundQ_of_pos (neg_pos.2 hyneg), neg_neg]
      rw [hxe, hye]
      linarith
  · rcases le_or_lt x 0 with hx | hx
    · exact le_trans (roundQ_nonpos hx) (roundQ_nonneg hy.le)
    · rw [roundQ_of_pos hx, roundQ_of_pos hy]
      exact roundPos_mono hx h

/-- The values `n * 2 ^ k` with `|n| ≤ 2 ^ 53` and `k ≥ -1074` are left as they are. -/
theorem roundQ_dyadic (n : Int) (k : Int) (hn1 : -9007199254740992 ≤ n)
    (hn2 : n ≤ 9007199254740992) (hk : -1074 ≤ k) :
    roundQ ((n : ℚ) * (2 : ℚ) ^ k) = (n : ℚ) * (2 : ℚ) ^ k := by
  have hpk : (0 : ℚ) < (2 : ℚ) ^ k := by positivity
  rcases lt_trichotomy n 0 with h | h | h
  · have hneg : (n : ℚ) * (2 : ℚ) ^ k = -(((-n : Int) : ℚ) * (2 : ℚ) ^ k) := by
      push_cast; ring
    have hpos : (0 : ℚ) < ((-n : Int) : ℚ) * (2 : ℚ) ^ k := by
      have : (0 : ℚ) < ((-n : Int) : ℚ) := by exact_mod_cast (by omega : (0 : Int) < -n)
      positivity
    rw [hneg, roundQ_neg, roundQ_of_pos hpos, roundPos_dyadic (-n) k (by omega) (by omega) hk]
  · subst h
    simp [roundQ_zero]
  · have hpos : (0 : ℚ) < (n : ℚ) * (2 : ℚ) ^ k := by
      have : (0 : ℚ) < (n : ℚ) := by exact_mod_cast h
      positivity
    rw [roundQ_of_pos hpos, roundPos_dyadic n k (by omega) hn2 hk]

/-- Integers of at most 53 binary places are left as they are. -/
theorem roundQ_intCast (n : Int) (hn1 : -9007199254740992 ≤ n) (hn2 : n ≤ 9007199254740992) :
    roundQ (n : ℚ) = n := by
  have := roundQ_dyadic n 0 hn1 hn2 (by norm_num)
  simpa using this

theorem roundQ_le_of_le {x : ℚ} {c : ℚ} (hc : roundQ c = c) (h : x ≤ c) : roundQ x ≤ c := by
  have := roundQ_mono h
  rwa [hc] at this

theorem roundQ_ge_of_ge {x : ℚ} {c : ℚ} (hc : roundQ c = c) (h : c ≤ x) : c ≤ roundQ x := by
  have := roundQ_mono h
  rwa [hc] at this

end Go

namespace Go

theorem wrap64_of_range {x : Int} (h1 : MinInt64 ≤ x) (h2 : x ≤ MaxInt64) : wrap64 x = x := by
  unfold wrap64 MinInt64 MaxInt64 at *
  omega

theorem wrap64_range (x : Int) : MinInt64 ≤ wrap64 x ∧ wrap64 x ≤ MaxInt64 := by
  unfold wrap64 MinInt64 MaxInt64
  omega

/-- A rounding that stays within the finite range is a finite value. -/
theorem Float64.round_eq_finite {x : ℚ} (h1 : -(2 : ℚ) ^ (1024 : Nat) < roundQ x)
    (h2 : roundQ x < (2 : ℚ) ^ (1024 : Nat)) : Float64.round x = .finite (roundQ x) := by
  unfold Float64.round
  rw [if_neg (not_le.2 h2), if_neg (not_le.2 h1)]

theorem roundQ_two_zpow (k : Int) (hk : -1074 ≤ k) : roundQ ((2 : ℚ) ^ k) = (2 : ℚ) ^ k := by
  have := roundQ_dyadic 1 k (by norm_num) (by norm_num) hk
  simpa using this

/-- An exact result between two values that rounding leaves as they are, both within `2 ^ 100`
in size, is rounded to a finite value between them. -/
theorem Float64.round_between {x lo hi : ℚ} (hlo : roundQ lo = lo) (hhi : roundQ hi = hi)
    (h1 : lo ≤ x) (h2 : x ≤ hi) (hlo' : -(2 : ℚ) ^ (100 : Nat) ≤ lo)
    (hhi' : hi ≤ (2 : ℚ) ^ (100 : Nat)) :
    Float64.round x = .finite (roundQ x) ∧ lo ≤ roundQ x ∧ roundQ x ≤ hi := by
  have hl := roundQ_ge_of_ge hlo h1
  have hh := roundQ_le_of_le hhi h2
  have hbig : (2 : ℚ) ^ (100 : Nat) < (2 : ℚ) ^ (1024 : Nat) :=
    pow_lt_pow_right₀ (by norm_num) (by norm_num)
  refine ⟨Float64.round_eq_finite (by linarith) (by linarith), hl, hh⟩

theorem Float64.round_intCast (n : Int) (hn1 : -9007199254740992 ≤ n)
    (hn2 : n ≤ 9007199254740992) : Float64.round (n : ℚ) = .finite (n : ℚ) := by
  have h := roundQ_intCast n hn1 hn2
  have hq1 : (-9007199254740992 : ℚ) ≤ (n : ℚ) := by exact_mod_cast hn1
  have hq2 : (n : ℚ) ≤ 9007199254740992 := by exact_mod_cast hn2
  have hbig : (9007199254740992 : ℚ) < (2 : ℚ) ^ (1024 : Nat) := by
    calc (9007199254740992 : ℚ) = (2 : ℚ) ^ (53 : Nat) := by norm_num
      _ < (2 : ℚ) ^ (1024 : Nat) := pow_lt_pow_right₀ (by norm_num) (by norm_num)
  have := Float64.round_eq_finite (x := (n : ℚ)) (by rw [h]; linarith) (by rw [h]; linarith)
  rw [this, h]

theorem Float64.ofInt_small (n : Int) (hn1 : -9007199254740992 ≤ n)
    (hn2 : n ≤ 9007199254740992) : Float64.ofInt n = .finite (n : ℚ) :=
  Float64.round_intCast n hn1 hn2

/-- The conversion of an `int64` is finite, and keeps the order with respect to every integer
of at most 53 binary places. -/
theorem Float64.ofInt_int64 (n : Int) (h1 : MinInt64 ≤ n) (h2 : n ≤ MaxInt64) :
    Float64.ofInt n = .finite (roundQ (n : ℚ)) ∧
      -(9223372036854775808 : ℚ) ≤ roundQ (n : ℚ) ∧ roundQ (n : ℚ) ≤ 9223372036854775808 := by
  have hlo : roundQ (-(2 : ℚ) ^ (63 : Int)) = -(2 : ℚ) ^ (63 : Int) := by
    rw [roundQ_neg, roundQ_two_zpow 63 (by norm_num)]
  have hhi : roundQ ((2 : ℚ) ^ (63 : Int)) = (2 : ℚ) ^ (63 : Int) :=
    roundQ_two_zpow 63 (by norm_num)
  have e63 : (2 : ℚ) ^ (63 : Int) = 9223372036854775808 := by norm_num
  rw [e63] at hlo hhi
  have hq1 : (-9223372036854775808 : ℚ) ≤ (n : ℚ) := by
    unfold MinInt64 at h1; exact_mod_cast h1
  have hq2 : (n : ℚ) ≤ 9223372036854775808 := by
    unfold MaxInt64 at h2
    have : n ≤ 9223372036854775808 := by omega
    exact_mod_cast this
  have h100 : (9223372036854775808 : ℚ) ≤ (2 : ℚ) ^ (100 : Nat) := by norm_num
  exact Float64.round_between hlo hhi hq1 hq2 (by linarith) h100

theorem Float64.toInt_finite_of_nonneg {q : ℚ} {n : Int} (h0 : 0 ≤ q) (hn : q ≤ n)
    (hn2 : n ≤ MaxInt64) : (Float64.finite q).toInt = ⌊q⌋ ∧ 0 ≤ ⌊q⌋ ∧ ⌊q⌋ ≤ n := by
  have hf0 : 0 ≤ ⌊q⌋ := Int.floor_nonneg.2 h0
  have hfn : ⌊q⌋ ≤ n := by
    have := Int.floor_mono hn
    rwa [Int.floor_intCast] at this
  refine ⟨?_, hf0, hfn⟩
  unfold Float64.toInt
  simp only [h0, ↓reduceIte]
  rw [if_pos]
  unfold MinInt64 MaxInt64 at *
  constructor <;> omega

theorem Float64.toInt_intCast (z : Int) (h1 : MinInt64 ≤ z) (h2 : z ≤ MaxInt64) :
    (Float64.finite (z : ℚ)).toInt = z := by
  unfold Float64.toInt
  have : (if (0 : ℚ) ≤ (z : ℚ) then ⌊(z : ℚ)⌋ else ⌈(z : ℚ)⌉) = z := by
    split <;> simp
  simp only [this]
  rw [if_pos ⟨h1, h2⟩]

end Go

namespace Go

/-- The rounding of a positive value is of the form `n * 2 ^ k` with `n` of at most 53 binary
places. -/
theorem roundPos_eq_dyadic {a : ℚ} (ha : 0 < a) :
    ∃ n k : Int, 0 ≤ n ∧ n ≤ 9007199254740992 ∧ -1074 ≤ k ∧
      roundPos a = (n : ℚ) * (2 : ℚ) ^ k := by
  have hu := ulp_pos a
  refine ⟨roundHalfEven (a / ulp a), max (log2 a) (-1022) - 52, ?_, ?_, ?_, rfl⟩
  · exact roundHalfEven_ge_of_ge (by simpa using (div_pos ha hu).le)
  · have h1 : a < (2 : ℚ) ^ (max (log2 a) (-1022) + 1) :=
      lt_of_lt_of_le (lt_log2_succ ha) (zpow_le_zpow_right₀ (by norm_num) (by omega))
    rw [two_zpow_succ_split] at h1
    have hu' : ulp a = (2 : ℚ) ^ (max (log2 a) (-1022) - 52) := rfl
    rw [← hu'] at h1
    have h2 : a / ulp a ≤ ((9007199254740992 : Int) : ℚ) := by
      rw [div_le_iff₀ hu]
      push_cast
      exact h1.le
    exact roundHalfEven_le_of_le h2
  · have := le_max_right (log2 a) (-1022)
    omega

theorem roundPos_idem {a : ℚ} (ha : 0 < a) : roundQ (roundPos a) = roundPos a := by
  obtain ⟨n, k, hn0, hn1, hk, he⟩ := roundPos_eq_dyadic ha
  rw [he]
  exact roundQ_dyadic n k (by omega) hn1 hk

/-- Rounding a rounded value changes nothing. -/
theorem roundQ_idem (x : ℚ) : roundQ (roundQ x) = roundQ x := by
  rcases lt_trichotomy x 0 with h | h | h
  · have hx : roundQ x = -roundPos (-x) := by
      rw [← neg_neg x, roundQ_neg, roundQ_of_pos (neg_pos.2 h), neg_neg]
    rw [hx, roundQ_neg, roundPos_idem (neg_pos.2 h)]
  · rw [h, roundQ_zero, roundQ_zero]
  · rw [roundQ_of_pos h, roundPos_idem h]

end Go

namespace Go

/-! ## How far rounding moves a value -/

theorem roundHalfEven_le_add_half (m : ℚ) : (roundHalfEven m : ℚ) ≤ m + 1 / 2 := by
  have h1 := Int.floor_le m
  unfold roundHalfEven
  split_ifs with ha hb
  · linarith
  · push_cast; linarith
  · linarith
  · push_cast; linarith

/-- Rounding a positive value below `2 ^ k` raises it by at most half a unit in the last
place, `2 ^ (k - 54)`. -/
theorem roundQ_le_add {x : ℚ} (k : Int) (hx : 0 < x) (hk : -1021 ≤ k)
    (h : x < (2 : ℚ) ^ k) : roundQ x ≤ x + (2 : ℚ) ^ (k - 54) := by
  rw [roundQ_of_pos hx]
  have hu := ulp_pos x
  have hl : log2 x < k := log2_lt_of_lt_zpow hx h
  have hule : ulp x ≤ (2 : ℚ) ^ (k - 53) := by
    unfold ulp
    exact zpow_le_zpow_right₀ (by norm_num) (by omega)
  have h2 : (2 : ℚ) ^ (k - 53) = 2 * (2 : ℚ) ^ (k - 54) := by
    have : k - 53 = 1 + (k - 54) := by ring
    rw [this, zpow_add₀ (by norm_num : (2 : ℚ) ≠ 0)]
    norm_num
  have h3 := roundHalfEven_le_add_half (x / ulp x)
  unfold roundPos
  calc (roundHalfEven (x / ulp x) : ℚ) * ulp x
      ≤ (x / ulp x + 1 / 2) * ulp x := mul_le_mul_of_nonneg_right h3 hu.le
    _ = x + ulp x / 2 := by field_simp; ring
    _ ≤ x + (2 : ℚ) ^ (k - 54) := by linarith

end Go

namespace Auth


/-! ## Store lemmas -/

theorem refreshKey_inj (m m' : Manager) {a b : String}
    (h : m.refreshKey a = m'.refreshKey b) : a = b := by
  have h' := congrArg String.data h
  simp only [Manager.refreshKey, String.data_append] at h'
  exact String.ext (List.append_cancel_left h')

theorem KV.Load_Delete_self (s : KV) (k : String) : (s.Delete k).Load k = none := by
  induction s with
  | nil => rfl
  | cons e s ih =>
    by_cases h : e.1 = k
    · simpa [KV.Delete, List.filter_cons, h] using ih
    · have h' : ¬ k = e.1 := fun h'' => h h''.symm
      simpa [KV.Delete, KV.Load, List.filter_cons, h, List.lookup_cons, h'] using ih

theorem KV.Load_Delete_of_ne (s : KV) {k k' : String} (h : k' ≠ k) :
    (s.Delete k).Load k' = s.Load k' := by
  induction s with
  | nil => rfl
  | cons e s ih =>
    obtain ⟨a, v⟩ := e
    by_cases h1 : a = k
    · subst h1
      have : (k' == a) = false := by simpa using h
      simpa [KV.Delete, KV.Load, List.filter_cons, List.lookup_cons, this] using ih
    · by_cases h2 : k' = a
      · subst h2
        simp [KV.Delete, KV.Load, List.filter_cons, List.lookup_cons, h1]
      · have : (k' == a) = false := by simpa using h2
        simpa [KV.Delete, KV.Load, List.filter_cons, List.lookup_cons, h1, this] using ih

theorem KV.Load_Store_self (s : KV) (k : String) (v : TokenString) :
    (s.Store k v).Load k = some v := by
  simp [KV.Store, KV.Load, List.lookup_cons]

theorem KV.Load_Store_of_ne (s : KV) {k k' : String} (v : TokenString) (h : k' ≠ k) :
    (s.Store k v).Load k' = s.Load k' := by
  have : (k' == k) = false := by simpa using h
  simp only [KV.Store, KV.Load, List.lookup_cons, this]
  exact KV.Load_Delete_of_ne s h

/-! ## Minting and parsing -/

theorem issueAccess_eq (mac : MAC) (m : Manager) (now : Time) (id : String) (u : User) :
    m.issueAccess mac now id u =
      .ok (HS256Token mac (m.accessClaims now id u) m.cfg.AccessSecret,
        (Duration.Seconds m.cfg.AccessTokenTTL).toInt) := rfl

theorem issueRefresh_eq (mac : MAC) (m : Manager) (now : Time) (id : String) (u : User) :
    m.issueRefresh mac now id u =
      .ok (HS256Token mac (m.refreshClaims now id u) m.cfg.RefreshSecret,
        m.refreshClaims now id u) := rfl

theorem Validate_of_exp (now : Time) (c : Claims) (exp : Int)
    (he : c.RegisteredClaims.ExpiresAt = some exp) (hn : c.RegisteredClaims.NotBefore = none)
    (h : now < NumericDate.Time exp) : Validate now c = (false, false) := by
  simp [Validate, he, hn, h]

theorem parse_HS256Token (mac : MAC) (m : Manager) (now : Time) (c : Claims) (key : String)
    (hv : Validate now c = (false, false)) (hsv : c.SecretVer = m.cfg.SecretVersion) :
    m.parse mac now (HS256Token mac c key) key = .ok c := by
  have hg : GetSigningMethod "HS256" = some (.hmac .SHA256) := rfl
  simp [Manager.parse, ParseWithClaims, HS256Token, hg, keyFunc,
    SigningMethod.isHMAC, SigningMethod.Verify, hv, hsv]


/-! ## Effect of the store operations -/

theorem withStore_store (m : Manager) (s : KV) : (m.withStore s).store = s := by
  cases m with | mk cfg redis mem => cases redis <;> rfl

theorem withStore_isSome (m : Manager) (s : KV) :
    (m.withStore s).redis.isSome = m.redis.isSome := by
  cases m with | mk cfg redis mem => cases redis <;> rfl

theorem withStore_withStore (m : Manager) (s s' : KV) :
    (m.withStore s).withStore s' = m.withStore s' := by
  cases m with | mk cfg redis mem => cases redis <;> rfl

theorem storeErr_congr (m m' : Manager) (ctx : Context) (fault : Option Err)
    (h : m'.redis.isSome = m.redis.isSome) : m'.storeErr ctx fault = m.storeErr ctx fault := by
  cases m with | mk cfg redis mem =>
  cases m' with | mk cfg' redis' mem' =>
  cases redis <;> cases redis' <;> simp_all [Manager.storeErr]

theorem persistRefresh_eq (m : Manager) (ctx : Context) (fault : Option Err) (claims : Claims)
    (token : TokenString) :
    m.persistRefresh ctx fault claims token =
      match m.storeErr ctx fault with
      | some e => (some e, m)
      | none =>
        (none, m.withStore (m.store.Store (m.refreshKey claims.RegisteredClaims.ID) token)) := by
  cases m with | mk cfg redis mem =>
  cases redis with
  | none => rfl
  | some r =>
    cases ctx with | mk cerr =>
    cases cerr with
    | some e => rfl
    | none => cases fault <;> rfl

theorem revoke_eq (m : Manager) (ctx : Context) (fault : Option Err) (claims : Claims) :
    m.revoke ctx fault claims =
      match m.storeErr ctx fault with
      | some e => (some e, m)
      | none => (none, m.withStore (m.store.Delete (m.refreshKey claims.RegisteredClaims.ID))) := by
  cases m with | mk cfg redis mem =>
  cases redis with
  | none => rfl
  | some r =>
    cases ctx with | mk cerr =>
    cases cerr with
    | some e => rfl
    | none => cases fault <;> rfl

theorem ensureRefreshValid_eq (m : Manager) (ctx : Context) (fault : Option Err)
    (claims : Claims) (token : TokenString) :
    m.ensureRefreshValid ctx fault claims token =
      match m.storeErr ctx fault with
      | some e => some e
      | none =>
        match m.store.Load (m.refreshKey claims.RegisteredClaims.ID) with
        | none => some m.absentErr
        | some val => if val ≠ token then some (.New "refresh token revoked") else none := by
  cases m with | mk cfg redis mem =>
  cases redis with
  | none => simp only [Manager.ensureRefreshValid, Manager.storeErr, Manager.store,
      Manager.absentErr]; split <;> simp_all
  | some r =>
    cases ctx with | mk cerr =>
    cases cerr with
    | some e => rfl
    | none =>
      cases fault with
      | some e => rfl
      | none =>
        simp only [Manager.ensureRefreshValid, Manager.storeErr, Manager.store,
          Manager.absentErr, RedisClient.Get]
        cases r.keys.Load (Manager.refreshKey ⟨cfg, some r, mem⟩ claims.RegisteredClaims.ID) <;>
          simp


/-! ## The two writing calls, in terms of the store they consult -/

theorem IssueTokens_eq (mac : MAC) (m : Manager) (ctx : Context) (env : Env) (u : User) :
    m.IssueTokens mac ctx env u =
      match m.storeErr ctx env.setFault with
      | some e => (.error e, m)
      | none =>
        (.ok ⟨HS256Token mac (m.accessClaims env.accessNow env.accessID u) m.cfg.AccessSecret,
            HS256Token mac (m.refreshClaims env.refreshNow env.refreshID u) m.cfg.RefreshSecret,
            (Duration.Seconds m.cfg.AccessTokenTTL).toInt, "Bearer"⟩,
          m.withStore (m.store.Store (m.refreshKey env.refreshID)
            (HS256Token mac (m.refreshClaims env.refreshNow env.refreshID u)
              m.cfg.RefreshSecret))) := by
  simp only [Manager.IssueTokens, issueAccess_eq, issueRefresh_eq, persistRefresh_eq]
  cases m.storeErr ctx env.setFault <;> rfl

theorem RefreshTokens_eq (mac : MAC) (m : Manager) (ctx : Context) (env : Env) (u : User)
    (token : TokenString) :
    m.RefreshTokens mac ctx env u token =
      match m.parse mac env.parseNow token m.cfg.RefreshSecret with
      | .error err => (.error err, m)
      | .ok claims =>
        if claims.UserID ≠ u.ID ∨ claims.TokenType ≠ "refresh" then
          (.error (.New "invalid refresh token"), m)
        else
          match m.ensureRefreshValid ctx env.getFault claims token with
          | some err => (.error err, m)
          | none =>
            match m.storeErr ctx env.setFault with
            | some e => (.error e, m)
            | none =>
              (.ok ⟨HS256Token mac (m.accessClaims env.accessNow env.accessID u)
                    m.cfg.AccessSecret,
                  HS256Token mac (m.refreshClaims env.refreshNow env.refreshID u)
                    m.cfg.RefreshSecret,
                  (Duration.Seconds m.cfg.AccessTokenTTL).toInt, "Bearer"⟩,
                match m.storeErr ctx env.delFault with
                | some _ =>
                  m.withStore (m.store.Store (m.refreshKey env.refreshID)
                    (HS256Token mac (m.refreshClaims env.refreshNow env.refreshID u)
                      m.cfg.RefreshSecret))
                | none =>
                  m.withStore ((m.store.Store (m.refreshKey env.refreshID)
                    (HS256Token mac (m.refreshClaims env.refreshNow env.refreshID u)
                      m.cfg.RefreshSecret)).Delete
                    (m.refreshKey claims.RegisteredClaims.ID))) := by
  simp only [Manager.RefreshTokens, issueAccess_eq, issueRefresh_eq, persistRefresh_eq,
    revoke_eq]
  cases m.parse mac env.parseNow token m.cfg.RefreshSecret with
  | error err => rfl
  | ok claims =>
    simp only
    split
    · rfl
    · cases m.ensureRefreshValid ctx env.getFault claims token with
      | some err => rfl
      | none =>
        simp only
        cases hs : m.storeErr ctx env.setFault with
        | some e => rfl
        | none =>
          simp only
          rw [storeErr_congr m (m.withStore _) ctx env.delFault (withStore_isSome m _)]
          cases m.storeErr ctx env.delFault with
          | some e => rfl
          | none => simp [withStore_store, withStore_withStore, Manager.refreshKey]; rfl

theorem GetSigningMethod_Alg (method : SigningMethod) :
    GetSigningMethod method.Alg = some method := by
  cases method with
  | hmac h => cases h <;> rfl
  | rsa h => cases h <;> rfl
  | rsapss h => cases h <;> rfl
  | ecdsa h => cases h <;> rfl
  | ed25519 => rfl
  | unsecured => rfl

theorem GetSigningMethod_eq_some {alg : String} {method : SigningMethod}
    (h : GetSigningMethod alg = some method) : alg = method.Alg := by
  have := List.find?_some h
  exact (by simpa using this : method.Alg = alg).symm

theorem ParseWithClaims_ok_inv (mac : MAC) (now : Time) (token : TokenString) (secret : String)
    (p : ParsedToken) (h : ParseWithClaims mac now token (keyFunc secret) = .ok p) :
    ∃ t hash, token = .jws t ∧ p = ⟨.hmac hash, t.claims, true⟩ ∧
      t.alg = some (SigningMethod.hmac hash).Alg ∧
      mac hash secret ⟨t.alg, t.claims⟩ = t.signature ∧ Validate now t.claims = (false, false) := by
  cases token with
  | malformed raw => simp [ParseWithClaims] at h
  | jws t =>
    obtain ⟨alg, c, sig⟩ := t
    cases alg with
    | none => simp [ParseWithClaims] at h
    | some a =>
      simp only [ParseWithClaims] at h
      cases hg : GetSigningMethod a with
      | none => simp [hg] at h
      | some method =>
        have ha := GetSigningMethod_eq_some hg
        simp only [hg] at h
        cases method with
        | hmac hash =>
          simp only [keyFunc, SigningMethod.isHMAC, SigningMethod.Verify, Bool.not_true,
            Bool.false_eq_true, ↓reduceIte] at h
          by_cases hm : mac hash secret ⟨some a, c⟩ = sig
          · simp only [hm, ↓reduceIte] at h
            split at h
            · rename_i hv
              simp only [Except.ok.injEq] at h
              exact ⟨⟨some a, c, sig⟩, hash, rfl, h.symm, by rw [ha], hm, hv⟩
            · simp at h
          · simp [hm] at h
        | rsa _ => simp [keyFunc, SigningMethod.isHMAC] at h
        | rsapss _ => simp [keyFunc, SigningMethod.isHMAC] at h
        | ecdsa _ => simp [keyFunc, SigningMethod.isHMAC] at h
        | ed25519 => simp [keyFunc, SigningMethod.isHMAC] at h
        | unsecured => simp [keyFunc, SigningMethod.isHMAC] at h

theorem parse_ok_inv (mac : MAC) (m : Manager) (now : Time) (token : TokenString)
    (secret : String) (c : Claims) (h : m.parse mac now token secret = .ok c) :
    ∃ t hash, token = .jws t ∧ c = t.claims ∧ t.alg = some (SigningMethod.hmac hash).Alg ∧
      mac hash secret ⟨t.alg, t.claims⟩ = t.signature ∧ Validate now c = (false, false) ∧
      c.SecretVer = m.cfg.SecretVersion := by
  simp only [Manager.parse] at h
  cases hp : ParseWithClaims mac now token (keyFunc secret) with
  | error e => simp [hp] at h
  | ok p =>
    obtain ⟨t, hash, ht, hpe, halg, hsig, hv⟩ := ParseWithClaims_ok_inv mac now token secret p hp
    subst hpe
    simp only [hp, Bool.not_true, Bool.false_eq_true, ↓reduceIte, ne_eq, ite_not] at h
    split at h
    · rename_i hsv
      simp only [Except.ok.injEq] at h
      subst h
      exact ⟨t, hash, ht, rfl, halg, hsig, hv, hsv⟩
    · simp at h



theorem refreshKey_ne (m m' : Manager) {a b : String} (h : a ≠ b) :
    m.refreshKey a ≠ m'.refreshKey b :=
  fun h' => h (refreshKey_inj m m' h')

/-- C2: for every user and every configuration, the access token returned by `IssueTokens`,
passed to `ParseAccessToken` of a manager with the same configuration before its expiry, is
accepted, and the claims returned carry the user's ID and role. -/
theorem C2_issued_access_token_parses (mac : MAC) (m m2 : Manager) (ctx : Context) (env : Env)
    (u : User) (tokens : AuthTokens) (m' : Manager) (now : Time)
    (hissue : m.IssueTokens mac ctx env u = (.ok tokens, m'))
    (hcfg : m2.cfg = m.cfg)
    (hexp : now < NumericDate.Time (NewNumericDate (env.accessNow + m.cfg.AccessTokenTTL))) :
    ∃ claims, m2.ParseAccessToken mac now tokens.AccessToken = .ok claims ∧
      claims.UserID = u.ID ∧ claims.Role = u.Role := by
  have htok : tokens.AccessToken =
      HS256Token mac (m.accessClaims env.accessNow env.accessID u) m.cfg.AccessSecret := by
    simp only [Manager.IssueTokens, issueAccess_eq, issueRefresh_eq] at hissue
    split at hissue
    · simp at hissue
    · simp only [Prod.mk.injEq, Except.ok.injEq] at hissue
      rw [← hissue.1]
  refine ⟨m.accessClaims env.accessNow env.accessID u, ?_, rfl, rfl⟩
  rw [htok, Manager.ParseAccessToken, hcfg]
  apply parse_HS256Token
  · exact Validate_of_exp _ _ _ rfl rfl hexp
  · simp [Manager.accessClaims, hcfg]

/-- C2 witness: the token issued at 1000 s with a lifetime of 15 minutes, parsed at 1500 s. -/
theorem C2_issued_access_token_parses_witness :
    demoManager.IssueTokens demoMAC .Background demoEnv demoUser
      = (.ok demoTokens, demoIssued) ∧
    demoIssued.cfg = demoManager.cfg ∧
    (1500 * Second < NumericDate.Time
      (NewNumericDate (demoEnv.accessNow + demoManager.cfg.AccessTokenTTL))) ∧
    ∃ claims, demoIssued.ParseAccessToken demoMAC (1500 * Second) demoTokens.AccessToken
        = .ok claims ∧ claims.UserID = demoUser.ID ∧ claims.Role = demoUser.Role :=
  ⟨rfl, rfl, by decide,
    C2_issued_access_token_parses demoMAC demoManager demoIssued .Background demoEnv demoUser
      demoTokens demoIssued (1500 * Second) rfl rfl (by decide)⟩

/-! ## C3: refresh tokens that are not acceptable -/

theorem Alg_hmac_inj {h h' : Hash}
    (e : (SigningMethod.hmac h).Alg = (SigningMethod.hmac h').Alg) : h = h' := by
  have := (GetSigningMethod_Alg (.hmac h)).symm.trans
    ((congrArg GetSigningMethod e).trans (GetSigningMethod_Alg (.hmac h')))
  simpa using this

theorem parse_bad_signature (mac : MAC) (m : Manager) (now : Time) (t : Token) (secret : String)
    (hash : Hash) (halg : t.alg = some (SigningMethod.hmac hash).Alg)
    (hsig : mac hash secret ⟨t.alg, t.claims⟩ ≠ t.signature) :
    m.parse mac now (.jws t) secret = .error .tokenSignatureInvalid := by
  have hg := GetSigningMethod_Alg (.hmac hash)
  obtain ⟨alg, c, sig⟩ := t
  simp only at halg hsig
  subst halg
  simp [Manager.parse, ParseWithClaims, hg, keyFunc, SigningMethod.isHMAC,
    SigningMethod.Verify, hsig]

/-- C3 (as stated, refuted): a refresh token signed under another secret, and the access token
of the same session presented as a refresh token (the two secrets being different), are
refused with the JWT library's signature error, returned as it is; that error is neither
"invalid refresh token" nor "invalid token". -/
theorem C3_counterexample :
    demoIssued.RefreshTokens demoMAC .Background demoEnv2 demoUser (.jws demoForged)
      = (.error .tokenSignatureInvalid, demoIssued) ∧
    demoTokens.AccessToken = .jws demoAccess ∧
    demoAccess.claims.TokenType = "access" ∧
    demoIssued.RefreshTokens demoMAC .Background demoEnv2 demoUser demoTokens.AccessToken
      = (.error .tokenSignatureInvalid, demoIssued) ∧
    Err.tokenSignatureInvalid ≠ Err.New "invalid refresh token" ∧
    Err.tokenSignatureInvalid ≠ Err.New "invalid token" :=
  ⟨rfl, rfl, rfl, rfl, by decide, by decide⟩

/-- C3 (amended): `RefreshTokens(u, t)` never succeeds, and leaves the refresh store unchanged,
whenever the signature of `t` is not the one the refresh secret gives, or the type claim of
`t` is not "refresh", or the user id of `t` differs from `u.ID`. The error is the JWT library's
signature-invalid error in the first case, and "invalid refresh token" when `t` passes `parse`
under the refresh secret and only its type or user id is wrong. -/
theorem C3_bad_refresh_token_refused (mac : MAC) (m : Manager) (ctx : Context) (env : Env)
    (u : User) (t : Token)
    (h : (∃ hash, t.alg = some (SigningMethod.hmac hash).Alg ∧
            mac hash m.cfg.RefreshSecret ⟨t.alg, t.claims⟩ ≠ t.signature) ∨
          t.claims.TokenType ≠ "refresh" ∨ t.claims.UserID ≠ u.ID) :
    ∃ err, m.RefreshTokens mac ctx env u (.jws t) = (.error err, m) ∧
      ((∃ hash, t.alg = some (SigningMethod.hmac hash).Alg ∧
          mac hash m.cfg.RefreshSecret ⟨t.alg, t.claims⟩ ≠ t.signature) →
        err = .tokenSignatureInvalid) ∧
      ((∃ c, m.parse mac env.parseNow (.jws t) m.cfg.RefreshSecret = .ok c) →
        err = .New "invalid refresh token") := by
  rw [RefreshTokens_eq]
  cases hp : m.parse mac env.parseNow (.jws t) m.cfg.RefreshSecret with
  | error e =>
    refine ⟨e, rfl, ?_, fun ⟨c, hc⟩ => by cases hc⟩
    rintro ⟨hash, halg, hsig⟩
    rw [parse_bad_signature mac m _ t _ hash halg hsig] at hp
    cases hp
    rfl
  | ok c =>
    obtain ⟨t', hash', ht, hc, halg', hsig', -⟩ := parse_ok_inv mac m _ _ _ c hp
    cases ht
    have hnotA : ¬ ∃ hash, t.alg = some (SigningMethod.hmac hash).Alg ∧
        mac hash m.cfg.RefreshSecret ⟨t.alg, t.claims⟩ ≠ t.signature := by
      rintro ⟨hash, halg, hsig⟩
      rw [halg'] at halg
      have := Alg_hmac_inj (Option.some.inj halg)
      subst this
      exact hsig hsig'
    have hcond : c.UserID ≠ u.ID ∨ c.TokenType ≠ "refresh" := by
      rcases h with hA | hB | hC
      · exact absurd hA hnotA
      · exact Or.inr (hc ▸ hB)
      · exact Or.inl (hc ▸ hC)
    simp only [hcond, ↓reduceIte]
    exact ⟨_, rfl, fun hA => absurd hA hnotA, fun _ => rfl⟩

/-- C3 witness: the amended statement at a token signed under another secret. -/
theorem C3_bad_refresh_token_refused_witness :
    ((∃ hash, demoForged.alg = some (SigningMethod.hmac hash).Alg ∧
        demoMAC hash demoIssued.cfg.RefreshSecret ⟨demoForged.alg, demoForged.claims⟩
          ≠ demoForged.signature) ∨
      demoForged.claims.TokenType ≠ "refresh" ∨ demoForged.claims.UserID ≠ demoUser.ID) ∧
    ∃ err, demoIssued.RefreshTokens demoMAC .Background demoEnv2 demoUser (.jws demoForged)
        = (.error err, demoIssued) ∧
      ((∃ hash, demoForged.alg = some (SigningMethod.hmac hash).Alg ∧
          demoMAC hash demoIssued.cfg.RefreshSecret ⟨demoForged.alg, demoForged.claims⟩
            ≠ demoForged.signature) →
        err = .tokenSignatureInvalid) ∧
      ((∃ c, demoIssued.parse demoMAC demoEnv2.parseNow (.jws demoForged)
          demoIssued.cfg.RefreshSecret = .ok c) →
        err = .New "invalid refresh token") :=
  ⟨Or.inl ⟨.SHA256, rfl, by decide⟩,
    C3_bad_refresh_token_refused demoMAC demoIssued .Background demoEnv2 demoUser demoForged
      (Or.inl ⟨.SHA256, rfl, by decide⟩)⟩

/-! ## C4: bumping the secret version -/

theorem parse_stale_version (mac : MAC) (m : Manager) (now : Time) (c : Claims) (key : String)
    (hv : Validate now c = (false, false)) (hsv : c.SecretVer ≠ m.cfg.SecretVersion) :
    m.parse mac now (HS256Token mac c key) key = .error (.New "token version mismatch") := by
  have hg : GetSigningMethod "HS256" = some (.hmac .SHA256) := rfl
  simp [Manager.parse, ParseWithClaims, HS256Token, hg, keyFunc,
    SigningMethod.isHMAC, SigningMethod.Verify, hv, hsv]

theorem parse_hmac_stale (mac : MAC) (m : Manager) (now : Time) (t : Token) (secret : String)
    (hash : Hash) (halg : t.alg = some (SigningMethod.hmac hash).Alg)
    (hsig : mac hash secret ⟨t.alg, t.claims⟩ = t.signature)
    (hv : Validate now t.claims = (false, false))
    (hsv : t.claims.SecretVer ≠ m.cfg.SecretVersion) :
    m.parse mac now (.jws t) secret = .error (.New "token version mismatch") := by
  have hg := GetSigningMethod_Alg (.hmac hash)
  obtain ⟨alg, c, sig⟩ := t
  simp only at halg hsig hv hsv
  subst halg
  simp [Manager.parse, ParseWithClaims, hg, keyFunc, SigningMethod.isHMAC,
    SigningMethod.Verify, hsig, hv, hsv]

/-- C4: for the access and the refresh token `IssueTokens` mints under secret version `v`, a
manager with the same secrets whose active `SecretVersion` is any other value refuses both with
the error "token version mismatch", `ParseAccessToken` the access token and `RefreshTokens` the
refresh token, though signature and expiry are still valid; more generally, whatever `parse`
accepted under version `v` it refuses with that error, for the same secret and clock, under any
other active version. -/
theorem C4_version_bump_invalidates (mac : MAC) (m m2 : Manager) (ctx ctx2 : Context)
    (env env2 : Env) (u u2 : User) (tokens : AuthTokens) (m' : Manager) (now : Time)
    (hissue : m.IssueTokens mac ctx env u = (.ok tokens, m'))
    (hA : m2.cfg.AccessSecret = m.cfg.AccessSecret)
    (hR : m2.cfg.RefreshSecret = m.cfg.RefreshSecret)
    (hver : m2.cfg.SecretVersion ≠ m.cfg.SecretVersion)
    (hexpA : now < NumericDate.Time (NewNumericDate (env.accessNow + m.cfg.AccessTokenTTL)))
    (hexpR : env2.parseNow <
      NumericDate.Time (NewNumericDate (env.refreshNow + m.cfg.RefreshTokenTTL))) :
    m2.ParseAccessToken mac now tokens.AccessToken = .error (.New "token version mismatch") ∧
    m2.RefreshTokens mac ctx2 env2 u2 tokens.RefreshToken
      = (.error (.New "token version mismatch"), m2) ∧
    ∀ (token : TokenString) (secret : String) (t : Time) (c : Claims),
      m.parse mac t token secret = .ok c →
      m2.parse mac t token secret = .error (.New "token version mismatch") := by
  refine and_assoc.mp ⟨?_, fun token secret t c hc => ?_⟩
  swap
  · obtain ⟨tk, hash, ht, hcl, halg, hsig, hv, hsv⟩ := parse_ok_inv mac m t token secret c hc
    subst ht hcl
    exact parse_hmac_stale mac m2 t tk secret hash halg hsig hv (fun h => hver (hsv ▸ h).symm)
  rw [IssueTokens_eq] at hissue
  cases hs : m.storeErr ctx env.setFault with
  | some e => simp [hs] at hissue
  | none =>
    simp only [hs, Prod.mk.injEq, Except.ok.injEq] at hissue
    obtain ⟨ht, -⟩ := hissue
    subst ht
    constructor
    · rw [Manager.ParseAccessToken, hA]
      exact parse_stale_version mac m2 now _ _ (Validate_of_exp _ _ _ rfl rfl hexpA)
        (fun h => hver h.symm)
    · rw [RefreshTokens_eq, hR]
      simp only
      rw [parse_stale_version mac m2 env2.parseNow _ _ (Validate_of_exp _ _ _ rfl rfl hexpR)
        (fun h => hver h.symm)]

/-- C4 witness: the tokens issued under `v1`, presented after the version became `v2`. -/
theorem C4_version_bump_invalidates_witness :
    demoManager.IssueTokens demoMAC .Background demoEnv demoUser
      = (.ok demoTokens, demoIssued) ∧
    demoBumped.cfg.AccessSecret = demoManager.cfg.AccessSecret ∧
    demoBumped.cfg.RefreshSecret = demoManager.cfg.RefreshSecret ∧
    demoBumped.cfg.SecretVersion ≠ demoManager.cfg.SecretVersion ∧
    (1500 * Second < NumericDate.Time
      (NewNumericDate (demoEnv.accessNow + demoManager.cfg.AccessTokenTTL))) ∧
    demoEnv2.parseNow < NumericDate.Time
      (NewNumericDate (demoEnv.refreshNow + demoManager.cfg.RefreshTokenTTL)) ∧
    demoBumped.ParseAccessToken demoMAC (1500 * Second) demoTokens.AccessToken
      = .error (.New "token version mismatch") ∧
    demoBumped.RefreshTokens demoMAC .Background demoEnv2 demoUser demoTokens.RefreshToken
      = (.error (.New "token version mismatch"), demoBumped) ∧
    ∀ (token : TokenString) (secret : String) (t : Time) (c : Claims),
      demoManager.parse demoMAC t token secret = .ok c →
      demoBumped.parse demoMAC t token secret = .error (.New "token version mismatch") :=
  ⟨rfl, rfl, rfl, by decide, by decide, by decide,
    C4_version_bump_invalidates demoMAC demoManager demoBumped .Background .Background demoEnv
      demoEnv2 demoUser demoUser demoTokens demoIssued (1500 * Second) rfl rfl rfl (by decide)
      (by decide) (by decide)⟩


/-! ## C5: what a rotation does to the store -/

theorem KV.mem_keys (s : KV) (k : String) : k ∈ s.keys ↔ (s.Load k).isSome = true := by
  induction s with
  | nil => simp [KV.keys, KV.Load]
  | cons e s ih =>
    obtain ⟨a, v⟩ := e
    by_cases h : k = a
    · subst h; simp [KV.keys, KV.Load, List.lookup_cons]
    · have hb : (k == a) = false := by simpa using h
      have ih' : k ∈ (List.map Prod.fst s).toFinset ↔ (List.lookup k s).isSome = true := ih
      simp only [KV.keys, KV.Load, List.map_cons, List.toFinset_cons, Finset.mem_insert, h,
        false_or, List.lookup_cons, hb]
      exact ih'

theorem KV.keys_Delete (s : KV) (k : String) : (s.Delete k).keys = s.keys.erase k := by
  ext a
  rw [Finset.mem_erase, KV.mem_keys, KV.mem_keys]
  by_cases h : a = k
  · subst h; simp [KV.Load_Delete_self]
  · simp [KV.Load_Delete_of_ne s h, h]

theorem KV.keys_Store (s : KV) (k : String) (v : TokenString) :
    (s.Store k v).keys = insert k s.keys := by
  ext a
  rw [Finset.mem_insert, KV.mem_keys, KV.mem_keys]
  by_cases h : a = k
  · subst h; simp [KV.Load_Store_self]
  · simp [KV.Load_Store_of_ne s v h, h]

theorem KV.card_rotate (s : KV) (k1 k2 : String) (v : TokenString)
    (h : (s.Load k1).isSome = true) : ((s.Store k2 v).Delete k1).keys.card ≤ s.keys.card := by
  rw [KV.keys_Delete, KV.keys_Store]
  have h1 : k1 ∈ insert k2 s.keys := Finset.mem_insert_of_mem ((KV.mem_keys s k1).2 h)
  have h2 := Finset.card_erase_of_mem h1
  have h3 := Finset.card_insert_le k2 s.keys
  omega

theorem storeErr_of_succeeded (m : Manager) (ctx : Context) (f f' : Option Err)
    (h : m.storeErr ctx f = none) (h' : m.redis = none ∨ f' = none) :
    m.storeErr ctx f' = none := by
  cases m with | mk cfg redis mem =>
  cases redis with
  | none => rfl
  | some r =>
    cases ctx with | mk cerr =>
    cases cerr with
    | some e => simp [Manager.storeErr] at h
    | none =>
      rcases h' with h' | h'
      · cases h'
      · subst h'; rfl

theorem ensureRefreshValid_none_inv (m : Manager) (ctx : Context) (fault : Option Err)
    (claims : Claims) (token : TokenString)
    (h : m.ensureRefreshValid ctx fault claims token = none) :
    m.storeErr ctx fault = none ∧
      m.store.Load (m.refreshKey claims.RegisteredClaims.ID) = some token := by
  rw [ensureRefreshValid_eq] at h
  cases hs : m.storeErr ctx fault with
  | some e => simp [hs] at h
  | none =>
    simp only [hs] at h
    cases hl : m.store.Load (m.refreshKey claims.RegisteredClaims.ID) with
    | none => simp [hl] at h
    | some val =>
      simp only [hl, ne_eq, ite_not] at h
      by_cases hv : val = token
      · exact ⟨rfl, by rw [hv]⟩
      · simp [hv] at h

/-- A successful `RefreshTokens`, taken apart: the presented token passed `parse` with its own
claims, its entry was in the store, and the manager afterwards is the one with the new entry
stored and, if the delete command went through, the old one deleted. -/
theorem RefreshTokens_ok_inv (mac : MAC) (m : Manager) (ctx : Context) (env : Env) (u : User)
    (t : Token) (tokens : AuthTokens) (m' : Manager)
    (hok : m.RefreshTokens mac ctx env u (.jws t) = (.ok tokens, m')) :
    m.parse mac env.parseNow (.jws t) m.cfg.RefreshSecret = .ok t.claims ∧
    t.claims.UserID = u.ID ∧ t.claims.TokenType = "refresh" ∧
    m.storeErr ctx env.getFault = none ∧ m.storeErr ctx env.setFault = none ∧
    m.store.Load (m.refreshKey t.claims.RegisteredClaims.ID) = some (.jws t) ∧
    tokens.RefreshToken =
      HS256Token mac (m.refreshClaims env.refreshNow env.refreshID u) m.cfg.RefreshSecret ∧
    tokens.AccessToken =
      HS256Token mac (m.accessClaims env.accessNow env.accessID u) m.cfg.AccessSecret ∧
    m' = match m.storeErr ctx env.delFault with
      | some _ => m.withStore (m.store.Store (m.refreshKey env.refreshID) tokens.RefreshToken)
      | none => m.withStore ((m.store.Store (m.refreshKey env.refreshID)
          tokens.RefreshToken).Delete (m.refreshKey t.claims.RegisteredClaims.ID)) := by
  rw [RefreshTokens_eq] at hok
  cases hp : m.parse mac env.parseNow (.jws t) m.cfg.RefreshSecret with
  | error e => simp [hp] at hok
  | ok c =>
    obtain ⟨t', -, ht, hc, -⟩ := parse_ok_inv mac m _ _ _ c hp
    cases ht
    subst hc
    simp only [hp] at hok
    by_cases hcond : t.claims.UserID ≠ u.ID ∨ t.claims.TokenType ≠ "refresh"
    · simp [hcond] at hok
    · simp only [hcond, ↓reduceIte] at hok
      cases hv : m.ensureRefreshValid ctx env.getFault t.claims (.jws t) with
      | some e => simp [hv] at hok
      | none =>
        obtain ⟨hg, hl⟩ := ensureRefreshValid_none_inv m ctx _ _ _ hv
        simp only [hv] at hok
        cases hs : m.storeErr ctx env.setFault with
        | some e => simp [hs] at hok
        | none =>
          simp only [hs, Prod.mk.injEq, Except.ok.injEq] at hok
          obtain ⟨htok, hm'⟩ := hok
          subst htok
          simp only [ne_eq, not_or, not_not] at hcond
          exact ⟨rfl, hcond.1, hcond.2, hg, rfl, hl, rfl, rfl, hm'.symm⟩

/-- C5 (as stated, refuted): on the shared store, a rotation whose delete command fails still
succeeds (the error of `revoke` is discarded); afterwards the store holds the old entry with
its old value next to the new one, and the number of entries went from one to two. -/
theorem C5_counterexample :
    (demoSharedIssued.RefreshTokens demoMAC .Background demoEnv2DelFails demoUser
      demoTokens.RefreshToken).1.toOption.map (·.RefreshToken) = some demoRefresh2 ∧
    (demoSharedIssued.RefreshTokens demoMAC .Background demoEnv2DelFails demoUser
      demoTokens.RefreshToken).2 = demoSharedStale ∧
    demoSharedStale.store.Load "refresh:r1" = some demoTokens.RefreshToken ∧
    demoSharedIssued.store.keys.card = 1 ∧
    demoSharedStale.store.keys.card = 2 :=
  ⟨rfl, rfl, rfl, by decide, by decide⟩

/-- C5 (amended): after every successful `RefreshTokens(u, t)` whose delete command took effect
(always on the in-process map; on the shared store when `Del` did not fail), the identifier
drawn for the new refresh token being different from that of `t`: the refresh store no longer
holds an entry under the key "refresh:" + id of `t`, it holds under "refresh:" + id of the new
refresh token exactly the returned `RefreshToken`, every other entry is unchanged, and the
number of keys with an entry has not increased. -/
theorem C5_rotation_replaces_entry (mac : MAC) (m : Manager) (ctx : Context) (env : Env)
    (u : User) (t : Token) (tokens : AuthTokens) (m' : Manager)
    (hok : m.RefreshTokens mac ctx env u (.jws t) = (.ok tokens, m'))
    (hdel : m.redis = none ∨ env.delFault = none)
    (hfresh : env.refreshID ≠ t.claims.RegisteredClaims.ID) :
    m'.store.Load ("refresh:" ++ t.claims.RegisteredClaims.ID) = none ∧
    (∃ t', tokens.RefreshToken = .jws t' ∧ t'.claims.RegisteredClaims.ID = env.refreshID ∧
      m'.store.Load ("refresh:" ++ t'.claims.RegisteredClaims.ID) = some tokens.RefreshToken) ∧
    (∀ k, k ≠ "refresh:" ++ t.claims.RegisteredClaims.ID → k ≠ "refresh:" ++ env.refreshID →
      m'.store.Load k = m.store.Load k) ∧
    m'.store.keys.card ≤ m.store.keys.card := by
  obtain ⟨-, -, -, hg, -, hl, hR, -, hm'⟩ := RefreshTokens_ok_inv mac m ctx env u t tokens m' hok
  have hd : m.storeErr ctx env.delFault = none := storeErr_of_succeeded m ctx _ _ hg hdel
  simp only [hd] at hm'
  have hne : m.refreshKey env.refreshID ≠ m.refreshKey t.claims.RegisteredClaims.ID :=
    refreshKey_ne m m hfresh
  have hst : m'.store = (m.store.Store (m.refreshKey env.refreshID) tokens.RefreshToken).Delete
      (m.refreshKey t.claims.RegisteredClaims.ID) := by rw [hm', withStore_store]
  refine ⟨?_, ?_, ?_, ?_⟩
  · rw [hst]; exact KV.Load_Delete_self _ _
  · refine ⟨_, hR, rfl, ?_⟩
    rw [hst]
    show KV.Load _ (m.refreshKey env.refreshID) = _
    rw [KV.Load_Delete_of_ne _ hne, KV.Load_Store_self]
  · intro k hk1 hk2
    rw [hst]
    have hk1' : k ≠ m.refreshKey t.claims.RegisteredClaims.ID := hk1
    have hk2' : k ≠ m.refreshKey env.refreshID := hk2
    rw [KV.Load_Delete_of_ne _ hk1', KV.Load_Store_of_ne _ _ hk2']
  · rw [hst]
    exact KV.card_rotate _ _ _ _ (by rw [hl]; rfl)

/-- C5 witness: the rotation of `demoTokens` on the in-process map. -/
theorem C5_rotation_replaces_entry_witness :
    demoIssued.RefreshTokens demoMAC .Background demoEnv2 demoUser (.jws demoRefresh1)
      = (.ok demoRefreshed, demoRotated) ∧
    (demoIssued.redis = none ∨ demoEnv2.delFault = none) ∧
    demoEnv2.refreshID ≠ demoRefresh1.claims.RegisteredClaims.ID ∧
    demoRotated.store.Load ("refresh:" ++ demoRefresh1.claims.RegisteredClaims.ID) = none ∧
    (∃ t', demoRefreshed.RefreshToken = .jws t' ∧
      t'.claims.RegisteredClaims.ID = demoEnv2.refreshID ∧
      demoRotated.store.Load ("refresh:" ++ t'.claims.RegisteredClaims.ID)
        = some demoRefreshed.RefreshToken) ∧
    (∀ k, k ≠ "refresh:" ++ demoRefresh1.claims.RegisteredClaims.ID →
      k ≠ "refresh:" ++ demoEnv2.refreshID →
      demoRotated.store.Load k = demoIssued.store.Load k) ∧
    demoRotated.store.keys.card ≤ demoIssued.store.keys.card :=
  ⟨rfl, Or.inl rfl, by decide,
    C5_rotation_replaces_entry demoMAC demoIssued .Background demoEnv2 demoUser demoRefresh1
      demoRefreshed demoRotated (by rfl) (Or.inl rfl) (by decide)⟩


/-! ## C6: the new entry is stored before the old one is deleted -/

theorem storeErr_none (m : Manager) (ctx : Context) (h : ctx.Err = none) :
    m.storeErr ctx none = none := by
  cases m with | mk cfg redis mem =>
  cases redis with
  | none => rfl
  | some r => simp [Manager.storeErr, h]

/-- C6: if, in `RefreshTokens`, the presented token passed every check and persisting the new
refresh entry fails, then `RefreshTokens` returns that error, the manager (so the old entry,
with its original value) is as before, and a later `RefreshTokens` with the same presented
token succeeds whenever the token still parses, the context is not done and the store commands
get and set do not fail. -/
theorem C6_persist_failure_keeps_old (mac : MAC) (m : Manager) (ctx : Context) (env : Env)
    (u : User) (token : TokenString) (claims : Claims) (e : Err)
    (hparse : m.parse mac env.parseNow token m.cfg.RefreshSecret = .ok claims)
    (huid : claims.UserID = u.ID) (htype : claims.TokenType = "refresh")
    (hvalid : m.ensureRefreshValid ctx env.getFault claims token = none)
    (hpersist : (m.persistRefresh ctx env.setFault
      (m.refreshClaims env.refreshNow env.refreshID u)
      (HS256Token mac (m.refreshClaims env.refreshNow env.refreshID u)
        m.cfg.RefreshSecret)).1 = some e) :
    m.RefreshTokens mac ctx env u token = (.error e, m) ∧
    m.store.Load ("refresh:" ++ claims.RegisteredClaims.ID) = some token ∧
    ∀ (ctx' : Context) (env' : Env),
      m.parse mac env'.parseNow token m.cfg.RefreshSecret = .ok claims →
      ctx'.Err = none → env'.getFault = none → env'.setFault = none →
      ∃ tokens m', m.RefreshTokens mac ctx' env' u token = (.ok tokens, m') := by
  obtain ⟨-, hl⟩ := ensureRefreshValid_none_inv m ctx _ _ _ hvalid
  have hs : m.storeErr ctx env.setFault = some e := by
    rw [persistRefresh_eq] at hpersist
    cases hs : m.storeErr ctx env.setFault with
    | none => simp [hs] at hpersist
    | some e' => simpa [hs] using hpersist
  have hcond : ¬ (claims.UserID ≠ u.ID ∨ claims.TokenType ≠ "refresh") := by
    simp [huid, htype]
  refine ⟨?_, hl, ?_⟩
  · rw [RefreshTokens_eq]
    simp only [hparse, hcond, ↓reduceIte, hvalid, hs]
  · intro ctx' env' hparse' hctx' hget' hset'
    have hv' : m.ensureRefreshValid ctx' env'.getFault claims token = none := by
      rw [ensureRefreshValid_eq, hget', storeErr_none m ctx' hctx']
      simp only [hl]
      simp
    rw [RefreshTokens_eq]
    simp only [hparse', hcond, ↓reduceIte, hv', hset', storeErr_none m ctx' hctx']
    exact ⟨_, _, rfl⟩

/-- C6 witness: on the shared store, a rotation of `demoTokens` whose set command fails. -/
theorem C6_persist_failure_keeps_old_witness :
    demoSharedIssued.parse demoMAC demoEnv2SetFails.parseNow (.jws demoRefresh1)
      demoSharedIssued.cfg.RefreshSecret = .ok demoRefresh1.claims ∧
    demoRefresh1.claims.UserID = demoUser.ID ∧
    demoRefresh1.claims.TokenType = "refresh" ∧
    demoSharedIssued.ensureRefreshValid .Background demoEnv2SetFails.getFault
      demoRefresh1.claims (.jws demoRefresh1) = none ∧
    (demoSharedIssued.persistRefresh .Background demoEnv2SetFails.setFault
      (demoSharedIssued.refreshClaims demoEnv2SetFails.refreshNow demoEnv2SetFails.refreshID
        demoUser)
      (HS256Token demoMAC (demoSharedIssued.refreshClaims demoEnv2SetFails.refreshNow
        demoEnv2SetFails.refreshID demoUser) demoSharedIssued.cfg.RefreshSecret)).1
      = some (.storage "i/o timeout") ∧
    (demoSharedIssued.RefreshTokens demoMAC .Background demoEnv2SetFails demoUser
      (.jws demoRefresh1) = (.error (.storage "i/o timeout"), demoSharedIssued) ∧
    demoSharedIssued.store.Load ("refresh:" ++ demoRefresh1.claims.RegisteredClaims.ID)
      = some (.jws demoRefresh1) ∧
    ∀ (ctx' : Context) (env' : Env),
      demoSharedIssued.parse demoMAC env'.parseNow (.jws demoRefresh1)
        demoSharedIssued.cfg.RefreshSecret = .ok demoRefresh1.claims →
      ctx'.Err = none → env'.getFault = none → env'.setFault = none →
      ∃ tokens m', demoSharedIssued.RefreshTokens demoMAC ctx' env' demoUser
        (.jws demoRefresh1) = (.ok tokens, m')) :=
  ⟨rfl, rfl, rfl, rfl, rfl,
    C6_persist_failure_keeps_old demoMAC demoSharedIssued .Background demoEnv2SetFails demoUser
      (.jws demoRefresh1) demoRefresh1.claims (.storage "i/o timeout") (by rfl) rfl rfl
      (by rfl) (by rfl)⟩

/-! ## C7: a failing lookup fails the rotation -/

/-- C7: on the shared store, if the lookup command fails (whatever the key) with a storage
error, `RefreshTokens` returns an error and no tokens and leaves the manager, so the store,
as it was; when the presented token passed the checks before the lookup, the error returned
is that storage error. -/
theorem C7_lookup_failure_fails_closed (mac : MAC) (m : Manager) (r : RedisClient)
    (ctx : Context) (env : Env) (u : User) (token : TokenString) (e : Err)
    (hr : m.redis = some r)
    (hget : ∀ key, r.Get ctx env.getFault key = .error e) :
    ∃ err, m.RefreshTokens mac ctx env u token = (.error err, m) ∧
      ∀ claims, m.parse mac env.parseNow token m.cfg.RefreshSecret = .ok claims →
        claims.UserID = u.ID → claims.TokenType = "refresh" → err = e := by
  have hv : ∀ claims, m.ensureRefreshValid ctx env.getFault claims token = some e := by
    intro claims
    simp [Manager.ensureRefreshValid, hr, hget]
  rw [RefreshTokens_eq]
  cases hp : m.parse mac env.parseNow token m.cfg.RefreshSecret with
  | error err => exact ⟨err, rfl, fun c hc => by cases hc⟩
  | ok claims =>
    by_cases hcond : claims.UserID ≠ u.ID ∨ claims.TokenType ≠ "refresh"
    · simp only [hcond, ↓reduceIte]
      refine ⟨_, rfl, fun c hc h1 h2 => ?_⟩
      cases hc
      simp [h1, h2] at hcond
    · simp only [hcond, ↓reduceIte, hv]
      exact ⟨e, rfl, fun _ _ _ _ => rfl⟩

/-- C7 witness: on the shared store, a rotation of `demoTokens` whose get command fails. -/
theorem C7_lookup_failure_fails_closed_witness :
    demoSharedIssued.redis = some ⟨[("refresh:r1", demoTokens.RefreshToken)]⟩ ∧
    (∀ key, RedisClient.Get ⟨[("refresh:r1", demoTokens.RefreshToken)]⟩ .Background
      demoEnv2GetFails.getFault key = .error (.storage "i/o timeout")) ∧
    ∃ err, demoSharedIssued.RefreshTokens demoMAC .Background demoEnv2GetFails demoUser
        demoTokens.RefreshToken = (.error err, demoSharedIssued) ∧
      ∀ claims, demoSharedIssued.parse demoMAC demoEnv2GetFails.parseNow
          demoTokens.RefreshToken demoSharedIssued.cfg.RefreshSecret = .ok claims →
        claims.UserID = demoUser.ID → claims.TokenType = "refresh" →
        err = .storage "i/o timeout" :=
  ⟨rfl, fun _ => rfl,
    C7_lookup_failure_fails_closed demoMAC demoSharedIssued
      ⟨[("refresh:r1", demoTokens.RefreshToken)]⟩ .Background demoEnv2GetFails demoUser
      demoTokens.RefreshToken (.storage "i/o timeout") rfl (fun _ => rfl)⟩


/-! ## C8: which header algorithms `parse` accepts -/

theorem parse_hmac_ok (mac : MAC) (m : Manager) (now : Time) (t : Token) (secret : String)
    (hash : Hash) (halg : t.alg = some (SigningMethod.hmac hash).Alg)
    (hsig : mac hash secret ⟨t.alg, t.claims⟩ = t.signature)
    (hv : Validate now t.claims = (false, false))
    (hsv : t.claims.SecretVer = m.cfg.SecretVersion) :
    m.parse mac now (.jws t) secret = .ok t.claims := by
  have hg := GetSigningMethod_Alg (.hmac hash)
  obtain ⟨alg, c, sig⟩ := t
  simp only at halg hsig hv hsv
  subst halg
  simp [Manager.parse, ParseWithClaims, hg, keyFunc, SigningMethod.isHMAC,
    SigningMethod.Verify, hsig, hv, hsv]

/-- C8 (as stated, refuted): a token whose header names `HS384`, not `HS256`, and whose
signature is the keyed hash over SHA-384 under the configured secret, is accepted by `parse`
and by `ExtractUserID`. -/
theorem C8_counterexample :
    demoHS384.alg = some "HS384" ∧
    demoHS384.alg ≠ some SigningMethodHS256.Alg ∧
    demoIssued.parse demoMAC (1500 * Second) (.jws demoHS384) demoIssued.cfg.RefreshSecret
      = .ok demoHS384.claims ∧
    demoIssued.ExtractUserID demoMAC (1500 * Second) (.jws demoHS384) = .ok demoUser.ID :=
  ⟨rfl, by decide, rfl, rfl⟩

/-- C8 (amended): the token decoder accepts only the algorithms of the HMAC family, the one
used for signing (`HS256`) and also `HS384` and `HS512`: `parse` accepts a token exactly when
its header names one of these, its signature is the keyed hash of that algorithm under the
configured secret, its claims are valid now and its version is the active one. So for every
token whose header names any other algorithm, or none, `parse` fails whatever its signature,
while a token naming `HS384` or `HS512` whose signature verifies is accepted. -/
theorem C8_parse_accepts_iff (mac : MAC) (m : Manager) (now : Time) (secret : String)
    (t : Token) :
    (∃ c, m.parse mac now (.jws t) secret = .ok c) ↔
      ∃ hash, t.alg = some (SigningMethod.hmac hash).Alg ∧
        mac hash secret ⟨t.alg, t.claims⟩ = t.signature ∧
        Validate now t.claims = (false, false) ∧
        t.claims.SecretVer = m.cfg.SecretVersion := by
  constructor
  · rintro ⟨c, hc⟩
    obtain ⟨t', hash, ht, hcl, halg, hsig, hv, hsv⟩ := parse_ok_inv mac m now _ secret c hc
    cases ht
    subst hcl
    exact ⟨hash, halg, hsig, hv, hsv⟩
  · rintro ⟨hash, halg, hsig, hv, hsv⟩
    exact ⟨t.claims, parse_hmac_ok mac m now t secret hash halg hsig hv hsv⟩

/-! ## C9: a cancelled context at the persistence step -/

/-- C9 (as stated, refuted): on the in-process map the context is never consulted: with a
context that is already cancelled, `IssueTokens` succeeds and the new refresh entry is in the
map, and so does `RefreshTokens`. -/
theorem C9_counterexample :
    demoCancelled.Err = some .contextDone ∧
    demoManager.IssueTokens demoMAC demoCancelled demoEnv demoUser
      = (.ok demoTokens, demoIssued) ∧
    demoManager.store.Load "refresh:r1" = none ∧
    demoIssued.store.Load "refresh:r1" = some demoTokens.RefreshToken ∧
    demoIssued.RefreshTokens demoMAC demoCancelled demoEnv2 demoUser demoTokens.RefreshToken
      = (.ok demoRefreshed, demoRotated) ∧
    demoRotated.store.Load "refresh:r2" = some demoRefreshed.RefreshToken :=
  ⟨rfl, rfl, rfl, rfl, rfl, rfl⟩

/-- C9 (amended): if the caller's context is already done when the persistence step is
reached, then on the shared store `persistRefresh` fails and writes nothing, `IssueTokens`
fails with the context's error and `RefreshTokens` fails, each leaving the store as it was;
on the in-process map the context is not consulted, and both calls behave as under a context
that is not done. -/
theorem C9_cancelled_context (mac : MAC) (m : Manager) (ctx : Context) (env : Env) (u : User)
    (token : TokenString) (e : Err) (hctx : ctx.Err = some e) :
    (∀ r, m.redis = some r →
      (∀ claims tok, m.persistRefresh ctx env.setFault claims tok = (some .contextDone, m)) ∧
      m.IssueTokens mac ctx env u = (.error .contextDone, m) ∧
      ∃ err, m.RefreshTokens mac ctx env u token = (.error err, m)) ∧
    (m.redis = none →
      m.IssueTokens mac ctx env u = m.IssueTokens mac .Background env u ∧
      m.RefreshTokens mac ctx env u token = m.RefreshTokens mac .Background env u token) := by
  constructor
  · intro r hr
    have hs : ∀ f, m.storeErr ctx f = some .contextDone := by
      intro f; simp [Manager.storeErr, hr, hctx]
    refine ⟨fun claims tok => by rw [persistRefresh_eq, hs], by rw [IssueTokens_eq, hs], ?_⟩
    rw [RefreshTokens_eq]
    cases m.parse mac env.parseNow token m.cfg.RefreshSecret with
    | error err => exact ⟨err, rfl⟩
    | ok claims =>
      simp only [ensureRefreshValid_eq, hs]
      split
      · exact ⟨_, rfl⟩
      · exact ⟨_, rfl⟩
  · intro hn
    have hs : ∀ c f, m.storeErr c f = none := by
      intro c f; simp [Manager.storeErr, hn]
    constructor
    · rw [IssueTokens_eq, IssueTokens_eq, hs, hs]
    · rw [RefreshTokens_eq, RefreshTokens_eq]
      simp only [ensureRefreshValid_eq, hs]

/-- C9 witness: `IssueTokens` and `RefreshTokens` under a cancelled context. -/
theorem C9_cancelled_context_witness :
    demoCancelled.Err = some .contextDone ∧
    (∀ r, demoSharedIssued.redis = some r →
      (∀ claims tok, demoSharedIssued.persistRefresh demoCancelled demoEnv2.setFault claims tok
        = (some .contextDone, demoSharedIssued)) ∧
      demoSharedIssued.IssueTokens demoMAC demoCancelled demoEnv2 demoUser
        = (.error .contextDone, demoSharedIssued) ∧
      ∃ err, demoSharedIssued.RefreshTokens demoMAC demoCancelled demoEnv2 demoUser
        demoTokens.RefreshToken = (.error err, demoSharedIssued)) ∧
    (demoSharedIssued.redis = none →
      demoSharedIssued.IssueTokens demoMAC demoCancelled demoEnv2 demoUser
        = demoSharedIssued.IssueTokens demoMAC .Background demoEnv2 demoUser ∧
      demoSharedIssued.RefreshTokens demoMAC demoCancelled demoEnv2 demoUser
          demoTokens.RefreshToken
        = demoSharedIssued.RefreshTokens demoMAC .Background demoEnv2 demoUser
          demoTokens.RefreshToken) :=
  ⟨rfl, C9_cancelled_context demoMAC demoSharedIssued demoCancelled demoEnv2 demoUser
    demoTokens.RefreshToken .contextDone rfl⟩

/-! ## C10: `ExtractUserID` does not look at the store -/

/-- The `ExpiresIn` of the sample tokens: `int64(AccessTokenTTL.Seconds())` for 15 minutes. -/
theorem demoCfg_expires_in : (Duration.Seconds demoCfg.AccessTokenTTL).toInt = 900 := by
  decide!

end Auth

/-! # Theorems on the throttling core -/

namespace RateLimit

open Auth (Time Duration Context Err Second)
open Go (Float64 wrap64 roundQ MinInt64 MaxInt64)

/-! ## Running call sequences -/

theorem MemoryLimiter.run_nil (m : MemoryLimiter) : m.run [] = ([], m) := rfl

theorem MemoryLimiter.memory_run_snoc (m : MemoryLimiter) (cs : List Call) (c : Call) :
    m.run (cs ++ [c]) =
      ((m.run cs).1 ++ [((m.run cs).2.Allow .Background c.now c.key).1.1],
        ((m.run cs).2.Allow .Background c.now c.key).2) := by
  simp [MemoryLimiter.run, List.foldl_append]

theorem Allow_ctx (m : MemoryLimiter) (ctx ctx' : Context) (now : Time) (key : String) :
    m.Allow ctx now key = m.Allow ctx' now key := rfl

theorem Allow_limit (m : MemoryLimiter) (ctx : Context) (now : Time) (key : String) :
    (m.Allow ctx now key).2.limit = m.limit ∧ (m.Allow ctx now key).2.burst = m.burst := by
  unfold MemoryLimiter.Allow
  cases m.store key with
  | none => exact ⟨rfl, rfl⟩
  | some b =>
    simp only
    split <;> exact ⟨rfl, rfl⟩

theorem Allow_other (m : MemoryLimiter) (ctx : Context) (now : Time) (key k : String)
    (h : k ≠ key) : (m.Allow ctx now key).2.store k = m.store k := by
  unfold MemoryLimiter.Allow
  cases m.store key with
  | none => simp [MemoryLimiter.setBucket, h]
  | some b =>
    simp only
    split <;> simp [MemoryLimiter.setBucket, h]

theorem setBucket_store_self (m : MemoryLimiter) (k : String) (b : bucket) :
    (m.setBucket k b).store k = some b := by
  simp [MemoryLimiter.setBucket]

/-! ## Elapsed time -/

theorem Sub_eq (t u : Int) :
    Auth.Time.Sub t u =
      if t - u < -9223372036854775808 then -9223372036854775808
      else if 9223372036854775807 < t - u then 9223372036854775807
      else t - u := rfl

theorem Sub_self (t : Int) : Auth.Time.Sub t t = 0 := by
  rw [Sub_eq]
  simp

theorem Sub_of_le {t u : Int} (h : u ≤ t) :
    0 ≤ Auth.Time.Sub t u ∧ Auth.Time.Sub t u ≤ 9223372036854775807 := by
  rw [Sub_eq]
  unfold Auth.Duration
  split_ifs <;> constructor <;> omega

theorem Sub_ge_of_le {t u d : Int} (hd : d ≤ 9223372036854775807) (h : u + d ≤ t) :
    d ≤ Auth.Time.Sub t u := by
  rw [Sub_eq]
  split_ifs <;> omega

theorem Minutes_zero : Minutes 0 = .finite 0 := by decide!

/-- On a duration that is not negative `Minutes()` is finite, not negative and below `2 ^ 28`,
and it is at least 1 from one minute on. -/
theorem Minutes_bounds (d : Int) (h0 : 0 ≤ d) (h1 : d ≤ 9223372036854775807) :
    ∃ q : ℚ, Minutes d = .finite q ∧ 0 ≤ q ∧ q ≤ 268435456 ∧ (Minute ≤ d → 1 ≤ q) := by
  have hM : Minute = 60000000000 := by decide
  have hdiv : Int.tdiv d Minute = d / Minute := Int.tdiv_eq_ediv h0 (by rw [hM]; norm_num)
  have hmod : Int.tmod d Minute = d % Minute := Int.tmod_eq_emod h0 (by rw [hM]; norm_num)
  have hm0 : 0 ≤ d / Minute := Int.ediv_nonneg h0 (by rw [hM]; norm_num)
  have hm1 : d / Minute ≤ 153722867 := by
    rw [hM]; omega
  have hn0 : 0 ≤ d % Minute := Int.emod_nonneg _ (by rw [hM]; norm_num)
  have hn1 : d % Minute < 60000000000 := by
    have := Int.emod_lt_of_pos d (by rw [hM]; norm_num : (0 : Int) < Minute)
    rwa [hM] at this
  have hge : Minute ≤ d → 1 ≤ d / Minute := by
    rw [hM]
    intro h
    have h' : (60000000000 : Int) ≤ d := h
    omega
  generalize d / Minute = mn at hdiv hm0 hm1 hge
  generalize d % Minute = ns at hmod hn0 hn1
  have e1 : Float64.ofInt mn = .finite (mn : ℚ) := Float64.ofInt_small mn (by omega) (by omega)
  have e2 : Float64.ofInt ns = .finite (ns : ℚ) := Float64.ofInt_small ns (by omega) (by omega)
  have hnq0 : (0 : ℚ) ≤ (ns : ℚ) := by exact_mod_cast hn0
  have hnq1 : (ns : ℚ) ≤ 60000000000 := by exact_mod_cast hn1.le
  have hmq0 : (0 : ℚ) ≤ (mn : ℚ) := by exact_mod_cast hm0
  have hmq1 : (mn : ℚ) ≤ 153722867 := by exact_mod_cast hm1
  have r0 : roundQ 0 = 0 := Go.roundQ_zero
  have r1 : roundQ 1 = 1 := by
    have := Go.roundQ_intCast 1 (by norm_num) (by norm_num); simpa using this
  obtain ⟨f1, f2, f3⟩ := Float64.round_between (x := (ns : ℚ) / 60000000000) r0 r1
    (by positivity) (by rw [div_le_one (by norm_num)]; exact hnq1) (by norm_num) (by norm_num)
  have rm : roundQ (mn : ℚ) = mn := Go.roundQ_intCast mn (by omega) (by omega)
  have rm1 : roundQ ((mn : ℚ) + 1) = (mn : ℚ) + 1 := by
    have := Go.roundQ_intCast (mn + 1) (by omega) (by omega)
    push_cast at this; exact this
  obtain ⟨g1, g2, g3⟩ := Float64.round_between
    (x := (mn : ℚ) + roundQ ((ns : ℚ) / 60000000000)) rm rm1
    (by linarith) (by linarith) (by norm_num; linarith) (by norm_num; linarith)
  refine ⟨roundQ ((mn : ℚ) + roundQ ((ns : ℚ) / 60000000000)), ?_, by linarith, by linarith, ?_⟩
  · unfold Minutes
    simp only [hdiv, hmod, e1, e2, Float64.div, Float64.add]
    rw [if_neg (by norm_num), f1]
    simp only [Float64.add, g1]
  · intro h
    have : (1 : ℚ) ≤ (mn : ℚ) := by exact_mod_cast hge h
    linarith

end RateLimit

namespace RateLimit

open Auth (Time Duration Context Err Second)
open Go (Float64 wrap64 roundQ MinInt64 MaxInt64)

/-! ## One call on a key that has a bucket -/

theorem roundQ_one : roundQ 1 = 1 := by
  have := Go.roundQ_intCast 1 (by norm_num) (by norm_num); simpa using this

theorem roundQ_two_pow (k : Nat) : roundQ ((2 : ℚ) ^ k) = (2 : ℚ) ^ k := by
  have := Go.roundQ_two_zpow (k : Int) (by omega)
  rwa [zpow_natCast] at this

/-- A call on a key whose bucket holds a finite token count `t` between 0 and `2 ^ 63`, made no
earlier than the bucket was last written, on a limiter whose `limit` is not negative and whose
`limit + burst` is at least 1 and does not overflow. The refilled count is a finite `s` between
0 and the capacity as a `float64`; the call is allowed exactly when `s ≥ 1`, and then leaves
`s - 1`, rounded. One full minute after the last write, with `limit ≥ 1`, `s` is at least 1. -/
theorem Allow_refill (m : MemoryLimiter) (ctx : Context) (now : Int) (key : String) (t : ℚ)
    (last : Int) (hb : m.store key = some ⟨.finite t, last⟩) (hlast : last ≤ now)
    (ht0 : 0 ≤ t) (ht1 : t ≤ 9223372036854775808)
    (hL0 : 0 ≤ m.limit) (hL1 : m.limit ≤ 9223372036854775807)
    (hc0 : 1 ≤ m.limit + m.burst) (hc1 : m.limit + m.burst ≤ 9223372036854775807) :
    ∃ s : ℚ, 0 ≤ s ∧ s ≤ roundQ ((m.limit + m.burst : Int) : ℚ) ∧
      roundQ ((m.limit + m.burst : Int) : ℚ) ≤ 9223372036854775808 ∧
      (1 ≤ m.limit → last + Minute ≤ now → 1 ≤ s) ∧
      Float64.round (s + -1) = .finite (roundQ (s + -1)) ∧
      m.Allow ctx now key =
        if 1 ≤ s then
          ((⟨true, m.limit, (Float64.finite (roundQ (s + -1))).toInt, now + Minute⟩, none),
            m.setBucket key ⟨.finite (roundQ (s + -1)), now⟩)
        else
          ((⟨false, m.limit, 0, now + Minute⟩, none), m.setBucket key ⟨.finite s, last⟩) := by
  have r0 : roundQ 0 = 0 := Go.roundQ_zero
  have r1 := roundQ_one
  have hM : Minute = 60000000000 := by decide
  -- elapsed time
  obtain ⟨hd0, hd1⟩ := Sub_of_le hlast
  have hdM : last + Minute ≤ now → Minute ≤ Auth.Time.Sub now last := fun h =>
    Sub_ge_of_le (by rw [hM]; norm_num) h
  obtain ⟨q, hq, hq0, hq1, hqM⟩ := Minutes_bounds (Auth.Time.Sub now last) hd0 hd1
  -- the limit as a float
  obtain ⟨hLf, -, hLhi⟩ := Float64.ofInt_int64 m.limit
    (by unfold MinInt64; omega) (by unfold MaxInt64; omega)
  have hLq0 : (0 : ℚ) ≤ (m.limit : ℚ) := by exact_mod_cast hL0
  have hLlo : 0 ≤ roundQ (m.limit : ℚ) := Go.roundQ_nonneg hLq0
  have hL1' : 1 ≤ m.limit → 1 ≤ roundQ (m.limit : ℚ) := fun h =>
    Go.roundQ_ge_of_ge r1 (by exact_mod_cast h)
  -- the product
  have r91 := roundQ_two_pow 91
  obtain ⟨hp, hp0, hp1⟩ := Float64.round_between (x := q * roundQ (m.limit : ℚ)) r0 r91
    (mul_nonneg hq0 hLlo)
    (by
      have : q * roundQ (m.limit : ℚ) ≤ 268435456 * 9223372036854775808 :=
        mul_le_mul hq1 hLhi hLlo (by norm_num)
      norm_num at this ⊢
      linarith)
    (by norm_num) (pow_le_pow_right₀ (by norm_num) (by norm_num))
  have hpM : 1 ≤ m.limit → last + Minute ≤ now → 1 ≤ roundQ (q * roundQ (m.limit : ℚ)) :=
    fun h1 h2 => Go.roundQ_ge_of_ge r1 (by nlinarith [hL1' h1, hqM (hdM h2)])
  -- the sum
  have r92 := roundQ_two_pow 92
  obtain ⟨ha, ha0, ha1⟩ := Float64.round_between
    (x := t + roundQ (q * roundQ (m.limit : ℚ))) r0 r92 (by linarith)
    (by norm_num at hp1 ⊢; linarith) (by norm_num)
    (pow_le_pow_right₀ (by norm_num) (by norm_num))
  have haM : 1 ≤ m.limit → last + Minute ≤ now →
      1 ≤ roundQ (t + roundQ (q * roundQ (m.limit : ℚ))) :=
    fun h1 h2 => Go.roundQ_ge_of_ge r1 (by linarith [hpM h1 h2])
  -- the capacity
  have hw : wrap64 (m.limit + m.burst) = m.limit + m.burst :=
    Go.wrap64_of_range (by unfold MinInt64; omega) (by unfold MaxInt64; omega)
  obtain ⟨hCf, -, hChi⟩ := Float64.ofInt_int64 (m.limit + m.burst)
    (by unfold MinInt64; omega) (by unfold MaxInt64; omega)
  have hC1 : 1 ≤ roundQ ((m.limit + m.burst : Int) : ℚ) :=
    Go.roundQ_ge_of_ge r1 (by exact_mod_cast hc0)
  generalize roundQ ((m.limit + m.burst : Int) : ℚ) = C at hCf hChi hC1 ⊢
  generalize roundQ (t + roundQ (q * roundQ (m.limit : ℚ))) = a at ha ha0 ha1 haM
  -- the smaller of the two
  have hs0 : 0 ≤ (if C < a then C else a) := by split <;> linarith
  have hsC : (if C < a then C else a) ≤ C := by split <;> linarith
  have hsM : 1 ≤ m.limit → last + Minute ≤ now → 1 ≤ (if C < a then C else a) := by
    intro h1 h2
    have := haM h1 h2
    split <;> linarith
  have hmin : min (Float64.finite C) (Float64.finite a) = .finite (if C < a then C else a) := by
    unfold min Float64.lt
    by_cases h : C < a <;> simp [h]
  generalize (if C < a then C else a) = s at hs0 hsC hsM hmin
  have r63 : roundQ (9223372036854775808 : ℚ) = 9223372036854775808 := by
    have := roundQ_two_pow 63
    norm_num at this
    exact this
  have hneg1 : roundQ (-1 : ℚ) = -1 := by
    have := Go.roundQ_intCast (-1) (by norm_num) (by norm_num); simpa using this
  obtain ⟨hr, -, -⟩ := Float64.round_between (x := s + -1) hneg1 r63 (by linarith)
    (by linarith) (by norm_num) (by norm_num)
  refine ⟨s, hs0, hsC, hChi, hsM, hr, ?_⟩
  unfold MemoryLimiter.Allow
  simp only [hb, hq, hLf, hw, hCf, Float64.mul, hp, Float64.add, ha, hmin]
  by_cases h1 : 1 ≤ s
  · have hge : (Float64.finite s).ge (.finite 1) = true := by
      simp [Float64.ge, Float64.lt, h1]
    simp only [hge, ↓reduceIte, h1, Float64.sub, Float64.neg, Float64.add, hr]
  · have hge : (Float64.finite s).ge (.finite 1) = false := by
      simp [Float64.ge, Float64.lt, lt_of_not_le h1]
    simp only [hge, h1, ↓reduceIte, Bool.false_eq_true]

end RateLimit

namespace RateLimit

open Auth (Time Duration Context Err Second)
open Go (Float64 wrap64 roundQ MinInt64 MaxInt64)

/-! ## The first call on a key -/

/-- A call on a key without bucket, on a limiter whose `limit + burst` is at least 1 and does
not overflow: the call is allowed, and the bucket created holds `limit + burst - 1` tokens,
rounded to a `float64`. -/
theorem Allow_first_call (m : MemoryLimiter) (ctx : Context) (now : Int) (key : String)
    (hfresh : m.store key = none)
    (hc0 : 1 ≤ m.limit + m.burst) (hc1 : m.limit + m.burst ≤ 9223372036854775807) :
    m.Allow ctx now key =
      ((⟨true, m.limit, wrap64 (m.limit - 1), now + Minute⟩, none),
        m.setBucket key ⟨.finite (roundQ ((m.limit + m.burst - 1 : Int) : ℚ)), now⟩) ∧
    0 ≤ roundQ ((m.limit + m.burst - 1 : Int) : ℚ) ∧
    roundQ ((m.limit + m.burst - 1 : Int) : ℚ) ≤ roundQ ((m.limit + m.burst : Int) : ℚ) := by
  have hw : wrap64 (m.limit + m.burst) = m.limit + m.burst :=
    Go.wrap64_of_range (by unfold MinInt64; omega) (by unfold MaxInt64; omega)
  have hw2 : wrap64 (m.limit + m.burst - 1) = m.limit + m.burst - 1 :=
    Go.wrap64_of_range (by unfold MinInt64; omega) (by unfold MaxInt64; omega)
  obtain ⟨hf, -, -⟩ := Float64.ofInt_int64 (m.limit + m.burst - 1)
    (by unfold MinInt64; omega) (by unfold MaxInt64; omega)
  refine ⟨?_, ?_, ?_⟩
  · unfold MemoryLimiter.Allow
    simp only [hfresh, hw, hw2, hf]
  · exact Go.roundQ_nonneg (by exact_mod_cast (by omega : (0 : Int) ≤ m.limit + m.burst - 1))
  · exact Go.roundQ_mono (by exact_mod_cast (by omega : m.limit + m.burst - 1 ≤ m.limit + m.burst))

/-! ## Calls with no time elapsing (C11, C13) -/

/-- A call on a key whose bucket holds a whole number `z` of tokens, `0 ≤ z ≤ limit + burst`,
made at the instant the bucket was last written, on a limiter with `limit ≥ 0` and
`limit + burst ≤ 2 ^ 53`: every value involved is a whole number that `float64` holds
exactly. -/
theorem Allow_same_instant (m : MemoryLimiter) (ctx : Context) (now : Int) (key : String)
    (z : Int) (hz0 : 0 ≤ z) (hz : z ≤ m.limit + m.burst)
    (hL0 : 0 ≤ m.limit) (hL1 : m.limit ≤ 9007199254740992)
    (hc1 : m.limit + m.burst ≤ 9007199254740992)
    (hb : m.store key = some ⟨.finite (z : ℚ), now⟩) :
    m.Allow ctx now key =
      if 1 ≤ z then
        ((⟨true, m.limit, z - 1, now + Minute⟩, none),
          m.setBucket key ⟨.finite ((z - 1 : Int) : ℚ), now⟩)
      else
        ((⟨false, m.limit, 0, now + Minute⟩, none),
          m.setBucket key ⟨.finite (z : ℚ), now⟩) := by
  have hw : wrap64 (m.limit + m.burst) = m.limit + m.burst :=
    Go.wrap64_of_range (by unfold MinInt64; omega) (by unfold MaxInt64; omega)
  have hC : Float64.ofInt (m.limit + m.burst) = .finite ((m.limit + m.burst : Int) : ℚ) :=
    Float64.ofInt_small _ (by omega) hc1
  have hL : Float64.ofInt m.limit = .finite (m.limit : ℚ) :=
    Float64.ofInt_small _ (by omega) hL1
  have hmul : Float64.round (0 * (m.limit : ℚ)) = .finite 0 := by
    rw [zero_mul]
    have := Float64.round_intCast 0 (by norm_num) (by norm_num)
    simpa using this
  have hadd : Float64.round ((z : ℚ) + 0) = .finite (z : ℚ) := by
    rw [add_zero]
    exact Float64.round_intCast z (by omega) (by omega)
  have hmin : min (Float64.finite ((m.limit + m.burst : Int) : ℚ)) (Float64.finite (z : ℚ))
      = .finite (z : ℚ) := by
    unfold min Float64.lt
    have : ¬ (((m.limit + m.burst : Int) : ℚ) < (z : ℚ)) := not_lt.2 (by exact_mod_cast hz)
    simp only [this, decide_False, Bool.false_eq_true, ↓reduceIte]
  unfold MemoryLimiter.Allow
  simp only [hb, Sub_self, Minutes_zero, hw, hC, hL, Float64.mul, hmul, Float64.add, hadd, hmin]
  by_cases h1 : 1 ≤ z
  · have hge : (Float64.finite (z : ℚ)).ge (.finite 1) = true := by
      have : (1 : ℚ) ≤ (z : ℚ) := by exact_mod_cast h1
      simp [Float64.ge, Float64.lt, this]
    have hsub : Float64.round ((z : ℚ) + -1) = .finite ((z - 1 : Int) : ℚ) := by
      have := Float64.round_intCast (z - 1) (by omega) (by omega)
      push_cast at this ⊢
      rw [← sub_eq_add_neg]
      exact this
    have hti : (Float64.finite ((z - 1 : Int) : ℚ)).toInt = z - 1 :=
      Float64.toInt_intCast (z - 1) (by unfold MinInt64; omega) (by unfold MaxInt64; omega)
    simp only [hge, ↓reduceIte, h1, Float64.sub, Float64.neg, Float64.add, hsub, hti]
  · have hge : (Float64.finite (z : ℚ)).ge (.finite 1) = false := by
      have : (z : ℚ) < 1 := by exact_mod_cast (by omega : z < 1)
      simp [Float64.ge, Float64.lt, this]
    simp only [hge, h1, ↓reduceIte, Bool.false_eq_true]

end RateLimit

namespace RateLimit

open Auth (Time Duration Context Err Second)
open Go (Float64 wrap64 roundQ MinInt64 MaxInt64)

/-- The limiter after `j + 1` calls on a fresh key at one instant: the bucket of the key holds
`max (limit + burst - 1 - j) 0` tokens. -/
theorem run_replicate_store (m : MemoryLimiter) (now : Int) (key : String)
    (hL0 : 0 ≤ m.limit) (hcap : 1 ≤ m.limit + m.burst)
    (hL1 : m.limit ≤ 9007199254740992) (hc1 : m.limit + m.burst ≤ 9007199254740992)
    (hfresh : m.store key = none) (j : Nat) :
    (m.run (List.replicate (j + 1) ⟨now, key⟩)).2.store key
        = some ⟨.finite ((max (m.limit + m.burst - 1 - j) 0 : Int) : ℚ), now⟩ ∧
      (m.run (List.replicate (j + 1) ⟨now, key⟩)).2.limit = m.limit ∧
      (m.run (List.replicate (j + 1) ⟨now, key⟩)).2.burst = m.burst := by
  induction j with
  | zero =>
    have h0 : max (m.limit + m.burst - 1 - ((0 : Nat) : Int)) 0 = m.limit + m.burst - 1 := by
      simp only [Nat.cast_zero, sub_zero]
      exact max_eq_left (by omega)
    obtain ⟨hA, -, -⟩ := Allow_first_call m .Background now key hfresh hcap (by omega)
    have hr : roundQ ((m.limit + m.burst - 1 : Int) : ℚ) = ((m.limit + m.burst - 1 : Int) : ℚ) :=
      Go.roundQ_intCast _ (by omega) (by omega)
    simp only [List.replicate, MemoryLimiter.run, List.foldl, hA, h0, hr]
    exact ⟨setBucket_store_self _ _ _, rfl, rfl⟩
  | succ j ih =>
    obtain ⟨hs, hl, hb⟩ := ih
    rw [List.replicate_succ', MemoryLimiter.memory_run_snoc]
    generalize (m.run (List.replicate (j + 1) ⟨now, key⟩)).2 = m' at hs hl hb
    have hz : max (m.limit + m.burst - 1 - (j : Int)) 0 ≤ m'.limit + m'.burst := by
      rw [hl, hb]; omega
    simp only [Allow_same_instant m' .Background now key _ (le_max_right _ _) hz
      (by rw [hl]; exact hL0) (by rw [hl]; exact hL1) (by rw [hl, hb]; exact hc1) hs]
    by_cases h1 : 1 ≤ max (m.limit + m.burst - 1 - (j : Int)) 0
    · simp only [h1, ↓reduceIte, MemoryLimiter.setBucket, hl, hb, and_self, and_true]
      have : max (m.limit + m.burst - 1 - (j : Int)) 0 - 1
          = max (m.limit + m.burst - 1 - ((j + 1 : Nat) : Int)) 0 := by
        push_cast; omega
      rw [this]
    · simp only [h1, ↓reduceIte, MemoryLimiter.setBucket, hl, hb, and_self, and_true]
      have : max (m.limit + m.burst - 1 - (j : Int)) 0
          = max (m.limit + m.burst - 1 - ((j + 1 : Nat) : Int)) 0 := by
        push_cast; omega
      rw [this]

/-- The answer to call number `j + 1` on a fresh key, all calls made at one instant. -/
theorem Allow_after_replicate (m : MemoryLimiter) (now : Int) (key : String)
    (hL0 : 0 ≤ m.limit) (hcap : 1 ≤ m.limit + m.burst)
    (hL1 : m.limit ≤ 9007199254740992) (hc1 : m.limit + m.burst ≤ 9007199254740992)
    (hfresh : m.store key = none) (j : Nat) :
    ((m.run (List.replicate j ⟨now, key⟩)).2.Allow .Background now key).1.1 =
      if j = 0 then ⟨true, m.limit, m.limit - 1, now + Minute⟩
      else if (j : Int) + 1 ≤ m.limit + m.burst then
        ⟨true, m.limit, m.limit + m.burst - 1 - j, now + Minute⟩
      else ⟨false, m.limit, 0, now + Minute⟩ := by
  cases j with
  | zero =>
    obtain ⟨hA, -, -⟩ := Allow_first_call m .Background now key hfresh hcap (by omega)
    have hw : wrap64 (m.limit - 1) = m.limit - 1 :=
      Go.wrap64_of_range (by unfold MinInt64; omega) (by unfold MaxInt64; omega)
    simp only [List.replicate, MemoryLimiter.run_nil, hA, hw, ↓reduceIte]
  | succ j =>
    obtain ⟨hs, hl, hb⟩ := run_replicate_store m now key hL0 hcap hL1 hc1 hfresh j
    generalize (m.run (List.replicate (j + 1) ⟨now, key⟩)).2 = m' at hs hl hb
    have hz : max (m.limit + m.burst - 1 - (j : Int)) 0 ≤ m'.limit + m'.burst := by
      rw [hl, hb]; omega
    rw [Allow_same_instant m' .Background now key _ (le_max_right _ _) hz
      (by rw [hl]; exact hL0) (by rw [hl]; exact hL1) (by rw [hl, hb]; exact hc1) hs]
    simp only [Nat.succ_ne_zero, ↓reduceIte, Nat.cast_add, Nat.cast_one]
    by_cases h1 : 1 ≤ max (m.limit + m.burst - 1 - (j : Int)) 0
    · have h2 : (j : Int) + 1 + 1 ≤ m.limit + m.burst := by omega
      have h3 : max (m.limit + m.burst - 1 - (j : Int)) 0 - 1
          = m.limit + m.burst - 1 - ((j : Int) + 1) := by omega
      simp only [h1, h2, ↓reduceIte, hl, h3]
    · have h2 : ¬ (j : Int) + 1 + 1 ≤ m.limit + m.burst := by omega
      simp only [h1, h2, ↓reduceIte, hl]

/-- The answers to `n` calls at one instant on a fresh key, listed. -/
theorem run_replicate_infos (m : MemoryLimiter) (now : Time) (key : String) (n : Nat) :
    (m.run (List.replicate n ⟨now, key⟩)).1 =
      (List.range n).map (fun j =>
        ((m.run (List.replicate j ⟨now, key⟩)).2.Allow .Background now key).1.1) := by
  induction n with
  | zero => rfl
  | succ n ih =>
    rw [List.replicate_succ', MemoryLimiter.memory_run_snoc, List.range_succ, List.map_append, ih]
    rfl

/-- C11 (as stated, refuted): `limit` the largest `int` and `burst = 1`, so `limit ≥ 1` and
`burst ≥ 0`. The sum `limit + burst` wraps around to the smallest `int`: the first call on a
fresh key is allowed, the second, at the same instant, is denied, although `2 ≤ limit + burst`
as numbers. -/
theorem C11_counterexample :
    (1 : Int) ≤ (NewMemoryLimiter 9223372036854775807 1).limit ∧
    (0 : Int) ≤ (NewMemoryLimiter 9223372036854775807 1).burst ∧
    (NewMemoryLimiter 9223372036854775807 1).store "k" = none ∧
    (((NewMemoryLimiter 9223372036854775807 1).run (List.replicate 1 ⟨0, "k"⟩)).2.Allow
      .Background 0 "k").1.1.Allowed = false ∧
    ((1 : Nat) : Int) + 1 ≤ (NewMemoryLimiter 9223372036854775807 1).limit
      + (NewMemoryLimiter 9223372036854775807 1).burst ∧
    ((NewMemoryLimiter 9223372036854775807 1).run (List.replicate 2 ⟨0, "k"⟩)).1.map
      (fun info => info.Allowed) = [true, false] := by
  refine ⟨by decide, by decide, rfl, by decide!, by decide, by decide!⟩

/-- C11 (amended): for every `MemoryLimiter` with `limit ≥ 1`, `burst ≥ 0` and
`limit + burst ≤ 2 ^ 53` and every fresh key, when calls are made with no time elapsing between
them, call number `k + 1` returns `Allowed = true` exactly when `k + 1 ≤ limit + burst`: the
first `limit + burst` calls are allowed and every call after them is denied. The second part
says the same of the list of answers to `n` such calls. -/
theorem C11_first_calls_allowed (m : MemoryLimiter) (now : Time) (key : String)
    (hl : 1 ≤ m.limit) (hb : 0 ≤ m.burst) (hsmall : m.limit + m.burst ≤ 9007199254740992)
    (hfresh : m.store key = none) (k n : Nat) :
    (((m.run (List.replicate k ⟨now, key⟩)).2.Allow .Background now key).1.1.Allowed = true ↔
      (k : Int) + 1 ≤ m.limit + m.burst) ∧
    ((m.run (List.replicate n ⟨now, key⟩)).1.map (fun info => info.Allowed) =
      (List.range n).map (fun (j : Nat) => decide ((j : Int) + 1 ≤ m.limit + m.burst))) := by
  have hcap : 1 ≤ m.limit + m.burst := by omega
  have key1 : ∀ j : Nat,
      ((m.run (List.replicate j ⟨now, key⟩)).2.Allow .Background now key).1.1.Allowed
        = decide ((j : Int) + 1 ≤ m.limit + m.burst) := by
    intro j
    rw [Allow_after_replicate m now key (by omega) hcap (by omega) hsmall hfresh j]
    by_cases h0 : j = 0
    · subst h0
      simp only [↓reduceIte, Nat.cast_zero, zero_add]
      exact (decide_eq_true hcap).symm
    · by_cases h1 : (j : Int) + 1 ≤ m.limit + m.burst
      · simp [h0, h1]
      · simp [h0, h1]
  constructor
  · rw [key1 k]; exact decide_eq_true_iff
  · rw [run_replicate_infos m now key n, List.map_map]
    exact List.map_congr_left (fun j _ => key1 j)

/-- C11 witness: `limit = 60`, `burst = 5`: the 66th call, and the answers to 66 calls: 65
times allowed, then denied. -/
theorem C11_first_calls_allowed_witness :
    (1 : Int) ≤ (NewMemoryLimiter 60 5).limit ∧ (0 : Int) ≤ (NewMemoryLimiter 60 5).burst ∧
    (NewMemoryLimiter 60 5).limit + (NewMemoryLimiter 60 5).burst ≤ 9007199254740992 ∧
    (NewMemoryLimiter 60 5).store "ip:10.0.0.1" = none ∧
    ((NewMemoryLimiter 60 5).run (List.replicate 66 ⟨0, "ip:10.0.0.1"⟩)).1.map
        (fun info => info.Allowed) = List.replicate 65 true ++ [false] ∧
    ((((NewMemoryLimiter 60 5).run (List.replicate 65 ⟨0, "ip:10.0.0.1"⟩)).2.Allow .Background 0
        "ip:10.0.0.1").1.1.Allowed = true ↔
      ((65 : Nat) : Int) + 1 ≤ (NewMemoryLimiter 60 5).limit + (NewMemoryLimiter 60 5).burst) ∧
    (((NewMemoryLimiter 60 5).run (List.replicate 66 ⟨0, "ip:10.0.0.1"⟩)).1.map
        (fun info => info.Allowed) =
      (List.range 66).map (fun (j : Nat) => decide ((j : Int) + 1 ≤
        (NewMemoryLimiter 60 5).limit + (NewMemoryLimiter 60 5).burst))) :=
  ⟨by decide, by decide, by decide, rfl, by decide!,
    C11_first_calls_allowed (NewMemoryLimiter 60 5) 0 "ip:10.0.0.1" (by decide) (by decide)
      (by decide) rfl 65 66⟩

end RateLimit

namespace RateLimit

open Auth (Time Duration Context Err Second)
open Go (Float64 wrap64 roundQ MinInt64 MaxInt64)

/-- C13 (as stated, refuted): `limit = n = 2 ^ 53 + 2`, `burst = 0`. The first call stores
`float64(n - 1)`, which is `2 ^ 53`, the odd number `2 ^ 53 + 1` having no `float64` of its
own; the second call, at the same instant, is allowed and reports `Remaining = 2 ^ 53 - 1`,
not `n - 2 = 2 ^ 53`. -/
theorem C13_counterexample :
    (1 : Int) ≤ (NewMemoryLimiter 9007199254740994 0).limit ∧
    (NewMemoryLimiter 9007199254740994 0).burst = 0 ∧
    (NewMemoryLimiter 9007199254740994 0).store "k" = none ∧
    ((1 : Nat) : Int) < (NewMemoryLimiter 9007199254740994 0).limit ∧
    (((NewMemoryLimiter 9007199254740994 0).run (List.replicate 1 ⟨0, "k"⟩)).2.Allow
      .Background 0 "k").1.1 = ⟨true, 9007199254740994, 9007199254740991, Minute⟩ ∧
    (9007199254740991 : Int) ≠ (NewMemoryLimiter 9007199254740994 0).limit
      - (((1 : Nat) : Int) + 1) := by
  refine ⟨by decide, rfl, rfl, by decide, by decide!, by decide⟩

/-- C13 (amended): for every `MemoryLimiter` with `limit = n`, `1 ≤ n ≤ 2 ^ 53`, and
`burst = 0` and every fresh key, with no time elapsing, call number `k + 1` with `k < n`
returns `Allowed = true` with `Remaining = n - (k + 1)`, and call number `n + 1` returns
`Allowed = false` with `Remaining = 0`. -/
theorem C13_remaining_counts_down (m : MemoryLimiter) (now : Time) (key : String)
    (hl : 1 ≤ m.limit) (hsmall : m.limit ≤ 9007199254740992) (hb : m.burst = 0)
    (hfresh : m.store key = none) (k : Nat) :
    ((k : Int) < m.limit →
      ((m.run (List.replicate k ⟨now, key⟩)).2.Allow .Background now key).1.1.Allowed = true ∧
      ((m.run (List.replicate k ⟨now, key⟩)).2.Allow .Background now key).1.1.Remaining
        = m.limit - ((k : Int) + 1)) ∧
    ((k : Int) = m.limit →
      ((m.run (List.replicate k ⟨now, key⟩)).2.Allow .Background now key).1.1.Allowed = false ∧
      ((m.run (List.replicate k ⟨now, key⟩)).2.Allow .Background now key).1.1.Remaining = 0) := by
  have hcap : 1 ≤ m.limit + m.burst := by omega
  rw [Allow_after_replicate m now key (by omega) hcap hsmall (by omega) hfresh k]
  constructor
  · intro hk
    by_cases h0 : k = 0
    · subst h0; simp
    · have h1 : (k : Int) + 1 ≤ m.limit + m.burst := by omega
      simp only [h0, h1, ↓reduceIte, true_and]
      omega
  · intro hk
    have h0 : k ≠ 0 := by rintro rfl; simp at hk; omega
    have h1 : ¬ (k : Int) + 1 ≤ m.limit + m.burst := by omega
    simp [h0, h1]

/-- C13 witness: `limit = 5`, `burst = 0`: the third call has `Remaining = 2`; together with
the answers to six calls, evaluated: 4, 3, 2, 1, 0 and then a denial with 0. -/
theorem C13_remaining_counts_down_witness :
    (1 : Int) ≤ (NewMemoryLimiter 5 0).limit ∧
    (NewMemoryLimiter 5 0).limit ≤ 9007199254740992 ∧ (NewMemoryLimiter 5 0).burst = 0 ∧
    (NewMemoryLimiter 5 0).store "k" = none ∧
    ((NewMemoryLimiter 5 0).run (List.replicate 6 ⟨0, "k"⟩)).1.map
        (fun info => (info.Allowed, info.Remaining))
      = [(true, 4), (true, 3), (true, 2), (true, 1), (true, 0), (false, 0)] ∧
    ((((2 : Nat) : Int) < (NewMemoryLimiter 5 0).limit →
      (((NewMemoryLimiter 5 0).run (List.replicate 2 ⟨0, "k"⟩)).2.Allow .Background 0
        "k").1.1.Allowed = true ∧
      (((NewMemoryLimiter 5 0).run (List.replicate 2 ⟨0, "k"⟩)).2.Allow .Background 0
        "k").1.1.Remaining = (NewMemoryLimiter 5 0).limit - (((2 : Nat) : Int) + 1)) ∧
    (((2 : Nat) : Int) = (NewMemoryLimiter 5 0).limit →
      (((NewMemoryLimiter 5 0).run (List.replicate 2 ⟨0, "k"⟩)).2.Allow .Background 0
        "k").1.1.Allowed = false ∧
      (((NewMemoryLimiter 5 0).run (List.replicate 2 ⟨0, "k"⟩)).2.Allow .Background 0
        "k").1.1.Remaining = 0)) :=
  ⟨by decide, by decide, rfl, rfl, by decide!,
    C13_remaining_counts_down (NewMemoryLimiter 5 0) 0 "k" (by decide) (by decide) rfl rfl 2⟩

end RateLimit

namespace RateLimit

open Auth (Time Duration Context Err Second)
open Go (Float64 wrap64 roundQ MinInt64 MaxInt64)

/-! ## Bounds kept by every call (C15, C12) -/

/-- One call keeps the buckets within bounds, on a limiter with `limit ≥ 0` whose
`limit + burst` is at least 1 and does not overflow: if every bucket holds a finite token count
between 0 and the capacity as a `float64`, and was last written no later than `t ≤ now`, the
same holds after a call at `now`, with `now` for `t`. -/
theorem Allow_bounded (m : MemoryLimiter) (ctx : Context) (now t : Time) (key : String)
    (hL0 : 0 ≤ m.limit) (hL1 : m.limit ≤ 9223372036854775807)
    (hc0 : 1 ≤ m.limit + m.burst) (hc1 : m.limit + m.burst ≤ 9223372036854775807)
    (ht : t ≤ now)
    (hinv : ∀ k b, m.store k = some b →
      ∃ q : ℚ, b.tokens = .finite q ∧ 0 ≤ q ∧
        q ≤ roundQ ((m.limit + m.burst : Int) : ℚ) ∧ b.last ≤ t) :
    ∀ k b, (m.Allow ctx now key).2.store k = some b →
      ∃ q : ℚ, b.tokens = .finite q ∧ 0 ≤ q ∧
        q ≤ roundQ ((m.limit + m.burst : Int) : ℚ) ∧ b.last ≤ now := by
  intro k b hkb
  by_cases hk : k = key
  swap
  · rw [Allow_other m ctx now key k hk] at hkb
    obtain ⟨q, h0, h1, h2, h3⟩ := hinv k b hkb
    exact ⟨q, h0, h1, h2, le_trans h3 ht⟩
  subst hk
  cases hs : m.store k with
  | none =>
    obtain ⟨heq, h0, h1⟩ := Allow_first_call m ctx now k hs hc0 hc1
    rw [heq, setBucket_store_self, Option.some.injEq] at hkb
    subst hkb
    exact ⟨_, rfl, h0, h1, le_refl _⟩
  | some b0 =>
    obtain ⟨q0, h0, h1, h2, h3⟩ := hinv k b0 hs
    obtain ⟨tok, last⟩ := b0
    simp only at h0 h3
    subst h0
    obtain ⟨-, -, hcap63⟩ := Float64.ofInt_int64 (m.limit + m.burst)
      (by unfold MinInt64; omega) (by unfold MaxInt64; omega)
    obtain ⟨s, hs0, hs1, -, -, -, heq⟩ := Allow_refill m ctx now k q0 last hs
      (le_trans h3 ht) h1 (le_trans h2 hcap63) hL0 hL1 hc0 hc1
    rw [heq] at hkb
    split at hkb
    · rename_i hge
      rw [setBucket_store_self, Option.some.injEq] at hkb
      subst hkb
      refine ⟨_, rfl, Go.roundQ_nonneg (by linarith), ?_, le_refl _⟩
      exact Go.roundQ_le_of_le (Go.roundQ_idem _) (by linarith)
    · rw [setBucket_store_self, Option.some.injEq] at hkb
      subst hkb
      exact ⟨_, rfl, hs0, hs1, le_trans h3 ht⟩

/-- The `Remaining` of one call lies in `[0, limit + burst - 1]` when the buckets are within
bounds, `limit ≥ 1`, `burst ≥ 0` and `limit + burst ≤ 2 ^ 53`. -/
theorem Allow_remaining_bounds (m : MemoryLimiter) (ctx : Context) (now t : Time)
    (key : String) (hl : 1 ≤ m.limit) (hb : 0 ≤ m.burst)
    (hsmall : m.limit + m.burst ≤ 9007199254740992) (ht : t ≤ now)
    (hinv : ∀ k b, m.store k = some b →
      ∃ q : ℚ, b.tokens = .finite q ∧ 0 ≤ q ∧
        q ≤ roundQ ((m.limit + m.burst : Int) : ℚ) ∧ b.last ≤ t) :
    0 ≤ (m.Allow ctx now key).1.1.Remaining ∧
      (m.Allow ctx now key).1.1.Remaining ≤ m.limit + m.burst - 1 := by
  cases hs : m.store key with
  | none =>
    obtain ⟨heq, -, -⟩ := Allow_first_call m ctx now key hs (by omega) (by omega)
    rw [heq]
    have hw : wrap64 (m.limit - 1) = m.limit - 1 :=
      Go.wrap64_of_range (by unfold MinInt64; omega) (by unfold MaxInt64; omega)
    simp only [hw]
    omega
  | some b0 =>
    obtain ⟨q0, h0, h1, h2, h3⟩ := hinv key b0 hs
    obtain ⟨tok, last⟩ := b0
    simp only at h0 h3
    subst h0
    obtain ⟨-, -, hcap63⟩ := Float64.ofInt_int64 (m.limit + m.burst)
      (by unfold MinInt64; omega) (by unfold MaxInt64; omega)
    obtain ⟨s, hs0, hs1, -, -, -, heq⟩ := Allow_refill m ctx now key q0 last hs
      (le_trans h3 ht) h1 (le_trans h2 hcap63) (by omega) (by omega) (by omega) (by omega)
    rw [heq]
    split
    · rename_i hge
      have hcap : roundQ ((m.limit + m.burst : Int) : ℚ) = ((m.limit + m.burst : Int) : ℚ) :=
        Go.roundQ_intCast _ (by omega) hsmall
      have hcap1 : roundQ ((m.limit + m.burst - 1 : Int) : ℚ)
          = ((m.limit + m.burst - 1 : Int) : ℚ) :=
        Go.roundQ_intCast _ (by omega) (by omega)
      have hle : s + -1 ≤ ((m.limit + m.burst - 1 : Int) : ℚ) := by
        rw [hcap] at hs1
        push_cast at hs1 ⊢
        linarith
      obtain ⟨e, e0, e1⟩ := Float64.toInt_finite_of_nonneg
        (q := roundQ (s + -1)) (n := m.limit + m.burst - 1)
        (Go.roundQ_nonneg (by linarith)) (Go.roundQ_le_of_le hcap1 hle)
        (by unfold MaxInt64; omega)
      simp only [e]
      exact ⟨e0, e1⟩
    · simp only
      omega

/-- The limiter after any sequence of calls at non-decreasing times, started empty, with
`limit ≥ 0` and `1 ≤ limit + burst` without overflow: limit and burst are as given, every
bucket holds a finite token count between 0 and the capacity as a `float64`, and was last
written at the time of the last call or before. -/
theorem run_bounded (limit burst : Int) (hL0 : 0 ≤ limit) (hL1 : limit ≤ 9223372036854775807)
    (hc0 : 1 ≤ limit + burst) (hc1 : limit + burst ≤ 9223372036854775807)
    (calls : List Call) (hsorted : calls.Pairwise (fun a b => a.now ≤ b.now)) :
    ((NewMemoryLimiter limit burst).run calls).2.limit = limit ∧
    ((NewMemoryLimiter limit burst).run calls).2.burst = burst ∧
    ∀ k b, ((NewMemoryLimiter limit burst).run calls).2.store k = some b →
      ∃ q : ℚ, b.tokens = .finite q ∧ 0 ≤ q ∧ q ≤ roundQ ((limit + burst : Int) : ℚ) ∧
      (∀ t : Time, (∀ c ∈ calls, c.now ≤ t) → b.last ≤ t) := by
  induction calls using List.reverseRecOn with
  | nil =>
    refine ⟨rfl, rfl, fun k b h => ?_⟩
    simp [MemoryLimiter.run, NewMemoryLimiter] at h
  | append_singleton cs c ih =>
    rw [List.pairwise_append] at hsorted
    obtain ⟨hcs, -, hle⟩ := hsorted
    obtain ⟨il, ib, ibk⟩ := ih hcs
    rw [MemoryLimiter.memory_run_snoc]
    generalize ((NewMemoryLimiter limit burst).run cs).2 = m at il ib ibk
    obtain ⟨al, ab⟩ := Allow_limit m .Background c.now c.key
    refine ⟨al.trans il, ab.trans ib, fun k b hkb => ?_⟩
    have hinv : ∀ k b, m.store k = some b →
        ∃ q : ℚ, b.tokens = .finite q ∧ 0 ≤ q ∧
          q ≤ roundQ ((m.limit + m.burst : Int) : ℚ) ∧ b.last ≤ c.now := by
      intro k b h
      obtain ⟨q, h0, h1, h2, h3⟩ := ibk k b h
      refine ⟨q, h0, h1, by rw [il, ib]; exact h2, h3 c.now (fun c' hc' => ?_)⟩
      exact hle c' hc' c (List.mem_singleton_self c)
    obtain ⟨q, h0, h1, h2, h3⟩ := Allow_bounded m .Background c.now c.now c.key
      (by rw [il]; exact hL0) (by rw [il]; exact hL1) (by rw [il, ib]; exact hc0)
      (by rw [il, ib]; exact hc1) (le_refl _) hinv k b hkb
    refine ⟨q, h0, h1, by rw [il, ib] at h2; exact h2, fun t ht => ?_⟩
    exact le_trans h3 (ht c (List.mem_append_right _ (List.mem_singleton_self c)))

/-- C15 (as stated, refuted): `limit = 2 ^ 63 - 1`, `burst = 0`, two calls on one key at one
instant. The first call stores `float64(limit - 1)`, which is `2 ^ 63`, more than
`limit + burst`; the second leaves `2 ^ 63` again and reports it converted to `int`, which is
the least `int`, a negative `Remaining`. -/
theorem C15_counterexample :
    (1 : Int) ≤ 9223372036854775807 ∧ (0 : Int) ≤ 0 ∧
    [(⟨0, "k"⟩ : Call), ⟨0, "k"⟩].Pairwise (fun a b => a.now ≤ b.now) ∧
    ((NewMemoryLimiter 9223372036854775807 0).run [⟨0, "k"⟩, ⟨0, "k"⟩]).1
      = [⟨true, 9223372036854775807, 9223372036854775806, Minute⟩,
         ⟨true, 9223372036854775807, -9223372036854775808, Minute⟩] ∧
    ((NewMemoryLimiter 9223372036854775807 0).run [⟨0, "k"⟩]).2.store "k"
      = some ⟨.finite 9223372036854775808, 0⟩ ∧
    ¬ ((0 : Int) ≤ -9223372036854775808) ∧
    ¬ ((9223372036854775808 : ℚ) ≤ ((9223372036854775807 + 0 : Int) : ℚ)) := by
  refine ⟨by decide, by decide, by decide, by decide!, by decide!, by decide, by norm_num⟩

/-- C15 (amended): for every `MemoryLimiter` with `limit ≥ 1`, `burst ≥ 0` and
`limit + burst ≤ 2 ^ 53`, started empty, and every sequence of calls (on any keys) at
non-decreasing times: every `Remaining` returned satisfies
`0 ≤ Remaining ≤ limit + burst - 1`, and after every prefix of the sequence the token count of
every bucket is a finite number within `[0, limit + burst]`. -/
theorem C15_remaining_and_tokens_bounded (limit burst : Int) (hl : 1 ≤ limit) (hb : 0 ≤ burst)
    (hsmall : limit + burst ≤ 9007199254740992)
    (calls : List Call) (hsorted : calls.Pairwise (fun a b => a.now ≤ b.now)) :
    (∀ info ∈ ((NewMemoryLimiter limit burst).run calls).1,
      0 ≤ info.Remaining ∧ info.Remaining ≤ limit + burst - 1) ∧
    (∀ cs, cs <+: calls → ∀ key b,
      ((NewMemoryLimiter limit burst).run cs).2.store key = some b →
      ∃ q : ℚ, b.tokens = .finite q ∧ 0 ≤ q ∧ q ≤ ((limit + burst : Int) : ℚ)) := by
  have hcap : roundQ ((limit + burst : Int) : ℚ) = ((limit + burst : Int) : ℚ) :=
    Go.roundQ_intCast _ (by omega) hsmall
  constructor
  · induction calls using List.reverseRecOn with
    | nil => intro info h; simp [MemoryLimiter.run] at h
    | append_singleton cs c ih =>
      have hs := hsorted
      rw [List.pairwise_append] at hs
      obtain ⟨hcs, -, hle⟩ := hs
      obtain ⟨il, ib, ibk⟩ := run_bounded limit burst (by omega) (by omega) (by omega)
        (by omega) cs hcs
      intro info hinfo
      rw [MemoryLimiter.memory_run_snoc, List.mem_append, List.mem_singleton] at hinfo
      rcases hinfo with hinfo | hinfo
      · exact ih hcs info hinfo
      · subst hinfo
        generalize ((NewMemoryLimiter limit burst).run cs).2 = m at il ib ibk
        have := Allow_remaining_bounds m .Background c.now c.now c.key (by rw [il]; exact hl)
          (by rw [ib]; exact hb) (by rw [il, ib]; exact hsmall) (le_refl _) (fun k b h => by
            obtain ⟨q, h0, h1, h2, h3⟩ := ibk k b h
            exact ⟨q, h0, h1, by rw [il, ib]; exact h2,
              h3 c.now (fun c' hc' => hle c' hc' c (List.mem_singleton_self c))⟩)
        rw [il, ib] at this
        exact this
  · intro cs hpre key b hkb
    have hcs : cs.Pairwise (fun a b => a.now ≤ b.now) := hsorted.sublist hpre.sublist
    obtain ⟨-, -, ibk⟩ := run_bounded limit burst (by omega) (by omega) (by omega)
      (by omega) cs hcs
    obtain ⟨q, h0, h1, h2, -⟩ := ibk key b hkb
    exact ⟨q, h0, h1, by rw [hcap] at h2; exact h2⟩

/-- C15 witness: `limit = 5`, `burst = 0`, calls on two keys at 0 s, 0 s and 30 s. -/
theorem C15_remaining_and_tokens_bounded_witness :
    (1 : Int) ≤ 5 ∧ (0 : Int) ≤ 0 ∧ (5 : Int) + 0 ≤ 9007199254740992 ∧
    mixedCalls.Pairwise (fun a b => a.now ≤ b.now) ∧
    ((NewMemoryLimiter 5 0).run mixedCalls).1.map (fun info => info.Remaining) = [4, 3, 4] ∧
    ((NewMemoryLimiter 5 0).run mixedCalls).2.store "k" = some ⟨.finite 3, 0⟩ ∧
    (∀ info ∈ ((NewMemoryLimiter 5 0).run mixedCalls).1,
      0 ≤ info.Remaining ∧ info.Remaining ≤ 5 + 0 - 1) ∧
    (∀ cs, cs <+: mixedCalls → ∀ key b,
      ((NewMemoryLimiter 5 0).run cs).2.store key = some b →
      ∃ q : ℚ, b.tokens = .finite q ∧ 0 ≤ q ∧ q ≤ ((5 + 0 : Int) : ℚ)) :=
  ⟨by decide, by decide, by decide, by decide, by decide!, by decide!,
    C15_remaining_and_tokens_bounded 5 0 (by decide) (by decide) (by decide) mixedCalls
      (by decide)⟩

end RateLimit

namespace RateLimit

open Auth (Time Duration Context Err Second)
open Go (Float64 wrap64 roundQ MinInt64 MaxInt64)

/-! ## C12: a call one minute after the last allowed one -/

/-- C12 (as stated, refuted): with `limit = 1` and `burst = -1` the bucket can hold no token:
the first call on a key is allowed and leaves the bucket at -1 token, and a call one full
minute later is denied. -/
theorem C12_counterexample :
    (1 : Int) ≤ (NewMemoryLimiter 1 (-1)).limit ∧
    ((NewMemoryLimiter 1 (-1)).Allow .Background 0 "k").1.1.Allowed = true ∧
    ((NewMemoryLimiter 1 (-1)).Allow .Background 0 "k").2.store "k"
      = some ⟨.finite (-1), 0⟩ ∧
    (((NewMemoryLimiter 1 (-1)).Allow .Background 0 "k").2.Allow .Background Minute
      "k").1.1.Allowed = false := by
  refine ⟨by decide, by decide!, by decide!, by decide!⟩

/-- C12 (amended): for every `MemoryLimiter` with `limit ≥ 1` and `limit + burst ≥ 1`, neither
beyond the largest `int`, started empty and called at non-decreasing times, and every key that
has a bucket, exhausted or not: a call made at least one full minute after `last` of the
bucket returns `Allowed = true`. And `last` of a bucket is the time of the last allowed call
on its key: an allowed call sets it to the time of the call, a denied call leaves it as it
was. -/
theorem C12_allowed_after_a_minute (limit burst : Int) (hl : 1 ≤ limit)
    (hlmax : limit ≤ 9223372036854775807)
    (hcap : 1 ≤ limit + burst) (hcmax : limit + burst ≤ 9223372036854775807)
    (calls : List Call)
    (hsorted : calls.Pairwise (fun a b => a.now ≤ b.now)) (key : String) (b : bucket)
    (now : Time)
    (hb : ((NewMemoryLimiter limit burst).run calls).2.store key = some b)
    (hnow : b.last + Minute ≤ now) :
    (((NewMemoryLimiter limit burst).run calls).2.Allow .Background now key).1.1.Allowed = true ∧
    (∀ (m : MemoryLimiter) (ctx : Context) (t : Time) (k : String),
      (m.Allow ctx t k).1.1.Allowed = true →
      ∃ b', (m.Allow ctx t k).2.store k = some b' ∧ b'.last = t) ∧
    (∀ (m : MemoryLimiter) (ctx : Context) (t : Time) (k : String),
      (m.Allow ctx t k).1.1.Allowed = false →
      ∃ b0 b', m.store k = some b0 ∧ (m.Allow ctx t k).2.store k = some b' ∧
        b'.last = b0.last) := by
  refine ⟨?_, ?_, ?_⟩
  · obtain ⟨il, ib, ibk⟩ := run_bounded limit burst (by omega) hlmax hcap hcmax calls hsorted
    generalize ((NewMemoryLimiter limit burst).run calls).2 = m at il ib ibk hb
    obtain ⟨q, h0, h1, h2, -⟩ := ibk key b hb
    obtain ⟨tok, last⟩ := b
    simp only at h0 hnow
    subst h0
    have hM : (0 : Int) ≤ Minute := by decide
    obtain ⟨-, -, hcap63⟩ := Float64.ofInt_int64 (limit + burst)
      (by unfold MinInt64; omega) (by unfold MaxInt64; omega)
    obtain ⟨s, -, -, -, hs1, -, heq⟩ := Allow_refill m .Background now key q last hb
      (le_trans (le_add_of_nonneg_right hM) hnow) h1 (le_trans h2 hcap63)
      (by rw [il]; omega) (by rw [il]; exact hlmax) (by rw [il, ib]; exact hcap)
      (by rw [il, ib]; exact hcmax)
    rw [heq, if_pos (hs1 (by rw [il]; exact hl) hnow)]
  · intro m ctx t k h
    unfold MemoryLimiter.Allow at h ⊢
    cases hs : m.store k with
    | none => exact ⟨_, setBucket_store_self _ _ _, rfl⟩
    | some b0 =>
      simp only [hs] at h ⊢
      split at h
      · rename_i hge
        simp only [hge, ↓reduceIte]
        exact ⟨_, setBucket_store_self _ _ _, rfl⟩
      · simp at h
  · intro m ctx t k h
    unfold MemoryLimiter.Allow at h ⊢
    cases hs : m.store k with
    | none => simp [hs] at h
    | some b0 =>
      simp only [hs] at h ⊢
      split at h
      · simp at h
      · rename_i hge
        simp only [hge, ↓reduceIte]
        exact ⟨b0, _, rfl, setBucket_store_self _ _ _, rfl⟩

/-- C12 witness: `limit = 1`, `burst = 0`: after an allowed call at 0 s and a denied one at
30 s the bucket holds half a token and `last = 0`; a call at 60 s is allowed. -/
theorem C12_allowed_after_a_minute_witness :
    (1 : Int) ≤ 1 ∧ (1 : Int) ≤ 9223372036854775807 ∧ (1 : Int) ≤ 1 + 0 ∧
    (1 : Int) + 0 ≤ 9223372036854775807 ∧
    twoCalls.Pairwise (fun a b => a.now ≤ b.now) ∧
    ((NewMemoryLimiter 1 0).run twoCalls).1.map (fun info => info.Allowed) = [true, false] ∧
    ((NewMemoryLimiter 1 0).run twoCalls).2.store "k" = some ⟨.finite (1 / 2), 0⟩ ∧
    (0 : Time) + Minute ≤ Minute ∧
    (((NewMemoryLimiter 1 0).run twoCalls).2.Allow .Background Minute "k").1.1.Allowed = true :=
  ⟨by decide, by decide, by decide, by decide, by decide, by decide!, by decide!, by decide,
    (C12_allowed_after_a_minute 1 0 (by decide) (by decide) (by decide) (by decide) twoCalls
      (by decide) "k" ⟨.finite (1 / 2), 0⟩ Minute (by decide!) (by decide)).1⟩

/-! ## C14: how fast the bucket refills -/

/-- C14 (the code falls short of it): `limit = 1`, `burst = 0`, one key, calls at 0 s, four
at 15 s and four at 30 s. A denied call keeps the refilled token count but not the time of
the refill, so each of the four calls at one instant adds the same quarter token again: three
calls are allowed within half a minute, which is `T = 1/2` for the code as well, more than
`limit + burst + limit * T = 3/2`. -/
theorem C14_refill_counted_again_after_denial :
    pollingCalls.Pairwise (fun a b => a.now ≤ b.now) ∧
    ((NewMemoryLimiter 1 0).run pollingCalls).1.map (fun info => info.Allowed)
      = [true, false, false, false, true, false, false, false, true] ∧
    (((NewMemoryLimiter 1 0).run pollingCalls).1.filter (fun info => info.Allowed)).length = 3 ∧
    Minutes (Auth.Time.Sub (30 * Second) 0) = .finite (1 / 2) ∧
    ¬ ((3 : ℚ) ≤ ((1 : Int) : ℚ) + ((0 : Int) : ℚ) + ((1 : Int) : ℚ) * (1 / 2)) := by
  refine ⟨by decide, by decide!, by decide!, by decide!, by norm_num⟩

end RateLimit

namespace RateLimit

open Auth (Time Duration Context Err Second)

/-! ## C16: the fixed window of `RedisLimiter` -/

theorem RedisLimiter.redis_run_snoc (r : RedisLimiter) (key : String) (envs : List Env) (env : Env) :
    r.run key (envs ++ [env]) =
      ((r.run key envs).1 ++ [((r.run key envs).2.Allow .Background env key).1],
        ((r.run key envs).2.Allow .Background env key).2) := by
  simp [RedisLimiter.run, List.foldl_append]

/-- The first call in a window: no live counter under the key, no fault. -/
theorem RedisLimiter.Allow_fresh (r : RedisLimiter) (key : String) (env : Env)
    (hfresh : r.client.live env.storeNow (r.pfx ++ ":" ++ key) = none)
    (hd : env.decrFault = none) (hx : env.execFault = none) :
    (r.Allow .Background env key).1
        = (⟨true, r.limit, r.limit - 1, env.now + Minute⟩, none) ∧
      (r.Allow .Background env key).2.client.counters (r.pfx ++ ":" ++ key)
        = some ⟨r.limit - 1, env.storeNow + Minute⟩ ∧
      (r.Allow .Background env key).2.limit = r.limit ∧
      (r.Allow .Background env key).2.pfx = r.pfx := by
  simp [RedisLimiter.Allow, RedisClient.Decr, RedisClient.TxSet, Context.Background, hd, hx,
    hfresh]

/-- A call while the counter under the key is live, no fault. -/
theorem RedisLimiter.Allow_live (r : RedisLimiter) (key : String) (env : Env) (c : Counter)
    (hc : r.client.counters (r.pfx ++ ":" ++ key) = some c)
    (hlive : env.storeNow < c.expiresAt) (hd : env.decrFault = none) :
    (r.Allow .Background env key).1
        = (if c.value - 1 ≥ 0 then (⟨true, r.limit, c.value - 1, env.now + Minute⟩, none)
           else (⟨false, r.limit, 0, env.now + Minute⟩, none)) ∧
      (r.Allow .Background env key).2.client.counters (r.pfx ++ ":" ++ key)
        = some ⟨c.value - 1, c.expiresAt⟩ ∧
      (r.Allow .Background env key).2.limit = r.limit ∧
      (r.Allow .Background env key).2.pfx = r.pfx := by
  have hl : r.client.live env.storeNow (r.pfx ++ ":" ++ key) = some c := by
    simp [RedisClient.live, hc, hlive]
  simp only [RedisLimiter.Allow, RedisClient.Decr, Context.Background, hd, hl]
  split <;> simp

/-- The counter after the first call of a window and the calls that follow in it. -/
theorem RedisLimiter.run_window (r : RedisLimiter) (key : String) (e1 : Env) (rest : List Env)
    (hfresh : r.client.live e1.storeNow (r.pfx ++ ":" ++ key) = none)
    (h1 : e1.decrFault = none ∧ e1.execFault = none)
    (hrest : ∀ x ∈ rest, x.decrFault = none ∧ x.storeNow < e1.storeNow + Minute) :
    (r.run key (e1 :: rest)).2.client.counters (r.pfx ++ ":" ++ key)
        = some ⟨r.limit - 1 - rest.length, e1.storeNow + Minute⟩ ∧
      (r.run key (e1 :: rest)).2.limit = r.limit ∧
      (r.run key (e1 :: rest)).2.pfx = r.pfx := by
  induction rest using List.reverseRecOn with
  | nil =>
    obtain ⟨-, hc, hl, hp⟩ := RedisLimiter.Allow_fresh r key e1 hfresh h1.1 h1.2
    have : r.run key [e1] = ([(r.Allow .Background e1 key).1], (r.Allow .Background e1 key).2) := by
      simp [RedisLimiter.run]
    rw [this]
    simpa using ⟨hc, hl, hp⟩
  | append_singleton es e ih =>
    obtain ⟨ic, il, ip⟩ := ih (fun x hx => hrest x (List.mem_append_left _ hx))
    obtain ⟨hd, hw⟩ := hrest e (List.mem_append_right _ (List.mem_singleton_self e))
    rw [← List.cons_append, RedisLimiter.redis_run_snoc]
    generalize (r.run key (e1 :: es)).2 = r' at ic il ip
    rw [← ip] at ic
    obtain ⟨-, hc, hl, hp⟩ := RedisLimiter.Allow_live r' key e _ ic hw hd
    rw [ip] at hc
    refine ⟨?_, hl.trans il, hp.trans ip⟩
    simp only [hc, List.length_append, List.length_singleton, Nat.cast_add, Nat.cast_one,
      Option.some.injEq, Counter.mk.injEq, and_true]
    ring

/-- C16: for every `RedisLimiter` with `limit = n ≥ 1` and a key with no counter in the current
window, against a store whose decrement reports a missing key as absent and otherwise
decrements, no command failing: the first call creates the counter at `n - 1` with a one-minute
expiry and returns `Allowed = true` with `Remaining = n - 1`; a later call in the same window,
call number `k`, returns `Allowed = true` with `Remaining = n - k` when `k ≤ n`, and
`Allowed = false` with `Remaining = 0` when `k > n`, in particular call `n + 1`; no answer has
a negative `Remaining`. -/
theorem C16_fixed_window_counts_down (r : RedisLimiter) (key : String) (e1 : Env)
    (rest : List Env) (e : Env) (hn : 1 ≤ r.limit)
    (hfresh : r.client.live e1.storeNow (r.pfx ++ ":" ++ key) = none)
    (h1 : e1.decrFault = none ∧ e1.execFault = none)
    (hrest : ∀ x ∈ rest, x.decrFault = none ∧ x.storeNow < e1.storeNow + Minute)
    (he : e.decrFault = none ∧ e.storeNow < e1.storeNow + Minute) :
    (r.Allow .Background e1 key).1
      = (⟨true, r.limit, r.limit - 1, e1.now + Minute⟩, none) ∧
    (r.Allow .Background e1 key).2.client.counters (r.pfx ++ ":" ++ key)
      = some ⟨r.limit - 1, e1.storeNow + Minute⟩ ∧
    ((r.run key (e1 :: rest)).2.Allow .Background e key).1
      = (if (rest.length : Int) + 2 ≤ r.limit then
          (⟨true, r.limit, r.limit - ((rest.length : Int) + 2), e.now + Minute⟩, none)
         else (⟨false, r.limit, 0, e.now + Minute⟩, none)) ∧
    0 ≤ (r.Allow .Background e1 key).1.1.Remaining ∧
    0 ≤ ((r.run key (e1 :: rest)).2.Allow .Background e key).1.1.Remaining := by
  obtain ⟨ha, hc, -, -⟩ := RedisLimiter.Allow_fresh r key e1 hfresh h1.1 h1.2
  have hlater : ((r.run key (e1 :: rest)).2.Allow .Background e key).1
      = (if (rest.length : Int) + 2 ≤ r.limit then
          (⟨true, r.limit, r.limit - ((rest.length : Int) + 2), e.now + Minute⟩, none)
         else (⟨false, r.limit, 0, e.now + Minute⟩, none)) := ?later
  · refine ⟨ha, hc, hlater, by rw [ha]; show 0 ≤ r.limit - 1; omega, ?_⟩
    rw [hlater]
    split
    · show 0 ≤ r.limit - ((rest.length : Int) + 2); omega
    · exact le_refl _
  obtain ⟨ic, il, ip⟩ := RedisLimiter.run_window r key e1 rest hfresh h1 hrest
  generalize (r.run key (e1 :: rest)).2 = r' at ic il ip
  rw [← ip] at ic
  obtain ⟨hres, -, -, -⟩ := RedisLimiter.Allow_live r' key e _ ic he.2 he.1
  rw [hres, il]
  by_cases hk : (rest.length : Int) + 2 ≤ r.limit
  · have : r.limit - 1 - (rest.length : Int) - 1 ≥ 0 := by omega
    simp only [this, hk, ↓reduceIte]
    congr 2
    ring_nf
  · have : ¬ r.limit - 1 - (rest.length : Int) - 1 ≥ 0 := by omega
    simp only [this, hk, ↓reduceIte]

end RateLimit

namespace RateLimit

open Auth (Time Duration Context Err Second)

/-- C16 witness: `limit = 10` on an empty store: a first call at 0 s, nine calls at 1 s, and
the eleventh call, also at 1 s, which is denied with `Remaining = 0`. -/
theorem C16_fixed_window_counts_down_witness :
    (1 : Int) ≤ demoRedisLimiter.limit ∧
    demoRedisLimiter.client.live demoFirst.storeNow (demoRedisLimiter.pfx ++ ":" ++ "1.2.3.4")
      = none ∧
    (demoFirst.decrFault = none ∧ demoFirst.execFault = none) ∧
    (∀ x ∈ List.replicate 9 demoLater,
      x.decrFault = none ∧ x.storeNow < demoFirst.storeNow + Minute) ∧
    (demoLater.decrFault = none ∧ demoLater.storeNow < demoFirst.storeNow + Minute) ∧
    (demoRedisLimiter.run "1.2.3.4" (demoFirst :: List.replicate 10 demoLater)).1.map
        (fun x => (x.1.Allowed, x.1.Remaining))
      = [(true, 9), (true, 8), (true, 7), (true, 6), (true, 5), (true, 4), (true, 3),
         (true, 2), (true, 1), (true, 0), (false, 0)] ∧
    (demoRedisLimiter.Allow .Background demoFirst "1.2.3.4").1
      = (⟨true, demoRedisLimiter.limit, demoRedisLimiter.limit - 1, demoFirst.now + Minute⟩,
          none) ∧
    (demoRedisLimiter.Allow .Background demoFirst "1.2.3.4").2.client.counters
        (demoRedisLimiter.pfx ++ ":" ++ "1.2.3.4")
      = some ⟨demoRedisLimiter.limit - 1, demoFirst.storeNow + Minute⟩ ∧
    ((demoRedisLimiter.run "1.2.3.4" (demoFirst :: List.replicate 9 demoLater)).2.Allow
        .Background demoLater "1.2.3.4").1
      = (if ((List.replicate 9 demoLater).length : Int) + 2 ≤ demoRedisLimiter.limit then
          (⟨true, demoRedisLimiter.limit,
            demoRedisLimiter.limit - (((List.replicate 9 demoLater).length : Int) + 2),
            demoLater.now + Minute⟩, none)
         else (⟨false, demoRedisLimiter.limit, 0, demoLater.now + Minute⟩, none)) ∧
    0 ≤ (demoRedisLimiter.Allow .Background demoFirst "1.2.3.4").1.1.Remaining ∧
    0 ≤ ((demoRedisLimiter.run "1.2.3.4" (demoFirst :: List.replicate 9 demoLater)).2.Allow
        .Background demoLater "1.2.3.4").1.1.Remaining :=
  ⟨by decide, rfl, ⟨rfl, rfl⟩, by decide, by decide, by decide,
    C16_fixed_window_counts_down demoRedisLimiter "1.2.3.4" demoFirst
      (List.replicate 9 demoLater) demoLater (by decide) rfl ⟨rfl, rfl⟩ (by decide)
      (by decide)⟩

end RateLimit

/-! # Theorems on the rate-limit middleware -/

namespace Middleware

open Auth (Time Duration Context Err Second)
open Response (GinContext)

theorem setHeaders_fields (c : GinContext) (now : Time) (info : RateLimit.RateLimitInfo) :
    (setHeaders c now info).userID = c.userID ∧
    (setHeaders c now info).aborted = c.aborted ∧
    (setHeaders c now info).nextCalled = c.nextCalled ∧
    (setHeaders c now info).status = c.status ∧
    (setHeaders c now info).body = c.body := by
  unfold setHeaders
  simp only
  split <;> exact ⟨rfl, rfl, rfl, rfl, rfl⟩

theorem UserIDFromContext_setHeaders (c : GinContext) (now : Time) (info : RateLimit.RateLimitInfo) :
    Response.UserIDFromContext (setHeaders c now info) = Response.UserIDFromContext c := by
  simp only [Response.UserIDFromContext, (setHeaders_fields c now info).1]

/-- The context after a rejection: aborted, status 429, body `rate_limited`, `Next` not
called. -/
theorem reject_fields (c : GinContext) (now now' : Time) (info : RateLimit.RateLimitInfo) :
    ((Response.TooManyRequests (setHeaders c now info) now' info.Reset).Abort).aborted = true ∧
    ((Response.TooManyRequests (setHeaders c now info) now' info.Reset).Abort).status
      = some Response.StatusTooManyRequests ∧
    ((Response.TooManyRequests (setHeaders c now info) now' info.Reset).Abort).body
      = some ⟨"rate_limited", "slow down"⟩ ∧
    ((Response.TooManyRequests (setHeaders c now info) now' info.Reset).Abort).nextCalled
      = c.nextCalled := by
  refine ⟨rfl, rfl, rfl, ?_⟩
  exact (setHeaders_fields c now info).2.2.1

/-! ## C17: a denial by either limiter rejects -/

/-- C17: if the IP limiter returns `Allowed = false` without error, or the request carries a
user id and the user limiter returns `Allowed = false` without error, the request is aborted
with status 429 (too many requests) and `c.Next()` is not called, so the downstream handler is
not run. -/
theorem C17_either_denial_rejects (ipLimiter userLimiter : Option Limiter) (clock : Clock)
    (c : GinContext)
    (h : (∃ l info, ipLimiter = some l ∧
            l.Allow c.requestCtx ("ip:" ++ c.clientIP) = (info, none) ∧ info.Allowed = false) ∨
         (Response.UserIDFromContext c ≠ "" ∧ ∃ l info, userLimiter = some l ∧
            l.Allow c.requestCtx ("user:" ++ Response.UserIDFromContext c) = (info, none) ∧
            info.Allowed = false)) :
    (RateLimit ipLimiter userLimiter clock c).1.aborted = true ∧
    (RateLimit ipLimiter userLimiter clock c).1.status = some Response.StatusTooManyRequests ∧
    (RateLimit ipLimiter userLimiter clock c).1.body = some ⟨"rate_limited", "slow down"⟩ ∧
    (RateLimit ipLimiter userLimiter clock c).1.nextCalled = c.nextCalled := by
  -- the IP stage
  cases ipLimiter with
  | some l =>
    cases hans : l.Allow c.requestCtx ("ip:" ++ c.clientIP) with
    | mk info err =>
      cases err with
      | none =>
        by_cases hden : info.Allowed = false
        · simp only [RateLimit, hans, hden, Bool.not_false, ↓reduceIte]
          exact reject_fields c _ _ info
        · rcases h with ⟨l', info', hl', hans', hden'⟩ | ⟨hid, lu, infou, hlu, hansu, hdenu⟩
          · cases hl'
            rw [hans] at hans'
            cases hans'
            exact absurd hden' hden
          · subst hlu
            have hallow : info.Allowed = true := by simpa using hden
            simp only [RateLimit, hans, hallow, Bool.not_true, Bool.false_eq_true, ↓reduceIte,
              UserIDFromContext_setHeaders, hid, ne_eq, not_false_eq_true, hansu, hdenu,
              Bool.not_false]
            have := reject_fields (setHeaders c clock.ipHeaders info) clock.userHeaders
              clock.userReject infou
            rw [(setHeaders_fields c clock.ipHeaders info).2.2.1] at this
            exact this
      | some e =>
        rcases h with ⟨l', info', hl', hans', -⟩ | ⟨hid, lu, infou, hlu, hansu, hdenu⟩
        · cases hl'
          rw [hans] at hans'
          cases hans'
        · subst hlu
          simp only [RateLimit, hans, hid, ne_eq, not_false_eq_true, ↓reduceIte, hansu, hdenu,
            Bool.not_false]
          exact reject_fields c clock.userHeaders clock.userReject infou
  | none =>
    rcases h with ⟨l', info', hl', -⟩ | ⟨hid, lu, infou, hlu, hansu, hdenu⟩
    · cases hl'
    · subst hlu
      simp only [RateLimit, hid, ne_eq, not_false_eq_true, ↓reduceIte, hansu, hdenu,
        Bool.not_false]
      exact reject_fields c clock.userHeaders clock.userReject infou

end Middleware

namespace Middleware

open Auth (Time Duration Context Err Second)
open Response (GinContext)

/-- C17 witness: the IP limiter allows, the user limiter denies the user `u1`. -/
theorem C17_either_denial_rejects_witness :
    ((∃ l info, some allowing = some l ∧
        l.Allow demoRequest.requestCtx ("ip:" ++ demoRequest.clientIP) = (info, none) ∧
        info.Allowed = false) ∨
      (Response.UserIDFromContext demoRequest ≠ "" ∧ ∃ l info, some denying = some l ∧
        l.Allow demoRequest.requestCtx ("user:" ++ Response.UserIDFromContext demoRequest)
          = (info, none) ∧ info.Allowed = false)) ∧
    (RateLimit (some allowing) (some denying) demoClock demoRequest).1.aborted = true ∧
    (RateLimit (some allowing) (some denying) demoClock demoRequest).1.status
      = some Response.StatusTooManyRequests ∧
    (RateLimit (some allowing) (some denying) demoClock demoRequest).1.body
      = some ⟨"rate_limited", "slow down"⟩ ∧
    (RateLimit (some allowing) (some denying) demoClock demoRequest).1.nextCalled
      = demoRequest.nextCalled :=
  ⟨Or.inr ⟨by decide, denying, _, rfl, rfl, rfl⟩,
    C17_either_denial_rejects (some allowing) (some denying) demoClock demoRequest
      (Or.inr ⟨by decide, denying, _, rfl, rfl, rfl⟩)⟩

/-! ## C18: which limiters are consulted -/

/-- C18 (as stated, refuted): for a request that carries the user id `u1`, when the IP limiter
denies, the handler returns after the rejection: the only call made is the one to the IP
limiter, the user limiter is not consulted. -/
theorem C18_counterexample :
    Response.UserIDFromContext demoRequest = "u1" ∧
    (RateLimit (some denying) (some allowing) demoClock demoRequest).2
      = [.ip "ip:10.0.0.1"] ∧
    LimiterCall.user "user:u1" ∉ (RateLimit (some denying) (some allowing) demoClock
      demoRequest).2 ∧
    (RateLimit (some denying) (some allowing) demoClock demoRequest).1.aborted = true :=
  ⟨rfl, by decide, by decide, by decide⟩

/-- C18 (amended): for every request that carries an authenticated user id, both limiters
being set, the middleware calls `Allow` on the IP limiter first, and then on the user limiter
unless the IP limiter denied without error: in that case the request is rejected at once and
the user limiter is not called. -/
theorem C18_user_limiter_consulted_unless_ip_denies (ipLimiter userLimiter : Limiter)
    (clock : Clock) (c : GinContext) (hid : Response.UserIDFromContext c ≠ "") :
    (RateLimit (some ipLimiter) (some userLimiter) clock c).2 =
      if (ipLimiter.Allow c.requestCtx ("ip:" ++ c.clientIP)).2 = none ∧
          (ipLimiter.Allow c.requestCtx ("ip:" ++ c.clientIP)).1.Allowed = false then
        [.ip ("ip:" ++ c.clientIP)]
      else
        [.ip ("ip:" ++ c.clientIP), .user ("user:" ++ Response.UserIDFromContext c)] := by
  cases hans : ipLimiter.Allow c.requestCtx ("ip:" ++ c.clientIP) with
  | mk info err =>
    cases err with
    | some e =>
      simp only [RateLimit, hans, hid, ne_eq, not_false_eq_true, ↓reduceIte, reduceCtorEq,
        false_and]
      cases userLimiter.Allow c.requestCtx ("user:" ++ Response.UserIDFromContext c) with
      | mk infou erru =>
        cases erru with
        | some eu => rfl
        | none => simp only; split <;> rfl
    | none =>
      by_cases hden : info.Allowed = false
      · simp only [RateLimit, hans, hden, Bool.not_false, ↓reduceIte, and_self]
      · have hallow : info.Allowed = true := by simpa using hden
        simp only [RateLimit, hans, hallow, Bool.not_true, Bool.false_eq_true, ↓reduceIte,
          UserIDFromContext_setHeaders, hid, ne_eq, not_false_eq_true, and_false]
        cases userLimiter.Allow c.requestCtx ("user:" ++ Response.UserIDFromContext c) with
        | mk infou erru =>
          cases erru with
          | some eu => rfl
          | none => simp only; split <;> rfl

/-- C18 witness: the IP limiter allows the request of user `u1`; both limiters are called. -/
theorem C18_user_limiter_consulted_unless_ip_denies_witness :
    Response.UserIDFromContext demoRequest ≠ "" ∧
    (RateLimit (some allowing) (some denying) demoClock demoRequest).2
      = [.ip "ip:10.0.0.1", .user "user:u1"] ∧
    (RateLimit (some allowing) (some denying) demoClock demoRequest).2 =
      if (allowing.Allow demoRequest.requestCtx ("ip:" ++ demoRequest.clientIP)).2 = none ∧
          (allowing.Allow demoRequest.requestCtx ("ip:" ++ demoRequest.clientIP)).1.Allowed
            = false then
        [.ip ("ip:" ++ demoRequest.clientIP)]
      else
        [.ip ("ip:" ++ demoRequest.clientIP),
          .user ("user:" ++ Response.UserIDFromContext demoRequest)] :=
  ⟨by decide, by decide,
    C18_user_limiter_consulted_unless_ip_denies allowing denying demoClock demoRequest
      (by decide)⟩

end Middleware

namespace Middleware

open Auth (Time Duration Context Err Second)
open Response (GinContext)

/-! ## C19: errors of the shared store -/

/-- The user stage of the handler does the same to the context whatever calls were made
before it. -/
theorem RateLimit_none_ip (userLimiter : Option Limiter) (clock : Clock) (c : GinContext) :
    RateLimit none userLimiter clock c =
      match userLimiter with
      | none => (c.Next, [])
      | some l =>
        if Response.UserIDFromContext c ≠ "" then
          match l.Allow c.requestCtx ("user:" ++ Response.UserIDFromContext c) with
          | (_, some _) => (c.Next, [.user ("user:" ++ Response.UserIDFromContext c)])
          | (info, none) =>
            if !info.Allowed then
              ((Response.TooManyRequests (setHeaders c clock.userHeaders info) clock.userReject
                info.Reset).Abort, [.user ("user:" ++ Response.UserIDFromContext c)])
            else ((setHeaders c clock.userHeaders info).Next,
              [.user ("user:" ++ Response.UserIDFromContext c)])
        else (c.Next, []) := by
  cases userLimiter with
  | none => rfl
  | some l =>
    simp only [RateLimit, List.nil_append]

/-- An IP limiter that answers with an error counts for nothing: the handler does to the
request what it does without IP limiter, whatever the user limiter answers; only the call to
the IP limiter is added to the calls made. -/
theorem RateLimit_ip_error (l : Limiter) (userLimiter : Option Limiter) (clock : Clock)
    (c : GinContext) (h : (l.Allow c.requestCtx ("ip:" ++ c.clientIP)).2 ≠ none) :
    (RateLimit (some l) userLimiter clock c).1 = (RateLimit none userLimiter clock c).1 ∧
    (RateLimit (some l) userLimiter clock c).2
      = .ip ("ip:" ++ c.clientIP) :: (RateLimit none userLimiter clock c).2 := by
  cases hans : l.Allow c.requestCtx ("ip:" ++ c.clientIP) with
  | mk info err =>
    cases err with
    | none => simp [hans] at h
    | some e =>
      rw [RateLimit_none_ip]
      cases userLimiter with
      | none => constructor <;> simp [RateLimit, hans]
      | some lu =>
        simp only [RateLimit, hans]
        split
        · cases lu.Allow c.requestCtx ("user:" ++ Response.UserIDFromContext c) with
          | mk infou erru =>
            cases erru with
            | some eu => exact ⟨rfl, rfl⟩
            | none => simp only; split <;> exact ⟨rfl, rfl⟩
        · exact ⟨rfl, rfl⟩

/-- A user limiter that answers with an error counts for nothing: the handler does to the
request what it does without user limiter, whatever the IP limiter answers. -/
theorem RateLimit_user_error (l : Limiter) (ipLimiter : Option Limiter) (clock : Clock)
    (c : GinContext)
    (h : (l.Allow c.requestCtx ("user:" ++ Response.UserIDFromContext c)).2 ≠ none) :
    (RateLimit ipLimiter (some l) clock c).1 = (RateLimit ipLimiter none clock c).1 := by
  cases hans : l.Allow c.requestCtx ("user:" ++ Response.UserIDFromContext c) with
  | mk infou erru =>
    cases erru with
    | none => simp [hans] at h
    | some eu =>
      cases ipLimiter with
      | none =>
        simp only [RateLimit, hans]
        split <;> rfl
      | some li =>
        cases hi : li.Allow c.requestCtx ("ip:" ++ c.clientIP) with
        | mk info err =>
          cases err with
          | some e =>
            simp only [RateLimit, hi, hans]
            split <;> rfl
          | none =>
            by_cases hden : info.Allowed = false
            · simp only [RateLimit, hi, hden, Bool.not_false, ↓reduceIte]
            · have hallow : info.Allowed = true := by simpa using hden
              simp only [RateLimit, hi, hallow, Bool.not_true, Bool.false_eq_true, ↓reduceIte,
                UserIDFromContext_setHeaders, hans]
              split <;> rfl

/-- Without a denial the request goes through: if neither limiter answers `Allowed = false`
without error (the user limiter being asked only for a request that carries a user id), the
request is not aborted, no status or body is written, and `c.Next()` is called. -/
theorem RateLimit_no_denial (ipLimiter userLimiter : Option Limiter) (clock : Clock)
    (c : GinContext)
    (h : ¬ ((∃ l info, ipLimiter = some l ∧
            l.Allow c.requestCtx ("ip:" ++ c.clientIP) = (info, none) ∧ info.Allowed = false) ∨
         (Response.UserIDFromContext c ≠ "" ∧ ∃ l info, userLimiter = some l ∧
            l.Allow c.requestCtx ("user:" ++ Response.UserIDFromContext c) = (info, none) ∧
            info.Allowed = false))) :
    (RateLimit ipLimiter userLimiter clock c).1.aborted = c.aborted ∧
    (RateLimit ipLimiter userLimiter clock c).1.status = c.status ∧
    (RateLimit ipLimiter userLimiter clock c).1.body = c.body ∧
    (RateLimit ipLimiter userLimiter clock c).1.nextCalled = true := by
  rw [not_or] at h
  obtain ⟨hip, hus⟩ := h
  -- the user stage, on a context `c'` that differs from `c` in its headers only
  have user : ∀ (c' : GinContext) (calls : List LimiterCall),
      Response.UserIDFromContext c' = Response.UserIDFromContext c →
      c'.aborted = c.aborted → c'.status = c.status → c'.body = c.body →
      c'.requestCtx = c.requestCtx →
      (match userLimiter with
        | none => (c'.Next, calls)
        | some l =>
          if Response.UserIDFromContext c' ≠ "" then
            match l.Allow c.requestCtx ("user:" ++ Response.UserIDFromContext c') with
            | (_, some _) =>
              (c'.Next, calls ++ [LimiterCall.user ("user:" ++ Response.UserIDFromContext c')])
            | (info, none) =>
              if (!info.Allowed) = true then
                ((Response.TooManyRequests (setHeaders c' clock.userHeaders info)
                  clock.userReject info.Reset).Abort,
                  calls ++ [LimiterCall.user ("user:" ++ Response.UserIDFromContext c')])
              else ((setHeaders c' clock.userHeaders info).Next,
                calls ++ [LimiterCall.user ("user:" ++ Response.UserIDFromContext c')])
          else (c'.Next, calls)).1.aborted = c.aborted ∧
      (match userLimiter with
        | none => (c'.Next, calls)
        | some l =>
          if Response.UserIDFromContext c' ≠ "" then
            match l.Allow c.requestCtx ("user:" ++ Response.UserIDFromContext c') with
            | (_, some _) =>
              (c'.Next, calls ++ [LimiterCall.user ("user:" ++ Response.UserIDFromContext c')])
            | (info, none) =>
              if (!info.Allowed) = true then
                ((Response.TooManyRequests (setHeaders c' clock.userHeaders info)
                  clock.userReject info.Reset).Abort,
                  calls ++ [LimiterCall.user ("user:" ++ Response.UserIDFromContext c')])
              else ((setHeaders c' clock.userHeaders info).Next,
                calls ++ [LimiterCall.user ("user:" ++ Response.UserIDFromContext c')])
          else (c'.Next, calls)).1.status = c.status ∧
      (match userLimiter with
        | none => (c'.Next, calls)
        | some l =>
          if Response.UserIDFromContext c' ≠ "" then
            match l.Allow c.requestCtx ("user:" ++ Response.UserIDFromContext c') with
            | (_, some _) =>
              (c'.Next, calls ++ [LimiterCall.user ("user:" ++ Response.UserIDFromContext c')])
            | (info, none) =>
              if (!info.Allowed) = true then
                ((Response.TooManyRequests (setHeaders c' clock.userHeaders info)
                  clock.userReject info.Reset).Abort,
                  calls ++ [LimiterCall.user ("user:" ++ Response.UserIDFromContext c')])
              else ((setHeaders c' clock.userHeaders info).Next,
                calls ++ [LimiterCall.user ("user:" ++ Response.UserIDFromContext c')])
          else (c'.Next, calls)).1.body = c.body ∧
      (match userLimiter with
        | none => (c'.Next, calls)
        | some l =>
          if Response.UserIDFromContext c' ≠ "" then
            match l.Allow c.requestCtx ("user:" ++ Response.UserIDFromContext c') with
            | (_, some _) =>
              (c'.Next, calls ++ [LimiterCall.user ("user:" ++ Response.UserIDFromContext c')])
            | (info, none) =>
              if (!info.Allowed) = true then
                ((Response.TooManyRequests (setHeaders c' clock.userHeaders info)
                  clock.userReject info.Reset).Abort,
                  calls ++ [LimiterCall.user ("user:" ++ Response.UserIDFromContext c')])
              else ((setHeaders c' clock.userHeaders info).Next,
                calls ++ [LimiterCall.user ("user:" ++ Response.UserIDFromContext c')])
          else (c'.Next, calls)).1.nextCalled = true := by
    intro c' calls hid hab hst hbo hctx
    cases userLimiter with
    | none => exact ⟨hab, hst, hbo, rfl⟩
    | some lu =>
      simp only [hid]
      by_cases hne : Response.UserIDFromContext c = ""
      · simp only [hne, ne_eq, not_true_eq_false, ↓reduceIte]
        exact ⟨hab, hst, hbo, rfl⟩
      · simp only [ne_eq, hne, not_false_eq_true, ↓reduceIte]
        cases hans : lu.Allow c.requestCtx ("user:" ++ Response.UserIDFromContext c) with
        | mk infou erru =>
          cases erru with
          | some eu => exact ⟨hab, hst, hbo, rfl⟩
          | none =>
            have hallow : infou.Allowed = true := by
              by_contra hcon
              exact hus ⟨hne, lu, infou, rfl, hans, by simpa using hcon⟩
            simp only [hallow, Bool.not_true, Bool.false_eq_true, ↓reduceIte]
            obtain ⟨-, s2, -, s4, s5⟩ := setHeaders_fields c' clock.userHeaders infou
            exact ⟨s2.trans hab, s4.trans hst, s5.trans hbo, rfl⟩
  cases ipLimiter with
  | none =>
    have := user c [] rfl rfl rfl rfl rfl
    simpa only [RateLimit] using this
  | some li =>
    cases hi : li.Allow c.requestCtx ("ip:" ++ c.clientIP) with
    | mk info err =>
      cases err with
      | some e =>
        have := user c [.ip ("ip:" ++ c.clientIP)] rfl rfl rfl rfl rfl
        simpa only [RateLimit, hi] using this
      | none =>
        have hallow : info.Allowed = true := by
          by_contra hcon
          exact hip ⟨li, info, rfl, hi, by simpa using hcon⟩
        obtain ⟨s1, s2, -, s4, s5⟩ := setHeaders_fields c clock.ipHeaders info
        have := user (setHeaders c clock.ipHeaders info) [.ip ("ip:" ++ c.clientIP)]
          (UserIDFromContext_setHeaders c clock.ipHeaders info) s2 s4 s5
          (by unfold setHeaders; simp only; split <;> rfl)
        simpa only [RateLimit, hi, hallow, Bool.not_true, Bool.false_eq_true, ↓reduceIte]
          using this

/-- What `RedisLimiter.Allow` returns when a command of the store fails with an error other
than key-absent. -/
theorem RedisLimiter_store_error (r : RateLimit.RedisLimiter) (ctx : Context)
    (env : RateLimit.Env) (key : String) (e : Err)
    (hstore :
      ((r.client.Decr ctx env.decrFault env.storeNow (r.pfx ++ ":" ++ key)).1 = .error e ∧
        e ≠ .redisNil) ∨
      ((r.client.Decr ctx env.decrFault env.storeNow (r.pfx ++ ":" ++ key)).1
          = .error .redisNil ∧
        (r.client.TxSet ctx env.execFault env.storeNow (r.pfx ++ ":" ++ key) (r.limit - 1)
          RateLimit.Minute).1 = some e)) :
    (r.Allow ctx env key).1.2 = some e ∧ (r.Allow ctx env key).1.1.Remaining = 0 ∧
      (r.Allow ctx env key).1.1.Allowed = false := by
  have hcl : (r.client.Decr ctx env.decrFault env.storeNow (r.pfx ++ ":" ++ key)).1
      = .error .redisNil →
      (r.client.Decr ctx env.decrFault env.storeNow (r.pfx ++ ":" ++ key)).2 = r.client := by
    intro hd
    cases hc : ctx.Err with
    | some _ => simp [RateLimit.RedisClient.Decr, hc]
    | none =>
      cases hf : env.decrFault with
      | some _ => simp [RateLimit.RedisClient.Decr, hc, hf]
      | none =>
        cases hl : r.client.live env.storeNow (r.pfx ++ ":" ++ key) with
        | none => simp [RateLimit.RedisClient.Decr, hc, hf, hl]
        | some cnt => simp [RateLimit.RedisClient.Decr, hc, hf, hl] at hd
  rcases hstore with ⟨hd, hne⟩ | ⟨hd, hx⟩
  · cases hdd : r.client.Decr ctx env.decrFault env.storeNow (r.pfx ++ ":" ++ key) with
    | mk res client =>
      rw [hdd] at hd
      simp only at hd
      subst hd
      cases e <;> first
        | exact absurd rfl hne
        | simp [RateLimit.RedisLimiter.Allow, hdd, RateLimit.RateLimitInfo.zero]
  · have hcl' := hcl hd
    cases hdd : r.client.Decr ctx env.decrFault env.storeNow (r.pfx ++ ":" ++ key) with
    | mk res client =>
      rw [hdd] at hd hcl'
      simp only at hd hcl'
      subst hd hcl'
      cases hxx : r.client.TxSet ctx env.execFault env.storeNow (r.pfx ++ ":" ++ key)
          (r.limit - 1) RateLimit.Minute with
      | mk err client' =>
        rw [hxx] at hx
        simp only at hx
        subst hx
        simp [RateLimit.RedisLimiter.Allow, hdd, hxx]

/-- C19: when a command of the shared store fails with an error `e` other than key-absent (the
decrement, or the transaction after the decrement reported the key absent),
`RedisLimiter.Allow` returns `e` together with `Remaining = 0`. The middleware then fails open
for that limiter. If it is the IP limiter of the middleware, the request is handled exactly as
without IP limiter, whatever the user limiter is and answers; if it is the user limiter, the
request is handled exactly as without user limiter, whatever the IP limiter is and answers.
And whatever the limiters are, unless one of them answers `Allowed = false` without error, the
request is not aborted, no too-many-requests status is written, and `c.Next()` is called, so
the downstream handler runs. -/
theorem C19_store_error_fails_open (r : RateLimit.RedisLimiter) (ctx : Context)
    (env : RateLimit.Env) (key : String) (e : Err) (other : Option Limiter)
    (clock : Clock) (c : GinContext)
    (hstore :
      ((r.client.Decr ctx env.decrFault env.storeNow (r.pfx ++ ":" ++ key)).1 = .error e ∧
        e ≠ .redisNil) ∨
      ((r.client.Decr ctx env.decrFault env.storeNow (r.pfx ++ ":" ++ key)).1
          = .error .redisNil ∧
        (r.client.TxSet ctx env.execFault env.storeNow (r.pfx ++ ":" ++ key) (r.limit - 1)
          RateLimit.Minute).1 = some e)) :
    (r.Allow ctx env key).1.2 = some e ∧
    (r.Allow ctx env key).1.1.Remaining = 0 ∧
    (r.Allow ctx env key).1.1.Allowed = false ∧
    (ctx = c.requestCtx → key = "ip:" ++ c.clientIP →
      (RateLimit (some (ofRedis r env)) other clock c).1 = (RateLimit none other clock c).1 ∧
      (RateLimit (some (ofRedis r env)) other clock c).2
        = .ip ("ip:" ++ c.clientIP) :: (RateLimit none other clock c).2) ∧
    (ctx = c.requestCtx → key = "user:" ++ Response.UserIDFromContext c →
      (RateLimit other (some (ofRedis r env)) clock c).1 = (RateLimit other none clock c).1) ∧
    (RateLimit none none clock c).1 = c.Next ∧
    (∀ ipLimiter userLimiter : Option Limiter,
      ¬ ((∃ l info, ipLimiter = some l ∧
            l.Allow c.requestCtx ("ip:" ++ c.clientIP) = (info, none) ∧ info.Allowed = false) ∨
         (Response.UserIDFromContext c ≠ "" ∧ ∃ l info, userLimiter = some l ∧
            l.Allow c.requestCtx ("user:" ++ Response.UserIDFromContext c) = (info, none) ∧
            info.Allowed = false)) →
      (RateLimit ipLimiter userLimiter clock c).1.aborted = c.aborted ∧
      (RateLimit ipLimiter userLimiter clock c).1.status = c.status ∧
      (RateLimit ipLimiter userLimiter clock c).1.body = c.body ∧
      (RateLimit ipLimiter userLimiter clock c).1.nextCalled = true) := by
  obtain ⟨h1, h2, h3⟩ := RedisLimiter_store_error r ctx env key e hstore
  refine ⟨h1, h2, h3, ?_, ?_, rfl, fun ip us h => RateLimit_no_denial ip us clock c h⟩
  · intro hctx hkey
    subst hctx hkey
    exact RateLimit_ip_error (ofRedis r env) other clock c (by
      show (r.Allow c.requestCtx env ("ip:" ++ c.clientIP)).1.2 ≠ none
      rw [h1]; simp)
  · intro hctx hkey
    subst hctx hkey
    exact RateLimit_user_error (ofRedis r env) other clock c (by
      show (r.Allow c.requestCtx env ("user:" ++ Response.UserIDFromContext c)).1.2 ≠ none
      rw [h1]; simp)

end Middleware

namespace Middleware

open Auth (Time Duration Context Err Second)
open Response (GinContext)

/-- C19 witness: the IP limiter of the middleware is a `RedisLimiter` whose decrement command
fails with a time-out, the user limiter allows: the request of user `u1` goes through, with
the headers of the user limiter. With a user limiter that denies it is rejected, as it is
without IP limiter. -/
theorem C19_store_error_fails_open_witness :
    (((RateLimit.demoRedisLimiter.client.Decr .Background RateLimit.demoDecrFails.decrFault
          RateLimit.demoDecrFails.storeNow (RateLimit.demoRedisLimiter.pfx ++ ":" ++ "ip:10.0.0.1")).1
        = .error (.storage "i/o timeout") ∧ Err.storage "i/o timeout" ≠ .redisNil) ∨
      ((RateLimit.demoRedisLimiter.client.Decr .Background RateLimit.demoDecrFails.decrFault
          RateLimit.demoDecrFails.storeNow (RateLimit.demoRedisLimiter.pfx ++ ":" ++ "ip:10.0.0.1")).1
        = .error .redisNil ∧
      (RateLimit.demoRedisLimiter.client.TxSet .Background RateLimit.demoDecrFails.execFault
          RateLimit.demoDecrFails.storeNow (RateLimit.demoRedisLimiter.pfx ++ ":" ++ "ip:10.0.0.1")
          (RateLimit.demoRedisLimiter.limit - 1) RateLimit.Minute).1
        = some (.storage "i/o timeout"))) ∧
    (RateLimit.demoRedisLimiter.Allow .Background RateLimit.demoDecrFails "ip:10.0.0.1").1.2
      = some (.storage "i/o timeout") ∧
    (RateLimit.demoRedisLimiter.Allow .Background RateLimit.demoDecrFails
      "ip:10.0.0.1").1.1.Remaining = 0 ∧
    (RateLimit.demoRedisLimiter.Allow .Background RateLimit.demoDecrFails
      "ip:10.0.0.1").1.1.Allowed = false ∧
    (RateLimit (some (ofRedis RateLimit.demoRedisLimiter RateLimit.demoDecrFails))
      (some allowing) demoClock demoRequest).1.nextCalled = true ∧
    (RateLimit (some (ofRedis RateLimit.demoRedisLimiter RateLimit.demoDecrFails))
      (some allowing) demoClock demoRequest).1.aborted = false ∧
    (RateLimit (some (ofRedis RateLimit.demoRedisLimiter RateLimit.demoDecrFails))
      (some allowing) demoClock demoRequest).1.status = none ∧
    (RateLimit (some (ofRedis RateLimit.demoRedisLimiter RateLimit.demoDecrFails))
      (some allowing) demoClock demoRequest).2 = [.ip "ip:10.0.0.1", .user "user:u1"] ∧
    (RateLimit (some (ofRedis RateLimit.demoRedisLimiter RateLimit.demoDecrFails))
      (some denying) demoClock demoRequest).1.aborted = true ∧
    (RateLimit (some (ofRedis RateLimit.demoRedisLimiter RateLimit.demoDecrFails))
        (some allowing) demoClock demoRequest).1
      = (RateLimit none (some allowing) demoClock demoRequest).1 ∧
    (RateLimit (some (ofRedis RateLimit.demoRedisLimiter RateLimit.demoDecrFails))
        (some allowing) demoClock demoRequest).2
      = .ip ("ip:" ++ demoRequest.clientIP)
          :: (RateLimit none (some allowing) demoClock demoRequest).2 :=
  ⟨Or.inl ⟨rfl, by decide⟩, by decide, by decide, by decide, by decide, by decide, by decide,
    by decide, by decide,
    (C19_store_error_fails_open RateLimit.demoRedisLimiter .Background RateLimit.demoDecrFails
      "ip:10.0.0.1" (.storage "i/o timeout") (some allowing) demoClock demoRequest
      (Or.inl ⟨rfl, by decide⟩)).2.2.2.1 rfl rfl⟩

end Middleware

namespace Middleware

open Auth (Time Duration Context Err Second)
open Response (GinContext)
open Go (Float64 wrap64 roundQ MinInt64 MaxInt64)

/-! ## C20: the two computations of `Retry-After` -/

theorem Seconds_zero : Auth.Duration.Seconds 0 = .finite 0 := by decide!

theorem roundQ_last_nanosecond :
    roundQ (999999999 / 1000000000) < 1 - 1 / 1073741824 := by decide!

/-- On a duration that is not negative `Seconds()` is finite and lies between the whole
seconds and the whole seconds plus one, which it reaches only from `2 ^ 24` seconds on. -/
theorem Seconds_of_nonneg (d : Int) (h0 : 0 ≤ d) (h1 : d ≤ 9223372036854775807) :
    ∃ q : ℚ, Auth.Duration.Seconds d = .finite q ∧
      ((d / 1000000000 : Int) : ℚ) ≤ q ∧ q ≤ ((d / 1000000000 : Int) : ℚ) + 1 ∧
      (d < 16777216000000000 → q < ((d / 1000000000 : Int) : ℚ) + 1) := by
  have hS : Second = 1000000000 := by decide
  have hdiv : Int.tdiv d Second = d / 1000000000 := by
    rw [hS]; exact Int.tdiv_eq_ediv h0 (by norm_num)
  have hmod : Int.tmod d Second = d % 1000000000 := by
    rw [hS]; exact Int.tmod_eq_emod h0 (by norm_num)
  have hm0 : 0 ≤ d / 1000000000 := by omega
  have hm1 : d / 1000000000 ≤ 9223372036 := by omega
  have hn0 : 0 ≤ d % 1000000000 := by omega
  have hn1 : d % 1000000000 ≤ 999999999 := by omega
  have hsmall : d < 16777216000000000 → d / 1000000000 ≤ 16777215 := by omega
  generalize d / 1000000000 = sc at hdiv hm0 hm1 hsmall
  generalize d % 1000000000 = ns at hmod hn0 hn1
  have e1 : Float64.ofInt sc = .finite (sc : ℚ) := Float64.ofInt_small sc (by omega) (by omega)
  have e2 : Float64.ofInt ns = .finite (ns : ℚ) := Float64.ofInt_small ns (by omega) (by omega)
  have hnq0 : (0 : ℚ) ≤ (ns : ℚ) := by exact_mod_cast hn0
  have hnq1 : (ns : ℚ) ≤ 999999999 := by exact_mod_cast hn1
  have hmq0 : (0 : ℚ) ≤ (sc : ℚ) := by exact_mod_cast hm0
  have hmq1 : (sc : ℚ) ≤ 9223372036 := by exact_mod_cast hm1
  have r0 : roundQ 0 = 0 := Go.roundQ_zero
  have r1 : roundQ 1 = 1 := by
    have := Go.roundQ_intCast 1 (by norm_num) (by norm_num); simpa using this
  obtain ⟨f1, f2, f3⟩ := Float64.round_between (x := (ns : ℚ) / 1000000000) r0 r1
    (by positivity) (by rw [div_le_one (by norm_num)]; linarith) (by norm_num) (by norm_num)
  have f4 : roundQ ((ns : ℚ) / 1000000000) < 1 - 1 / 1073741824 :=
    lt_of_le_of_lt (Go.roundQ_mono (div_le_div_of_nonneg_right hnq1 (by norm_num)))
      roundQ_last_nanosecond
  have rm : roundQ (sc : ℚ) = sc := Go.roundQ_intCast sc (by omega) (by omega)
  have rm1 : roundQ ((sc : ℚ) + 1) = (sc : ℚ) + 1 := by
    have := Go.roundQ_intCast (sc + 1) (by omega) (by omega)
    push_cast at this; exact this
  obtain ⟨g1, g2, g3⟩ := Float64.round_between
    (x := (sc : ℚ) + roundQ ((ns : ℚ) / 1000000000)) rm rm1
    (by linarith) (by linarith) (by norm_num; linarith) (by norm_num; linarith)
  refine ⟨roundQ ((sc : ℚ) + roundQ ((ns : ℚ) / 1000000000)), ?_, g2, g3, ?_⟩
  · unfold Auth.Duration.Seconds
    simp only [hdiv, hmod, e1, e2, Float64.div, Float64.add]
    rw [if_neg (by norm_num), f1]
    simp only [Float64.add, g1]
  · intro h
    have hsc : (sc : ℚ) ≤ 16777215 := by exact_mod_cast hsmall h
    rcases eq_or_lt_of_le (add_nonneg hmq0 f2) with hz | hpos
    · rw [← hz, r0]; linarith
    · have hlt : (sc : ℚ) + roundQ ((ns : ℚ) / 1000000000) < (2 : ℚ) ^ (24 : Int) := by
        norm_num; linarith
      have := Go.roundQ_le_add 24 hpos (by norm_num) hlt
      norm_num at this
      linarith

/-- On a duration that is not positive `Seconds()` is finite and not positive. -/
theorem Seconds_of_nonpos (d : Int) (h0 : d ≤ 0) (h1 : -9223372036854775808 ≤ d) :
    ∃ q : ℚ, Auth.Duration.Seconds d = .finite q ∧ q ≤ 0 := by
  have hS : Second = 1000000000 := by decide
  have hdiv : Int.tdiv d Second = -((-d) / 1000000000) := by
    rw [hS]
    have := Int.tdiv_eq_ediv (a := -d) (b := 1000000000) (by omega) (by norm_num)
    rw [Int.neg_tdiv] at this
    omega
  have hmod : Int.tmod d Second = -((-d) % 1000000000) := by
    rw [hS]
    have h2 := Int.tmod_add_tdiv d 1000000000
    rw [hS] at hdiv
    rw [hdiv] at h2
    omega
  have hm0 : 0 ≤ (-d) / 1000000000 := by omega
  have hm1 : (-d) / 1000000000 ≤ 9223372036 := by omega
  have hn0 : 0 ≤ (-d) % 1000000000 := by omega
  have hn1 : (-d) % 1000000000 ≤ 999999999 := by omega
  generalize (-d) / 1000000000 = sc at hdiv hm0 hm1
  generalize (-d) % 1000000000 = ns at hmod hn0 hn1
  have e1 : Float64.ofInt (-sc) = .finite (-(sc : ℚ)) := by
    have := Float64.ofInt_small (-sc) (by omega) (by omega)
    push_cast at this; exact this
  have e2 : Float64.ofInt (-ns) = .finite (-(ns : ℚ)) := by
    have := Float64.ofInt_small (-ns) (by omega) (by omega)
    push_cast at this; exact this
  have hnq0 : (0 : ℚ) ≤ (ns : ℚ) := by exact_mod_cast hn0
  have hnq1 : (ns : ℚ) ≤ 999999999 := by exact_mod_cast hn1
  have hmq0 : (0 : ℚ) ≤ (sc : ℚ) := by exact_mod_cast hm0
  have hmq1 : (sc : ℚ) ≤ 9223372036 := by exact_mod_cast hm1
  have r0 : roundQ 0 = 0 := Go.roundQ_zero
  have r1 : roundQ (-1) = -1 := by
    have := Go.roundQ_intCast (-1) (by norm_num) (by norm_num); simpa using this
  obtain ⟨f1, f2, f3⟩ := Float64.round_between (x := (-(ns : ℚ)) / 1000000000) r1 r0
    (by rw [le_div_iff₀ (by norm_num)]; linarith)
    (by apply div_nonpos_of_nonpos_of_nonneg <;> linarith)
    (by norm_num) (by norm_num)
  have rlo : roundQ (-9223372037) = -9223372037 := by
    have := Go.roundQ_intCast (-9223372037) (by norm_num) (by norm_num)
    push_cast at this; exact this
  obtain ⟨g1, g2, g3⟩ := Float64.round_between
    (x := (-(sc : ℚ)) + roundQ ((-(ns : ℚ)) / 1000000000)) rlo r0
    (by linarith) (by linarith) (by norm_num) (by norm_num)
  refine ⟨roundQ ((-(sc : ℚ)) + roundQ ((-(ns : ℚ)) / 1000000000)), ?_, g3⟩
  unfold Auth.Duration.Seconds
  simp only [hdiv, hmod, e1, e2, Float64.div, Float64.add]
  rw [if_neg (by norm_num), f1]
  simp only [Float64.add, g1]

theorem toInt_of_nonpos {q : ℚ} (h : q ≤ 0) : (Float64.finite q).toInt ≤ 0 := by
  unfold Float64.toInt
  simp only
  split_ifs with h1 h2
  · have : q = 0 := le_antisymm h h1
    subst this; simp
  · unfold MinInt64; omega
  · exact Int.ceil_le.2 (by simpa using h)
  · unfold MinInt64; omega

theorem Sub_range (t u : Int) :
    -9223372036854775808 ≤ Auth.Time.Sub t u ∧ Auth.Time.Sub t u ≤ 9223372036854775807 := by
  rw [RateLimit.Sub_eq]
  unfold Auth.Duration
  split_ifs <;> constructor <;> omega

theorem Sub_max (t u : Int) (h : t - u < 16777216000000000) :
    Auth.Time.Sub t u < 16777216000000000 ∧ max 0 (Auth.Time.Sub t u) = max 0 (t - u) := by
  rw [RateLimit.Sub_eq]
  unfold Auth.Duration
  split_ifs with h1 h2
  · exact ⟨by omega, by rw [max_eq_left (by omega), max_eq_left (by omega)]⟩
  · omega
  · exact ⟨h, rfl⟩

/-- The two computations on an elapsed time `d`: both give 0 when `d` is negative, and else
both give the integer part of `Seconds()` of `d`. -/
theorem retryAfter_aux (d : Int) (hlo : -9223372036854775808 ≤ d)
    (hhi : d ≤ 9223372036854775807) :
    (Auth.Duration.Seconds (if d < 0 then 0 else d)).toInt
      = (if (Auth.Duration.Seconds d).toInt < 0 then 0 else (Auth.Duration.Seconds d).toInt) ∧
    0 ≤ (Auth.Duration.Seconds (if d < 0 then 0 else d)).toInt ∧
    max 0 d / 1000000000 ≤ (Auth.Duration.Seconds (if d < 0 then 0 else d)).toInt ∧
    (Auth.Duration.Seconds (if d < 0 then 0 else d)).toInt ≤ max 0 d / 1000000000 + 1 ∧
    (d < 16777216000000000 →
      (Auth.Duration.Seconds (if d < 0 then 0 else d)).toInt = max 0 d / 1000000000) := by
  by_cases hd : d < 0
  · obtain ⟨q, hq, hq0⟩ := Seconds_of_nonpos d (by omega) hlo
    have ht := toInt_of_nonpos hq0
    have hz : (Float64.finite (0 : ℚ)).toInt = 0 := by decide!
    have hm : max 0 d = 0 := max_eq_left (by omega)
    simp only [hd, ↓reduceIte, Seconds_zero, hq, hz, hm]
    refine ⟨?_, le_refl _, by norm_num, by norm_num, fun _ => by norm_num⟩
    split_ifs with h
    · rfl
    · omega
  · have hd0 : 0 ≤ d := not_lt.1 hd
    obtain ⟨q, hq, hq0, hq1, hq2⟩ := Seconds_of_nonneg d hd0 hhi
    have hs0 : (0 : Int) ≤ d / 1000000000 := by omega
    have hs1 : d / 1000000000 ≤ 9223372036 := by omega
    have hsq0 : (0 : ℚ) ≤ ((d / 1000000000 : Int) : ℚ) := by exact_mod_cast hs0
    obtain ⟨e, e0, e1⟩ := Float64.toInt_finite_of_nonneg (q := q) (n := d / 1000000000 + 1)
      (by linarith) (by push_cast; exact hq1) (by unfold MaxInt64; omega)
    have hfl : d / 1000000000 ≤ ⌊q⌋ := Int.le_floor.2 hq0
    have hm : max 0 d = d := max_eq_right hd0
    simp only [hd, ↓reduceIte, hq, e, hm]
    refine ⟨?_, e0, hfl, e1, fun hlt => ?_⟩
    · rw [if_neg (by omega)]
    · exact Int.floor_eq_iff.2 ⟨hq0, hq2 hlt⟩

/-- The two values at a reset time and a current time. -/
theorem retryAfter_eq (reset now : Int) :
    retryAfter reset now = Response.retryAfter reset now ∧
    0 ≤ retryAfter reset now ∧
    max 0 (Auth.Time.Sub reset now) / 1000000000 ≤ retryAfter reset now ∧
    retryAfter reset now ≤ max 0 (Auth.Time.Sub reset now) / 1000000000 + 1 ∧
    (reset - now < 16777216000000000 →
      retryAfter reset now = max 0 (reset - now) / 1000000000) := by
  obtain ⟨hlo, hhi⟩ := Sub_range reset now
  obtain ⟨h1, h2, h3, h4, h5⟩ := retryAfter_aux (Auth.Time.Sub reset now) hlo hhi
  refine ⟨h1, h2, h3, h4, fun hlt => ?_⟩
  obtain ⟨g1, g2⟩ := Sub_max reset now hlt
  rw [← g2]
  exact h5 g1

/-- C20 (as stated, refuted): the reset lies 16777216.999999999 s ahead. As a `float64` that
is 16777217, so both computations give 16777217, one more than the whole seconds of
`max(0, reset - now)`. -/
theorem C20_counterexample :
    retryAfter 16777216999999999 0 = 16777217 ∧
    Response.retryAfter 16777216999999999 0 = 16777217 ∧
    max 0 (16777216999999999 - 0 : Time) / Second = 16777216 ∧
    Auth.Duration.Seconds 16777216999999999 = .finite 16777217 := by
  refine ⟨by decide!, by decide!, by decide, by decide!⟩

/-- C20 (amended): for every reset time and every current time, the `Retry-After` value
computed by `setHeaders` (clamp the duration, then truncate to seconds) and the one computed by
`response.TooManyRequests` (truncate to seconds, then clamp) are equal, are never negative, and
both are the whole seconds of `max(0, reset - now)` or one more, `reset - now` being what
`Time.Sub` returns; they are exactly the whole seconds of `max(0, reset - now)` when
`reset - now` is less than `2 ^ 24` seconds. They are the values the two functions write to
the header (`setHeaders` when the answer is a denial). -/
theorem C20_retry_after_agree (reset now : Time) (c : GinContext)
    (info : RateLimit.RateLimitInfo) :
    retryAfter reset now = Response.retryAfter reset now ∧
    0 ≤ retryAfter reset now ∧ 0 ≤ Response.retryAfter reset now ∧
    max 0 (Auth.Time.Sub reset now) / Second ≤ retryAfter reset now ∧
    retryAfter reset now ≤ max 0 (Auth.Time.Sub reset now) / Second + 1 ∧
    (reset - now < 16777216 * Second →
      retryAfter reset now = max 0 (reset - now) / Second ∧
      Response.retryAfter reset now = max 0 (reset - now) / Second) ∧
    (setHeaders c now { info with Allowed := false }).GetHeader "Retry-After"
      = some (toString (retryAfter info.Reset now)) ∧
    (Response.TooManyRequests c now reset).GetHeader "Retry-After"
      = some (toString (Response.retryAfter reset now)) := by
  obtain ⟨h1, h2, h3, h4, h5⟩ := retryAfter_eq reset now
  refine ⟨h1, h2, h1 ▸ h2, h3, h4, fun hlt => ?_, ?_, ?_⟩
  · have := h5 hlt
    exact ⟨this, h1 ▸ this⟩
  · simp [setHeaders, GinContext.SetHeader, GinContext.GetHeader, List.lookup_cons]
  · simp [Response.TooManyRequests, GinContext.SetHeader, GinContext.GetHeader,
      GinContext.JSON, List.lookup_cons]

/-- C20 witness: the reset lies 50.5 s ahead: both values are 50. -/
theorem C20_retry_after_agree_witness :
    retryAfter (60 * Second + 500000000) (10 * Second) = 50 ∧
    Response.retryAfter (60 * Second + 500000000) (10 * Second) = 50 ∧
    (60 * Second + 500000000 : Time) - 10 * Second < 16777216 * Second ∧
    max 0 ((60 * Second + 500000000 : Time) - 10 * Second) / Second = 50 ∧
    (retryAfter (60 * Second + 500000000) (10 * Second)
        = max 0 ((60 * Second + 500000000 : Time) - 10 * Second) / Second ∧
      Response.retryAfter (60 * Second + 500000000) (10 * Second)
        = max 0 ((60 * Second + 500000000 : Time) - 10 * Second) / Second) :=
  ⟨by decide!, by decide!, by decide, by decide,
    (C20_retry_after_agree (60 * Second + 500000000) (10 * Second) demoRequest
      RateLimit.RateLimitInfo.zero).2.2.2.2.2.1 (by decide)⟩

end Middleware

/-! # Theorems on token types -/

namespace Settings

open Auth

/-- With equal access and refresh secrets, a refresh token minted by `IssueTokens` and not yet
expired is accepted by `ParseAccessToken` of a manager with the same configuration; the claims
returned are the refresh token's, of type "refresh". -/
theorem refresh_token_parses_as_access (mac : MAC) (m m2 : Manager) (ctx : Context) (env : Env)
    (u : User) (tokens : AuthTokens) (m' : Manager) (now : Time)
    (hissue : m.IssueTokens mac ctx env u = (.ok tokens, m'))
    (hcfg : m2.cfg = m.cfg)
    (hsecret : m.cfg.AccessSecret = m.cfg.RefreshSecret)
    (hexp : now < NumericDate.Time (NewNumericDate (env.refreshNow + m.cfg.RefreshTokenTTL))) :
    m2.ParseAccessToken mac now tokens.RefreshToken
      = .ok (m.refreshClaims env.refreshNow env.refreshID u) := by
  have htok : tokens.RefreshToken =
      HS256Token mac (m.refreshClaims env.refreshNow env.refreshID u) m.cfg.RefreshSecret := by
    rw [IssueTokens_eq] at hissue
    split at hissue
    · simp at hissue
    · simp only [Prod.mk.injEq, Except.ok.injEq] at hissue
      rw [← hissue.1]
  rw [htok, Manager.ParseAccessToken, hcfg, hsecret]
  apply parse_HS256Token
  · exact Validate_of_exp _ _ _ rfl rfl hexp
  · simp [Manager.refreshClaims, hcfg]

/-- With secrets under which the keyed hash of the refresh token differs, `ParseAccessToken`
refuses a refresh token minted by `IssueTokens`, with the signature error. -/
theorem refresh_token_refused_as_access (mac : MAC) (m m2 : Manager) (ctx : Context) (env : Env)
    (u : User) (tokens : AuthTokens) (m' : Manager) (now : Time)
    (hissue : m.IssueTokens mac ctx env u = (.ok tokens, m'))
    (hcfg : m2.cfg = m.cfg)
    (hmac : mac .SHA256 m.cfg.AccessSecret
        ⟨some "HS256", m.refreshClaims env.refreshNow env.refreshID u⟩
      ≠ mac .SHA256 m.cfg.RefreshSecret
        ⟨some "HS256", m.refreshClaims env.refreshNow env.refreshID u⟩) :
    m2.ParseAccessToken mac now tokens.RefreshToken = .error .tokenSignatureInvalid := by
  have htok : tokens.RefreshToken =
      HS256Token mac (m.refreshClaims env.refreshNow env.refreshID u) m.cfg.RefreshSecret := by
    rw [IssueTokens_eq] at hissue
    split at hissue
    · simp at hissue
    · simp only [Prod.mk.injEq, Except.ok.injEq] at hissue
      rw [← hissue.1]
  rw [htok, Manager.ParseAccessToken, hcfg, HS256Token]
  exact parse_bad_signature mac m2 now _ _ .SHA256 rfl hmac

/-- C26 (the code falls short of it): under the configuration defaults, where the access and
the refresh secret are both "change-me", `ParseAccessToken` accepts the refresh token that
`IssueTokens` minted, eight minutes after the issue, and returns its claims, whose type is
"refresh": `parse` never looks at the token type. -/
theorem C26_refresh_token_accepted_as_access :
    Load bareHost = .ok ⟨"postgres", defaultAuth⟩ ∧
    defaultAuth.AccessSecret = defaultAuth.RefreshSecret ∧
    (∃ tokens m', defaultManager.IssueTokens demoMAC .Background demoEnv demoUser
        = (.ok tokens, m') ∧ tokens.RefreshToken = defaultRefresh ∧
      m'.ParseAccessToken demoMAC (1500 * Second) defaultRefresh
        = .ok (defaultManager.refreshClaims (1000 * Second) "r1" demoUser)) ∧
    (defaultManager.refreshClaims (1000 * Second) "r1" demoUser).TokenType = "refresh" :=
  ⟨by rfl, by rfl, ⟨_, _, rfl, rfl,
    refresh_token_parses_as_access demoMAC defaultManager _ .Background demoEnv demoUser _ _
      (1500 * Second) rfl rfl rfl (by decide)⟩, by rfl⟩

end Settings

/-! # Theorems on the reported remaining count -/

namespace RateLimit

open Auth
open Go (Float64 wrap64 roundQ MinInt64 MaxInt64)

/-- On a key that already has a bucket, an allowed call reports as `Remaining` the integer part
of the token count it leaves in the bucket. -/
theorem Allow_existing_remaining (m : MemoryLimiter) (ctx : Context) (now : Time) (key : String)
    (b : bucket) (hb : m.store key = some b)
    (hallow : (m.Allow ctx now key).1.1.Allowed = true) :
    ∃ b', (m.Allow ctx now key).2.store key = some b' ∧
      (m.Allow ctx now key).1.1.Remaining = b'.tokens.toInt := by
  unfold MemoryLimiter.Allow at hallow ⊢
  simp only [hb] at hallow ⊢
  split
  · exact ⟨_, setBucket_store_self _ _ _, rfl⟩
  · rename_i h
    rw [if_neg h] at hallow
    simp at hallow

/-- On a key without bucket, with `limit ≥ 1`, `burst ≥ 0` and `limit + burst ≤ 2 ^ 53`, the
call is allowed and reports `Remaining = limit - 1`, while the bucket it creates holds
`limit + burst - 1` tokens: the two differ by `burst`. -/
theorem Allow_fresh_remaining (m : MemoryLimiter) (ctx : Context) (now : Time) (key : String)
    (hl : 1 ≤ m.limit) (hb : 0 ≤ m.burst) (hsmall : m.limit + m.burst ≤ 9007199254740992)
    (hfresh : m.store key = none) :
    (m.Allow ctx now key).1.1.Allowed = true ∧
    (m.Allow ctx now key).1.1.Remaining = m.limit - 1 ∧
    (m.Allow ctx now key).2.store key
      = some ⟨.finite ((m.limit + m.burst - 1 : Int) : ℚ), now⟩ ∧
    (Float64.finite ((m.limit + m.burst - 1 : Int) : ℚ)).toInt
      = (m.Allow ctx now key).1.1.Remaining + m.burst := by
  obtain ⟨heq, -, -⟩ := Allow_first_call m ctx now key hfresh (by omega) (by omega)
  have hw : wrap64 (m.limit - 1) = m.limit - 1 :=
    Go.wrap64_of_range (by unfold MinInt64; omega) (by unfold MaxInt64; omega)
  have hr : roundQ ((m.limit + m.burst - 1 : Int) : ℚ) = ((m.limit + m.burst - 1 : Int) : ℚ) :=
    Go.roundQ_intCast _ (by omega) (by omega)
  have hti : (Float64.finite ((m.limit + m.burst - 1 : Int) : ℚ)).toInt = m.limit + m.burst - 1 :=
    Float64.toInt_intCast _ (by unfold MinInt64; omega) (by unfold MaxInt64; omega)
  rw [heq, hw, hr, hti]
  exact ⟨rfl, rfl, setBucket_store_self _ _ _, by simp only; ring⟩

/-- C27 (the code falls short of it): `limit = 60`, `burst = 5`, the configuration defaults,
and a fresh key. The first call is allowed and reports `Remaining = 59` although it leaves 64
tokens in the bucket; a second call is allowed and reports `Remaining = 63`, the integer part
of what it leaves, both when no time has elapsed (63 tokens left) and one millisecond later
(63 and a thousandth, as a `float64` 2216650625968505 / 2 ^ 45): `Remaining` went up from one
allowed call to the next. -/
theorem C27_first_call_reports_less_than_bucket :
    ((NewMemoryLimiter 60 5).Allow .Background 0 "k").1.1 = ⟨true, 60, 59, Minute⟩ ∧
    ((NewMemoryLimiter 60 5).Allow .Background 0 "k").2.store "k" = some ⟨.finite 64, 0⟩ ∧
    (Float64.finite 64).toInt = 64 ∧
    (((NewMemoryLimiter 60 5).Allow .Background 0 "k").2.Allow .Background 0 "k").1.1
      = ⟨true, 60, 63, Minute⟩ ∧
    (((NewMemoryLimiter 60 5).Allow .Background 0 "k").2.Allow .Background 0 "k").2.store "k"
      = some ⟨.finite 63, 0⟩ ∧
    ((NewMemoryLimiter 60 5).Allow .Background 0 "k").1.1.Remaining <
      (((NewMemoryLimiter 60 5).Allow .Background 0 "k").2.Allow .Background 0
        "k").1.1.Remaining ∧
    (((NewMemoryLimiter 60 5).Allow .Background 0 "k").2.Allow .Background 1000000 "k").1.1
      = ⟨true, 60, 63, 1000000 + Minute⟩ ∧
    (((NewMemoryLimiter 60 5).Allow .Background 0 "k").2.Allow .Background 1000000
      "k").2.store "k" = some ⟨.finite (2216650625968505 / 35184372088832), 1000000⟩ ∧
    (63 : ℚ) + 1 / 1000 < 2216650625968505 / 35184372088832 ∧
    (2216650625968505 / 35184372088832 : ℚ) < 63 + 1 / 1000 + 1 / 100000000000000 := by
  refine ⟨by decide!, by decide!, by decide!, by decide!, by decide!, by decide!, by decide!,
    by decide!, by norm_num, by norm_num⟩

end RateLimit

/-! # Theorems on the log buffer -/

namespace Diagnostics

theorem getD_set_self (h : Heap) (i : Nat) (a : List String) (hi : i < h.length) :
    (h.set i a).getD i [] = a := by
  simp [List.getD, hi]

theorem getD_set_other (h : Heap) (i j : Nat) (a : List String) (hij : i ≠ j) :
    (h.set i a).getD j [] = h.getD j [] := by
  simp [List.getD, List.getElem?_set, hij]

theorem getD_append_left (h : Heap) (a : List String) (i : Nat) (hi : i < h.length) :
    (h ++ [a]).getD i [] = h.getD i [] := by
  simp [List.getD, List.getElem?_append_left hi]

theorem getD_append_new (h : Heap) (a : List String) :
    (h ++ [a]).getD h.length [] = a := by
  simp [List.getD]

theorem take_set_snoc (a : List String) (len : Nat) (e : String) (hlen : len < a.length) :
    (a.set len e).take (len + 1) = a.take len ++ [e] := by
  induction len generalizing a with
  | zero =>
    cases a with
    | nil => simp at hlen
    | cons x xs => simp
  | succ n ih =>
    cases a with
    | nil => simp at hlen
    | cons x xs =>
      have hn : n < xs.length := by simpa using hlen
      simp [ih xs hn]

theorem take_drop_set_snoc (a : List String) (off len : Nat) (e : String)
    (hlen : off + len < a.length) :
    ((a.set (off + len) e).drop off).take (len + 1) = (a.drop off).take len ++ [e] := by
  induction off generalizing a with
  | zero => simpa using take_set_snoc a len e (by simpa using hlen)
  | succ n ih =>
    cases a with
    | nil => simp at hlen
    | cons x xs =>
      have hn : n + len < xs.length := by simp at hlen; omega
      have he : n + 1 + len = (n + len) + 1 := by omega
      rw [he, List.set_cons_succ, List.drop_succ_cons, List.drop_succ_cons]
      exact ih xs hn

theorem drop_take_tail (a : List String) (off len : Nat) :
    (a.drop (off + 1)).take (len - 1) = ((a.drop off).take len).drop 1 := by
  rw [List.drop_take, List.drop_drop]

end Diagnostics

namespace Diagnostics

theorem elems_length (h : Heap) (s : Slice) (hs : s.within h) : (h.elems s).length = s.len := by
  obtain ⟨_, hcap, hlen⟩ := hs
  simp only [Heap.elems, List.length_take, List.length_drop]
  omega

theorem append_spec (grow : Nat → Nat) (h : Heap) (s : Slice) (e : String) (hs : s.within h) :
    (append grow h s e).1.within (append grow h s e).2 ∧
    (append grow h s e).2.elems (append grow h s e).1 = h.elems s ++ [e] ∧
    (append grow h s e).1.len = s.len + 1 := by
  have hl := elems_length h s hs
  obtain ⟨harr, hcap, hlen⟩ := hs
  unfold append
  split
  · rename_i hroom
    refine ⟨⟨by simpa using harr, ?_, by simp only; omega⟩, ?_, rfl⟩
    · simp only [getD_set_self h _ _ harr, List.length_set]
      exact hcap
    · simp only [Heap.elems, getD_set_self h _ _ harr]
      exact take_drop_set_snoc _ _ _ _ (by omega)
  · refine ⟨⟨by simp, ?_, by simp only; omega⟩, ?_, rfl⟩
    · simp only [getD_append_new, List.length_append, List.length_replicate, hl,
        List.length_singleton]
      omega
    · simp only [Heap.elems, getD_append_new, List.drop_zero]
      rw [List.append_assoc, ← List.append_assoc (List.take _ _), List.take_append_eq_append_take]
      have hl2 : (List.take s.len (List.drop s.off (h.getD s.arr [])) ++ [e]).length
          = s.len + 1 := by
        simp only [Heap.elems] at hl
        rw [List.length_append, hl, List.length_singleton]
      rw [List.take_of_length_le (by omega), hl2]
      simp

theorem reslice_within (h : Heap) (s : Slice) (hs : s.within h) (hpos : s.len ≠ 0) :
    Slice.within ⟨s.arr, s.off + 1, s.len - 1, s.cap - 1⟩ h ∧
    h.elems ⟨s.arr, s.off + 1, s.len - 1, s.cap - 1⟩ = (h.elems s).drop 1 := by
  obtain ⟨harr, hcap, hlen⟩ := hs
  refine ⟨⟨harr, by simp only; omega, by simp only; omega⟩, ?_⟩
  simp only [Heap.elems]
  exact drop_take_tail _ _ _

theorem Append_spec (grow : Nat → Nat) (b : LogBuffer) (h : Heap) (e : String)
    (hs : b.data.within h) (hc : 1 ≤ b.cap) :
    ∃ b' h', b.Append grow h e = some (b', h') ∧ b'.cap = b.cap ∧ b'.data.within h' ∧
      h'.elems b'.data =
        (if (b.data.len : Int) ≥ b.cap then (h.elems b.data).drop 1 else h.elems b.data)
          ++ [e] := by
  unfold LogBuffer.Append
  by_cases hfull : (b.data.len : Int) ≥ b.cap
  · have hpos : b.data.len ≠ 0 := by omega
    obtain ⟨hw, he⟩ := reslice_within h b.data hs hpos
    obtain ⟨h1, h2, _⟩ := append_spec grow h _ e hw
    simp only [hfull, hpos, ↓reduceIte]
    exact ⟨_, _, rfl, rfl, h1, by rw [h2, he]⟩
  · obtain ⟨h1, h2, _⟩ := append_spec grow h _ e hs
    simp only [hfull, ↓reduceIte]
    exact ⟨_, _, rfl, rfl, h1, h2⟩

theorem lastN_snoc (c : Nat) (hc : 1 ≤ c) (all : List String) (e : String) :
    (all ++ [e]).drop ((all ++ [e]).length - c) =
      (if all.length ≥ c then (all.drop (all.length - c)).drop 1
        else all.drop (all.length - c)) ++ [e] := by
  by_cases hfull : all.length ≥ c
  · simp only [hfull, ↓reduceIte, List.drop_drop, List.length_append, List.length_singleton]
    have h1 : all.length + 1 - c = all.length - c + 1 := by omega
    rw [h1, List.drop_append_of_le_length (by omega)]
  · simp only [hfull, ↓reduceIte, List.length_append, List.length_singleton]
    have h1 : all.length + 1 - c = 0 := by omega
    have h2 : all.length - c = 0 := by omega
    rw [h1, h2]
    simp

theorem appendAll_spec (grow : Nat → Nat) (c : Nat) (hc : 1 ≤ c) (es : List String) :
    ∀ (all : List String) (b : LogBuffer) (h : Heap), b.cap = (c : Int) → b.data.within h →
      h.elems b.data = all.drop (all.length - c) →
      ∃ b' h', b.appendAll grow h es = some (b', h') ∧ b'.cap = (c : Int) ∧
        b'.data.within h' ∧
        h'.elems b'.data = (all ++ es).drop ((all ++ es).length - c) := by
  induction es with
  | nil =>
    intro all b h hcap hs he
    exact ⟨b, h, rfl, hcap, hs, by simpa using he⟩
  | cons e rest ih =>
    intro all b h hcap hs he
    obtain ⟨b1, h1, hA, hcap1, hs1, he1⟩ := Append_spec grow b h e hs (by omega)
    have hlen : b.data.len = (all.drop (all.length - c)).length := by
      rw [← he, elems_length h _ hs]
    have hcond : ((b.data.len : Int) ≥ b.cap) ↔ all.length ≥ c := by
      rw [hlen, hcap, List.length_drop]
      omega
    have he2 : h1.elems b1.data = (all ++ [e]).drop ((all ++ [e]).length - c) := by
      rw [he1, lastN_snoc c hc, he]
      by_cases hf : all.length ≥ c
      · simp [hf, hcond.2 hf]
      · have : ¬ ((b.data.len : Int) ≥ b.cap) := fun hh => hf (hcond.1 hh)
        simp [hf, this]
    obtain ⟨b2, h2, hB, hcap2, hs2, he3⟩ := ih (all ++ [e]) b1 h1 (hcap1.trans hcap) hs1 he2
    refine ⟨b2, h2, ?_, hcap2, hs2, by simpa using he3⟩
    simp only [LogBuffer.appendAll, hA]
    exact hB

end Diagnostics

namespace Diagnostics

theorem set_append_new (h : Heap) (a x : List String) :
    (h ++ [a]).set h.length x = h ++ [x] := by
  induction h with
  | nil => rfl
  | cons y ys ih => simp [ih]

theorem Snapshot_eq (b : LogBuffer) (h : Heap) (hs : b.data.within h) :
    b.Snapshot h = (⟨h.length, 0, b.data.len, b.data.len⟩, h ++ [h.elems b.data]) := by
  have hl := elems_length h _ hs
  have he : (h ++ [List.replicate b.data.len ""]).elems b.data = h.elems b.data := by
    simp only [Heap.elems, getD_append_left h _ _ hs.1]
  simp only [LogBuffer.Snapshot, make, copy, he, getD_append_new, List.take_zero,
    List.nil_append, Nat.min_self, Nat.zero_add]
  rw [List.take_of_length_le (by omega), List.drop_of_length_le (by simp), List.append_nil,
    set_append_new]

theorem Snapshot_spec (b : LogBuffer) (h : Heap) (hs : b.data.within h) :
    (b.Snapshot h).2.elems (b.Snapshot h).1 = h.elems b.data ∧
    (b.Snapshot h).2.elems b.data = h.elems b.data ∧
    b.data.within (b.Snapshot h).2 := by
  have hl := elems_length h _ hs
  rw [Snapshot_eq b h hs]
  refine ⟨?_, ?_, ?_⟩
  · simp only [Heap.elems, getD_append_new, List.drop_zero]
    exact List.take_of_length_le (by simp only [Heap.elems] at hl; omega)
  · simp only [Heap.elems, getD_append_left h _ _ hs.1]
  · obtain ⟨h1, h2, h3⟩ := hs
    refine ⟨by simp; omega, ?_, h3⟩
    rw [getD_append_left h _ _ h1]
    exact h2

theorem setIndex_snapshot (b : LogBuffer) (h : Heap) (hs : b.data.within h) (i : Nat)
    (v : String) :
    (b.Snapshot h).2.setIndex (b.Snapshot h).1 i v =
      if i < b.data.len then some (h ++ [(h.elems b.data).set i v]) else none := by
  rw [Snapshot_eq b h hs]
  simp only [Heap.setIndex, getD_append_new, Nat.zero_add, set_append_new]

end Diagnostics

namespace Diagnostics

theorem NewLogBuffer_spec (h0 : Heap) (limit : Int) :
    (NewLogBuffer h0 limit).1.cap = (if limit ≤ 0 then 100 else limit) ∧
    (1 : Int) ≤ (NewLogBuffer h0 limit).1.cap ∧
    (NewLogBuffer h0 limit).1.data.within (NewLogBuffer h0 limit).2 ∧
    (NewLogBuffer h0 limit).2.elems (NewLogBuffer h0 limit).1.data = [] := by
  simp only [NewLogBuffer, make, Heap.elems, List.take_zero, Slice.within, getD_append_new,
    List.length_append, List.length_replicate, List.length_singleton]
  refine ⟨trivial, ?_, ⟨by omega, by omega, by omega⟩, trivial⟩
  split <;> omega

/-- C29: for every `LogBuffer` built by `NewLogBuffer` with limit `c` (`c ≤ 0` meaning 100),
on any heap and whatever spare room `append` allocates, every sequence of `n` `Append` calls
runs without panic; afterwards the buffer's length is at most its capacity, `Snapshot` returns
exactly the last `min(n, c)` appended entries in append order and leaves the buffer's elements
as they are, and an assignment to an element of the returned slice panics exactly when the index
is out of range and otherwise changes neither the buffer's elements nor what the next
`Snapshot` returns. -/
theorem C29_snapshot_returns_last_entries (grow : Nat → Nat) (h0 : Heap) (limit : Int)
    (es : List String) :
    ∃ b h, (NewLogBuffer h0 limit).1.appendAll grow (NewLogBuffer h0 limit).2 es = some (b, h) ∧
      b.cap = (if limit ≤ 0 then 100 else limit) ∧
      (b.data.len : Int) ≤ b.cap ∧
      (b.Snapshot h).2.elems (b.Snapshot h).1
        = es.drop (es.length - Nat.min es.length b.cap.toNat) ∧
      (b.Snapshot h).2.elems b.data = h.elems b.data ∧
      ∀ (i : Nat) (v : String),
        match (b.Snapshot h).2.setIndex (b.Snapshot h).1 i v with
        | none => b.data.len ≤ i
        | some h' => h'.elems b.data = h.elems b.data ∧
            (b.Snapshot h').2.elems (b.Snapshot h').1 = h.elems b.data := by
  obtain ⟨hcap, hpos, hw, he⟩ := NewLogBuffer_spec h0 limit
  have hc : (NewLogBuffer h0 limit).1.cap = (((NewLogBuffer h0 limit).1.cap.toNat : Nat) : Int) :=
    (Int.toNat_of_nonneg (by omega)).symm
  obtain ⟨b, h, hrun, hbc, hbw, hbe⟩ := appendAll_spec grow (NewLogBuffer h0 limit).1.cap.toNat
    (by omega) es [] _ _ hc hw (by simpa using he)
  have hbcap : b.cap = (NewLogBuffer h0 limit).1.cap := hbc.trans hc.symm
  have hdrop : es.length - Nat.min es.length b.cap.toNat = es.length - b.cap.toNat := by
    have h1 : Nat.min es.length b.cap.toNat ≤ b.cap.toNat := Nat.min_le_right _ _
    have h2 : Nat.min es.length b.cap.toNat ≤ es.length := Nat.min_le_left _ _
    have h3 : es.length ≤ Nat.min es.length b.cap.toNat ∨
        b.cap.toNat ≤ Nat.min es.length b.cap.toNat := by
      rcases Nat.le_total es.length b.cap.toNat with h | h
      · exact Or.inl (Nat.le_min.2 ⟨le_refl _, h⟩)
      · exact Or.inr (Nat.le_min.2 ⟨h, le_refl _⟩)
    omega
  have hbe2 : h.elems b.data = es.drop (es.length - Nat.min es.length b.cap.toNat) := by
    rw [hdrop, hbe, hbcap]
    simp
  have hlen : (b.data.len : Int) ≤ b.cap := by
    have h1 := elems_length h _ hbw
    rw [hbe, List.length_drop] at h1
    simp only [List.nil_append] at h1
    omega
  obtain ⟨hs1, hs2, _⟩ := Snapshot_spec b h hbw
  refine ⟨b, h, hrun, hbcap.trans hcap, hlen, hs1.trans hbe2, hs2, ?_⟩
  intro i v
  rw [setIndex_snapshot b h hbw]
  by_cases hi : i < b.data.len
  · simp only [hi, ↓reduceIte]
    have hw2 : b.data.within (h ++ [(h.elems b.data).set i v]) := by
      obtain ⟨h1, h2, h3⟩ := hbw
      refine ⟨by simp; omega, ?_, h3⟩
      rw [getD_append_left h _ _ h1]
      exact h2
    have he2 : (h ++ [(h.elems b.data).set i v]).elems b.data = h.elems b.data := by
      simp only [Heap.elems, getD_append_left h _ _ hbw.1]
    exact ⟨he2, (Snapshot_spec b _ hw2).1.trans he2⟩
  · simp only [hi, ↓reduceIte]
    omega

end Diagnostics

namespace Diagnostics

/-- An evaluation: capacity 2, entries `a`, `b`, `c`: the snapshot holds `b` and `c`, and the
third `Append` moved the buffer to a new array. -/
theorem appendAll_example :
    ((NewLogBuffer [] 2).1.appendAll doubling (NewLogBuffer [] 2).2 ["a", "b", "c"]).map
        (fun r => ((r.1.Snapshot r.2).2.elems (r.1.Snapshot r.2).1, r.1.data.arr))
      = some (["b", "c"], 1) := by
  decide

end Diagnostics

/-! # Theorems on the user service -/

namespace UserService

open Auth (Err Context UUID Time TokenString AuthTokens)

variable {ρ τ : Type}

/-- C21: every failure of `Service.Refresh` is reported as `ErrInvalidToken` with no response.
Whether `ExtractUserID` fails, the lookup by ID reports an error or returns no user, or
`RefreshTokens` fails, with whatever error (a storage error included), the result is the error
`ErrInvalidToken`, and the repository is left as it was; and no other error ever comes out of
`Refresh`. -/
theorem C21_refresh_failures_are_invalid_token (s : Service ρ τ) (r : ρ) (t : τ) (ctx : Context)
    (token : TokenString)
    (hfail : (∃ e, s.tokens.ExtractUserID t token = .error e) ∨
      ∃ id, s.tokens.ExtractUserID t token = .ok id ∧
        ((s.repo.GetByID r ctx id).2 ≠ none ∨ (s.repo.GetByID r ctx id).1 = none ∨
          ∃ u e, s.repo.GetByID r ctx id = (some u, none) ∧
            (s.tokens.RefreshTokens t ctx u token).1 = .error e)) :
    (s.Refresh r t ctx token).result = .error ErrInvalidToken ∧
    (s.Refresh r t ctx token).repo = r ∧
    ∀ e, (s.Refresh r t ctx token).result = .error e → e = ErrInvalidToken := by
  have hall : ∀ e, (s.Refresh r t ctx token).result = .error e → e = ErrInvalidToken := by
    intro e he
    unfold Service.Refresh at he
    split at he
    · simpa using he.symm
    · split at he
      · split at he
        · simpa using he.symm
        · simp at he
      · simpa using he.symm
  have hrepo : (s.Refresh r t ctx token).repo = r := by
    unfold Service.Refresh
    split
    · rfl
    · split
      · split <;> rfl
      · rfl
  refine ⟨?_, hrepo, hall⟩
  unfold Service.Refresh
  rcases hfail with ⟨e, he⟩ | ⟨id, hid, hrest⟩
  · simp only [he]
  · simp only [hid]
    rcases hrest with h | h | ⟨u, e, hu, he⟩
    · split
      · rename_i heq
        rw [heq] at h
        exact absurd rfl h
      · rfl
    · split
      · rename_i heq
        rw [heq] at h
        simp at h
      · rfl
    · simp only [hu]
      split
      · rfl
      · rename_i heq
        rw [heq] at he
        simp at he

/-- C21 witness: the token manager of package `auth` on a shared store whose get command
fails. The refresh token is well signed and the user is found, `RefreshTokens` fails with the
storage error "i/o timeout", and `Refresh` reports `ErrInvalidToken`. -/
theorem C21_refresh_failures_are_invalid_token_witness :
    ((∃ e, demoWired.tokens.ExtractUserID Auth.demoSharedIssued Auth.demoTokens.RefreshToken
        = .error e) ∨
      ∃ id, demoWired.tokens.ExtractUserID Auth.demoSharedIssued Auth.demoTokens.RefreshToken
          = .ok id ∧
        ((demoWired.repo.GetByID demoRepo .Background id).2 ≠ none ∨
          (demoWired.repo.GetByID demoRepo .Background id).1 = none ∨
          ∃ u e, demoWired.repo.GetByID demoRepo .Background id = (some u, none) ∧
            (demoWired.tokens.RefreshTokens Auth.demoSharedIssued .Background u
              Auth.demoTokens.RefreshToken).1 = .error e)) ∧
    (demoWired.tokens.RefreshTokens Auth.demoSharedIssued .Background demoStored
      Auth.demoTokens.RefreshToken).1 = .error (.storage "i/o timeout") ∧
    (demoWired.Refresh demoRepo Auth.demoSharedIssued .Background
      Auth.demoTokens.RefreshToken).result = .error ErrInvalidToken ∧
    (demoWired.Refresh demoRepo Auth.demoSharedIssued .Background
      Auth.demoTokens.RefreshToken).repo = demoRepo ∧
    ∀ e, (demoWired.Refresh demoRepo Auth.demoSharedIssued .Background
      Auth.demoTokens.RefreshToken).result = .error e → e = ErrInvalidToken :=
  have hfail : (∃ e, demoWired.tokens.ExtractUserID Auth.demoSharedIssued
        Auth.demoTokens.RefreshToken = .error e) ∨
      ∃ id, demoWired.tokens.ExtractUserID Auth.demoSharedIssued Auth.demoTokens.RefreshToken
          = .ok id ∧
        ((demoWired.repo.GetByID demoRepo .Background id).2 ≠ none ∨
          (demoWired.repo.GetByID demoRepo .Background id).1 = none ∨
          ∃ u e, demoWired.repo.GetByID demoRepo .Background id = (some u, none) ∧
            (demoWired.tokens.RefreshTokens Auth.demoSharedIssued .Background u
              Auth.demoTokens.RefreshToken).1 = .error e) :=
    Or.inr ⟨"u1", rfl, Or.inr (Or.inr ⟨demoStored, .storage "i/o timeout", rfl, rfl⟩)⟩
  ⟨hfail, rfl,
    C21_refresh_failures_are_invalid_token demoWired demoRepo Auth.demoSharedIssued .Background
      Auth.demoTokens.RefreshToken hfail⟩

end UserService

namespace UserService

open Auth (Err Context UUID Time TokenString AuthTokens)

variable {ρ τ : Type}

/-- The method `Register` once signup is allowed and the trimmed request has passed validation,
in terms of `RegisterRequest.trimmed` and `newUser`. -/
theorem Register_valid (lib : Lib) (s : Service ρ τ) (r : ρ) (t : τ) (ctx : Context) (env : Env)
    (req : RegisterRequest) (hsignup : s.allowSignup = true)
    (hvalid : s.validator.Register (req.trimmed lib s.sanitizer) = none) :
    s.Register lib r t ctx env req =
      match s.repo.GetByEmail r ctx (lib.ToLower (lib.TrimSpace req.Email)) with
      | (some _, none) =>
        ⟨.error ErrDuplicateEmail, r, t, [.GetByEmail (lib.ToLower (lib.TrimSpace req.Email))]⟩
      | _ =>
        match lib.GenerateFromPassword (lib.TrimSpace req.Password) with
        | .error err => ⟨.error err, r, t, [.GetByEmail (lib.ToLower (lib.TrimSpace req.Email))]⟩
        | .ok hash =>
          match s.repo.Create r ctx (newUser lib env (req.trimmed lib s.sanitizer) hash) with
          | (some err, r') =>
            if lib.Is err ErrDuplicateEmail then
              ⟨.error ErrDuplicateEmail, r', t,
                [.GetByEmail (lib.ToLower (lib.TrimSpace req.Email)),
                  .Create (newUser lib env (req.trimmed lib s.sanitizer) hash)]⟩
            else
              ⟨.error err, r', t,
                [.GetByEmail (lib.ToLower (lib.TrimSpace req.Email)),
                  .Create (newUser lib env (req.trimmed lib s.sanitizer) hash)]⟩
          | (none, r') =>
            match s.tokens.IssueTokens t ctx (newUser lib env (req.trimmed lib s.sanitizer) hash)
            with
            | (.error err, t') =>
              ⟨.error err, r', t',
                [.GetByEmail (lib.ToLower (lib.TrimSpace req.Email)),
                  .Create (newUser lib env (req.trimmed lib s.sanitizer) hash),
                  .IssueTokens (newUser lib env (req.trimmed lib s.sanitizer) hash)]⟩
            | (.ok tokens, t') =>
              ⟨.ok ⟨newUser lib env (req.trimmed lib s.sanitizer) hash, tokens⟩, r', t',
                [.GetByEmail (lib.ToLower (lib.TrimSpace req.Email)),
                  .Create (newUser lib env (req.trimmed lib s.sanitizer) hash),
                  .IssueTokens (newUser lib env (req.trimmed lib s.sanitizer) hash)]⟩ := by
  have hvalid2 : s.validator.Register
      { req with
        Email := lib.TrimSpace req.Email
        Password := lib.TrimSpace req.Password
        Name := lib.TrimSpace (s.sanitizer req.Name) } = none := hvalid
  unfold Service.Register
  simp only [hsignup, Bool.not_true, Bool.false_eq_true, ↓reduceIte, hvalid2]
  rfl

/-- C22: when the service is built with `allowSignup = false`, `Register` returns
`ErrRegistrationDisabled` for every request, whatever the library functions, validator and
surroundings, and before any side effect: the repository and the token manager are left as
they were and no method of either is called, neither a read nor a write nor `IssueTokens`. -/
theorem C22_signup_disabled_no_side_effect (lib : Lib) (s : Service ρ τ) (r : ρ) (t : τ)
    (ctx : Context) (env : Env) (req : RegisterRequest) (hclosed : s.allowSignup = false) :
    s.Register lib r t ctx env req = ⟨.error ErrRegistrationDisabled, r, t, []⟩ := by
  unfold Service.Register
  simp [hclosed]

/-- C22 witness: the service of `TestRegisterDisabled` and a request that would else pass. -/
theorem C22_signup_disabled_no_side_effect_witness :
    demoClosed.allowSignup = false ∧
    demoClosed.Register demoLib newFakeRepo ⟨uuidNil⟩ .Background demoEnv demoRegister
      = ⟨.error ErrRegistrationDisabled, newFakeRepo, ⟨uuidNil⟩, []⟩ :=
  ⟨rfl, C22_signup_disabled_no_side_effect demoLib demoClosed newFakeRepo ⟨uuidNil⟩ .Background
    demoEnv demoRegister rfl⟩

/-- C23 (as stated, refuted): on a service built with `allowSignup = false`, a request that
passes validation and whose trimmed, lower-cased email belongs to the stored user `demoStored`
is answered `ErrRegistrationDisabled`, not `ErrDuplicateEmail`: the signup switch is looked at
first. -/
theorem C23_counterexample :
    demoClosed.validator.Register
      (RegisterRequest.trimmed demoLib demoClosed.sanitizer
        ⟨" DEMO@example.COM ", "Passw0rd!", "Other", ""⟩) = none ∧
    demoClosed.repo.GetByEmail demoRepo .Background
      (demoLib.ToLower (demoLib.TrimSpace " DEMO@example.COM ")) = (some demoStored, none) ∧
    (demoClosed.Register demoLib demoRepo ⟨uuidNil⟩ .Background demoEnv
        ⟨" DEMO@example.COM ", "Passw0rd!", "Other", ""⟩).result
      = .error ErrRegistrationDisabled ∧
    ErrRegistrationDisabled ≠ ErrDuplicateEmail :=
  ⟨by decide, by decide, by rfl, by decide⟩

/-- C23 (amended): with signup allowed, for every registration request that passes validation
and whose trimmed, lower-cased email the repository finds (`GetByEmail` returns a user and no
error), whatever the letter case of the request's email, `Register` returns
`ErrDuplicateEmail`; the repository and the token manager are left as they were, and the only
call made is that `GetByEmail`: nothing is stored and no tokens are issued. -/
theorem C23_duplicate_email_rejected (lib : Lib) (s : Service ρ τ) (r : ρ) (t : τ)
    (ctx : Context) (env : Env) (req : RegisterRequest) (existing : User)
    (hsignup : s.allowSignup = true)
    (hvalid : s.validator.Register (req.trimmed lib s.sanitizer) = none)
    (hfound : s.repo.GetByEmail r ctx (lib.ToLower (lib.TrimSpace req.Email))
      = (some existing, none)) :
    s.Register lib r t ctx env req =
      ⟨.error ErrDuplicateEmail, r, t,
        [.GetByEmail (lib.ToLower (lib.TrimSpace req.Email))]⟩ := by
  rw [Register_valid lib s r t ctx env req hsignup hvalid, hfound]

/-- C23 witness: `demoStored` is stored under "demo@example.com"; a request for
" DEMO@example.COM " is refused and the repository still holds one user. -/
theorem C23_duplicate_email_rejected_witness :
    demoService.allowSignup = true ∧
    demoService.validator.Register
      (RegisterRequest.trimmed demoLib demoService.sanitizer
        ⟨" DEMO@example.COM ", "Passw0rd!", "Other", ""⟩) = none ∧
    demoService.repo.GetByEmail demoRepo .Background
      (demoLib.ToLower (demoLib.TrimSpace " DEMO@example.COM ")) = (some demoStored, none) ∧
    demoService.Register demoLib demoRepo ⟨uuidNil⟩ .Background demoEnv
        ⟨" DEMO@example.COM ", "Passw0rd!", "Other", ""⟩ =
      ⟨.error ErrDuplicateEmail, demoRepo, ⟨uuidNil⟩,
        [.GetByEmail (demoLib.ToLower (demoLib.TrimSpace " DEMO@example.COM "))]⟩ ∧
    demoLib.ToLower (demoLib.TrimSpace " DEMO@example.COM ") = "demo@example.com" ∧
    demoRepo.count = 1 :=
  ⟨rfl, by decide, by decide,
    C23_duplicate_email_rejected demoLib demoService demoRepo ⟨uuidNil⟩ .Background demoEnv
      ⟨" DEMO@example.COM ", "Passw0rd!", "Other", ""⟩ demoStored rfl (by decide) (by decide),
    by decide, rfl⟩

end UserService

namespace UserService

open Auth (Err Context UUID Time TokenString AuthTokens)

variable {ρ τ : Type}

/-- C24: for every login request that passes validation, `Login` returns `ErrInvalidCreds`
both when the repository gives no user for the trimmed, lower-cased email (an error or a nil
user) and when the trimmed password does not verify against the stored hash. The outcome is
the same in the two cases: the repository and the token manager are left as they were and the
only call made is `GetByEmail`, so no tokens are issued and the stored user is not updated. -/
theorem C24_login_failures_indistinguishable (lib : Lib) (s : Service ρ τ) (r : ρ) (t : τ)
    (ctx : Context) (env : Env) (req : LoginRequest)
    (hvalid : s.validator.Login (req.trimmed lib) = none)
    (hcase : (∀ u, s.repo.GetByEmail r ctx (lib.ToLower (lib.TrimSpace req.Email))
        ≠ (some u, none)) ∨
      ∃ u e, s.repo.GetByEmail r ctx (lib.ToLower (lib.TrimSpace req.Email)) = (some u, none) ∧
        lib.CompareHashAndPassword u.PasswordHash (lib.TrimSpace req.Password) = some e) :
    s.Login lib r t ctx env req =
      ⟨.error ErrInvalidCreds, r, t, [.GetByEmail (lib.ToLower (lib.TrimSpace req.Email))]⟩ := by
  have hvalid2 : s.validator.Login
      { req with Email := lib.TrimSpace req.Email, Password := lib.TrimSpace req.Password }
        = none := hvalid
  unfold Service.Login
  simp only [hvalid2]
  rcases hcase with hnone | ⟨u, e, hu, hpw⟩
  · split
    · rename_i u heq
      exact absurd heq (hnone u)
    · rfl
  · simp only [hu, hpw]

/-- C24 witness: against the repository holding `demoStored`, a login with a wrong password
and a login for an unknown email end the same way. -/
theorem C24_login_failures_indistinguishable_witness :
    demoService.validator.Login (LoginRequest.trimmed demoLib ⟨"demo@example.com", "wrongpass"⟩)
      = none ∧
    ((∀ u, demoService.repo.GetByEmail demoRepo .Background
        (demoLib.ToLower (demoLib.TrimSpace "demo@example.com")) ≠ (some u, none)) ∨
      ∃ u e, demoService.repo.GetByEmail demoRepo .Background
          (demoLib.ToLower (demoLib.TrimSpace "demo@example.com")) = (some u, none) ∧
        demoLib.CompareHashAndPassword u.PasswordHash (demoLib.TrimSpace "wrongpass")
          = some e) ∧
    demoService.Login demoLib demoRepo ⟨uuidNil⟩ .Background demoEnv
        ⟨"demo@example.com", "wrongpass"⟩ =
      ⟨.error ErrInvalidCreds, demoRepo, ⟨uuidNil⟩,
        [.GetByEmail (demoLib.ToLower (demoLib.TrimSpace "demo@example.com"))]⟩ ∧
    (demoService.Login demoLib demoRepo ⟨uuidNil⟩ .Background demoEnv
        ⟨"nobody@example.com", "Passw0rd!"⟩).result = .error ErrInvalidCreds ∧
    (demoService.Login demoLib demoRepo ⟨uuidNil⟩ .Background demoEnv
        ⟨"demo@example.com", "Passw0rd!"⟩).result
      = .ok ⟨{ demoStored with LastLoginAt := some demoEnv.now }, fakePair⟩ :=
  have hcase : (∀ u, demoService.repo.GetByEmail demoRepo .Background
        (demoLib.ToLower (demoLib.TrimSpace "demo@example.com")) ≠ (some u, none)) ∨
      ∃ u e, demoService.repo.GetByEmail demoRepo .Background
          (demoLib.ToLower (demoLib.TrimSpace "demo@example.com")) = (some u, none) ∧
        demoLib.CompareHashAndPassword u.PasswordHash (demoLib.TrimSpace "wrongpass")
          = some e :=
    Or.inr ⟨demoStored, _, by decide, by rfl⟩
  ⟨by decide, hcase,
    C24_login_failures_indistinguishable demoLib demoService demoRepo ⟨uuidNil⟩ .Background
      demoEnv ⟨"demo@example.com", "wrongpass"⟩ (by decide) hcase,
    by rfl, by rfl⟩

/-- C25 (as stated, refuted): signup allowed, the request of `TestRegisterCreatesUser` on the
empty fake repository, and the token manager of package `auth` on a shared store whose set
command fails. `Register` stores the new user and then returns the storage error
"i/o timeout" that `IssueTokens` ended with: one user is stored, no tokens are issued and no
user is returned. -/
theorem C25_counterexample :
    demoSetFails.allowSignup = true ∧
    demoSetFails.validator.Register (demoRegister.trimmed demoLib demoSetFails.sanitizer)
      = none ∧
    demoSetFails.repo.GetByEmail newFakeRepo .Background
      (demoLib.ToLower (demoLib.TrimSpace demoRegister.Email)) = (none, some ErrUserNotFound) ∧
    demoSetFails.Register demoLib newFakeRepo Auth.demoShared .Background demoEnv demoRegister =
      ⟨.error (.storage "i/o timeout"), demoRepo, Auth.demoShared,
        [.GetByEmail "demo@example.com", .Create demoStored, .IssueTokens demoStored]⟩ ∧
    newFakeRepo.count = 0 ∧ demoRepo.count = 1 :=
  ⟨rfl, by decide, by rfl, by rfl, rfl, rfl⟩

/-- C25 (amended): with signup allowed, for every registration request that passes validation
and whose trimmed, lower-cased email the repository does not find, provided the password
hashes, the repository's `Create` reports no error and `IssueTokens` succeeds: `Register`
calls `Create` once, with a new user whose `Email` is the trimmed request email in lower case
and whose `Role` is "user", makes no other write, calls `IssueTokens` once, for that very
user, and returns that user with the tokens issued; the repository afterwards is the one
`Create` left, the token manager the one `IssueTokens` left. -/
theorem C25_register_stores_and_issues (lib : Lib) (s : Service ρ τ) (r : ρ) (t : τ)
    (ctx : Context) (env : Env) (req : RegisterRequest) (hash : String) (r' : ρ)
    (tokens : AuthTokens) (t' : τ)
    (hsignup : s.allowSignup = true)
    (hvalid : s.validator.Register (req.trimmed lib s.sanitizer) = none)
    (hfree : ∀ u, s.repo.GetByEmail r ctx (lib.ToLower (lib.TrimSpace req.Email))
      ≠ (some u, none))
    (hhash : lib.GenerateFromPassword (lib.TrimSpace req.Password) = .ok hash)
    (hcreate : s.repo.Create r ctx (newUser lib env (req.trimmed lib s.sanitizer) hash)
      = (none, r'))
    (hissue : s.tokens.IssueTokens t ctx (newUser lib env (req.trimmed lib s.sanitizer) hash)
      = (.ok tokens, t')) :
    ∃ user : User,
      s.Register lib r t ctx env req =
        ⟨.ok ⟨user, tokens⟩, r', t',
          [.GetByEmail (lib.ToLower (lib.TrimSpace req.Email)), .Create user,
            .IssueTokens user]⟩ ∧
      user.Email = lib.ToLower (lib.TrimSpace req.Email) ∧ user.Role = "user" ∧
      user.ID = env.newID ∧
      s.repo.Create r ctx user = (none, r') ∧
      s.tokens.IssueTokens t ctx user = (.ok tokens, t') := by
  refine ⟨newUser lib env (req.trimmed lib s.sanitizer) hash, ?_, rfl, rfl, rfl, hcreate, hissue⟩
  rw [Register_valid lib s r t ctx env req hsignup hvalid]
  split
  · rename_i u heq
    exact absurd heq (hfree u)
  · simp only [hhash, hcreate, hissue]

end UserService

namespace UserService

open Auth (Err Context UUID Time TokenString AuthTokens)

/-- C25 witness: `TestRegisterCreatesUser`. On the empty fake repository the request for
"Demo@Example.com" stores `demoStored`, whose email is "demo@example.com"; the repository
then counts one user and the fake token manager has recorded that user's ID. -/
theorem C25_register_stores_and_issues_witness :
    demoService.allowSignup = true ∧
    demoService.validator.Register (demoRegister.trimmed demoLib demoService.sanitizer)
      = none ∧
    (∀ u, demoService.repo.GetByEmail newFakeRepo .Background
      (demoLib.ToLower (demoLib.TrimSpace demoRegister.Email)) ≠ (some u, none)) ∧
    demoLib.GenerateFromPassword (demoLib.TrimSpace demoRegister.Password)
      = .ok "$2a$Passw0rd!" ∧
    demoService.repo.Create newFakeRepo .Background
      (newUser demoLib demoEnv (demoRegister.trimmed demoLib demoService.sanitizer)
        "$2a$Passw0rd!") = (none, demoRepo) ∧
    demoService.tokens.IssueTokens ⟨uuidNil⟩ .Background
      (newUser demoLib demoEnv (demoRegister.trimmed demoLib demoService.sanitizer)
        "$2a$Passw0rd!") = (.ok fakePair, ⟨"u1"⟩) ∧
    (∃ user : User,
      demoService.Register demoLib newFakeRepo ⟨uuidNil⟩ .Background demoEnv demoRegister =
        ⟨.ok ⟨user, fakePair⟩, demoRepo, ⟨"u1"⟩,
          [.GetByEmail (demoLib.ToLower (demoLib.TrimSpace demoRegister.Email)), .Create user,
            .IssueTokens user]⟩ ∧
      user.Email = demoLib.ToLower (demoLib.TrimSpace demoRegister.Email) ∧
      user.Role = "user" ∧ user.ID = demoEnv.newID ∧
      demoService.repo.Create newFakeRepo .Background user = (none, demoRepo) ∧
      demoService.tokens.IssueTokens ⟨uuidNil⟩ .Background user = (.ok fakePair, ⟨"u1"⟩)) ∧
    demoService.Register demoLib newFakeRepo ⟨uuidNil⟩ .Background demoEnv demoRegister =
      ⟨.ok ⟨demoStored, fakePair⟩, demoRepo, ⟨"u1"⟩,
        [.GetByEmail "demo@example.com", .Create demoStored, .IssueTokens demoStored]⟩ ∧
    newFakeRepo.count = 0 ∧ demoRepo.count = 1 :=
  have hfree : ∀ u, demoService.repo.GetByEmail newFakeRepo .Background
      (demoLib.ToLower (demoLib.TrimSpace demoRegister.Email)) ≠ (some u, none) :=
    fun u h => by
      have h1 : (none : Option User) = some u := congrArg Prod.fst h
      exact absurd h1 (by simp)
  ⟨rfl, by decide, hfree, by rfl, by rfl, by rfl,
    C25_register_stores_and_issues demoLib demoService newFakeRepo ⟨uuidNil⟩ .Background demoEnv
      demoRegister "$2a$Passw0rd!" demoRepo fakePair ⟨"u1"⟩ rfl (by decide) hfree (by rfl)
      (by rfl) (by rfl),
    by rfl, rfl, rfl⟩

end UserService

/-! # Theorems on the profile service -/

namespace ProfileService

open Auth (Err Context UUID Time)

variable {ρ : Type}

theorem assignOptionalFields_keeps (lib : Lib) (policy : String → String) (p : Profile)
    (req : CreateRequest) (q : Profile) (h : assignOptionalFields lib policy p req = .ok q) :
    q.ID = p.ID ∧ q.UserID = p.UserID ∧ q.Version = p.Version := by
  obtain ⟨fn, ln, bio, img, cov, dob, ph, web, loc⟩ := req
  unfold assignOptionalFields at h
  cases bio <;> cases img <;> cases cov <;> cases ph <;> cases web <;> cases loc <;>
    cases dob <;> simp only at h <;>
    first
    | (cases h; exact ⟨rfl, rfl, rfl⟩)
    | (split at h
       · split at h
         · cases h
         · cases h; exact ⟨rfl, rfl, rfl⟩
       · cases h; exact ⟨rfl, rfl, rfl⟩)

end ProfileService

namespace ProfileService

open Auth (Err Context UUID Time)

variable {ρ : Type}

theorem mem_Fields_set (m : Fields) (k : String) (v : Value) (e : String × Value)
    (he : e ∈ Fields.set m k v) : e ∈ m ∨ e = (k, v) := by
  unfold Fields.set at he
  split at he
  · obtain ⟨a, ha, hae⟩ := List.mem_map.1 he
    split at hae
    · exact Or.inr hae.symm
    · exact Or.inl (hae ▸ ha)
  · rcases List.mem_append.1 he with h | h
    · exact Or.inl h
    · exact Or.inr (by simpa using h)

theorem patchStep_eq (lib : Lib) (policy : String → String) (update : Fields)
    (kv : String × Value) :
    (if kv.1 ∉ allowed then update
      else
        match kv.2 with
        | .string str => Fields.set update kv.1 (.string (sanitizeField lib policy str))
        | v => Fields.set update kv.1 v)
      = if kv.1 ∉ allowed then update else Fields.set update kv.1 (cleaned lib policy kv.2) := by
  split
  · rfl
  · cases kv.2 <;> rfl

theorem patchUpdate_eq (lib : Lib) (s : Service ρ) (fields : Fields) :
    s.patchUpdate lib fields =
      fields.foldl (fun update kv =>
        if kv.1 ∉ allowed then update
        else Fields.set update kv.1 (cleaned lib s.sanitizer kv.2)) [] := by
  unfold Service.patchUpdate
  congr 1
  funext update kv
  exact patchStep_eq lib s.sanitizer update kv

theorem patch_foldl_mem (lib : Lib) (policy : String → String) (all : Fields) (fs : Fields) :
    ∀ acc : Fields, (∀ kv ∈ fs, kv ∈ all) →
      (∀ e ∈ acc, e.1 ∈ allowed ∧ ∃ v0, (e.1, v0) ∈ all ∧ e.2 = cleaned lib policy v0) →
      ∀ e ∈ fs.foldl (fun update kv =>
          if kv.1 ∉ allowed then update
          else Fields.set update kv.1 (cleaned lib policy kv.2)) acc,
        e.1 ∈ allowed ∧ ∃ v0, (e.1, v0) ∈ all ∧ e.2 = cleaned lib policy v0 := by
  induction fs with
  | nil => intro acc _ hacc e he; exact hacc e he
  | cons kv rest ih =>
    intro acc hsub hacc e he
    rw [List.foldl_cons] at he
    refine ih _ (fun x hx => hsub x (List.mem_cons_of_mem _ hx)) ?_ e he
    intro x hx
    split at hx
    · exact hacc x hx
    · rename_i hk
      rcases mem_Fields_set _ _ _ _ hx with h | h
      · exact hacc x h
      · subst h
        exact ⟨not_not.1 hk, kv.2, hsub kv (List.mem_cons_self _ _), rfl⟩

theorem patch_foldl_skip (lib : Lib) (policy : String → String) (fs : Fields) :
    ∀ acc : Fields, (∀ kv ∈ fs, kv.1 ∉ allowed) →
      fs.foldl (fun update kv =>
          if kv.1 ∉ allowed then update
          else Fields.set update kv.1 (cleaned lib policy kv.2)) acc = acc := by
  induction fs with
  | nil => intro acc _; rfl
  | cons kv rest ih =>
    intro acc h
    rw [List.foldl_cons, if_pos (h kv (List.mem_cons_self _ _))]
    exact ih acc (fun x hx => h x (List.mem_cons_of_mem _ hx))

/-- C28: `Service.Patch` passes to the repository only field names from its whitelist of nine
column names. For every request, `Patch` makes at most one call on the repository, a call of
`Repository.Patch` with the map `update`; every key of that map is whitelisted and its value
stems from an entry of the request under the same key, a string sanitized and then trimmed,
any other value as it is; and if no key of the request is whitelisted, `Patch` returns an
error, leaves the repository as it was and calls no method of it. -/
theorem C28_patch_passes_only_whitelisted (lib : Lib) (s : Service ρ) (r : ρ) (ctx : Context)
    (id userID : UUID) (req : PatchRequest) :
    allowed.length = 9 ∧
    ((s.Patch lib r ctx id userID req).2.2 = [] ∨
      (s.Patch lib r ctx id userID req).2.2
        = [.Patch id userID (s.patchUpdate lib req.Fields) req.Version]) ∧
    (∀ k v, (k, v) ∈ s.patchUpdate lib req.Fields →
      k ∈ allowed ∧ ∃ v0, (k, v0) ∈ req.Fields ∧ v = cleaned lib s.sanitizer v0) ∧
    (∀ str, cleaned lib s.sanitizer (.string str) = .string (lib.TrimSpace (s.sanitizer str))) ∧
    ((∀ kv ∈ req.Fields, kv.1 ∉ allowed) →
      (∃ err, (s.Patch lib r ctx id userID req).1 = (none, some err)) ∧
      (s.Patch lib r ctx id userID req).2.1 = r ∧
      (s.Patch lib r ctx id userID req).2.2 = []) := by
  refine ⟨rfl, ?_, ?_, fun _ => rfl, ?_⟩
  · unfold Service.Patch
    split
    · exact Or.inl rfl
    · simp only
      split
      · exact Or.inl rfl
      · split <;> exact Or.inr rfl
  · intro k v hkv
    rw [patchUpdate_eq] at hkv
    exact patch_foldl_mem lib s.sanitizer req.Fields req.Fields [] (fun _ h => h)
      (fun _ h => absurd h (List.not_mem_nil _)) (k, v) hkv
  · intro hnone
    have hempty : s.patchUpdate lib req.Fields = [] := by
      rw [patchUpdate_eq]
      exact patch_foldl_skip lib s.sanitizer req.Fields [] hnone
    unfold Service.Patch
    split
    · exact ⟨⟨_, rfl⟩, rfl, rfl⟩
    · simp only [hempty, List.length_nil, ↓reduceIte]
      exact ⟨⟨_, rfl⟩, trivial, trivial⟩

/-- C28 witness: of the four entries of `demoPatch`, the keys "version" and "id = id; --" are
dropped; "bio" arrives sanitized and trimmed, the number under "phone" as it is. A request
with no whitelisted key is refused without any call on the repository. -/
theorem C28_patch_passes_only_whitelisted_witness :
    demoService.patchUpdate demoLib demoPatch.Fields
      = [("bio", .string "b>hi"), ("phone", .number 5)] ∧
    (demoService.Patch demoLib [demoProfile] .Background "p1" "u1" demoPatch).2.2
      = [.Patch "p1" "u1" [("bio", .string "b>hi"), ("phone", .number 5)] 3] ∧
    demoService.Patch demoLib [demoProfile] .Background "p1" "u1"
        ⟨[("version", .number 99), ("id = id; --", .string "x")], 3⟩
      = ((none, some (.New "no valid fields to update")), [demoProfile], []) ∧
    (allowed.length = 9 ∧
    ((demoService.Patch demoLib [demoProfile] .Background "p1" "u1" demoPatch).2.2 = [] ∨
      (demoService.Patch demoLib [demoProfile] .Background "p1" "u1" demoPatch).2.2
        = [.Patch "p1" "u1" (demoService.patchUpdate demoLib demoPatch.Fields)
            demoPatch.Version]) ∧
    (∀ k v, (k, v) ∈ demoService.patchUpdate demoLib demoPatch.Fields →
      k ∈ allowed ∧
        ∃ v0, (k, v0) ∈ demoPatch.Fields ∧ v = cleaned demoLib demoService.sanitizer v0) ∧
    (∀ str, cleaned demoLib demoService.sanitizer (.string str)
      = .string (demoLib.TrimSpace (demoService.sanitizer str))) ∧
    ((∀ kv ∈ demoPatch.Fields, kv.1 ∉ allowed) →
      (∃ err, (demoService.Patch demoLib [demoProfile] .Background "p1" "u1" demoPatch).1
        = (none, some err)) ∧
      (demoService.Patch demoLib [demoProfile] .Background "p1" "u1" demoPatch).2.1
        = [demoProfile] ∧
      (demoService.Patch demoLib [demoProfile] .Background "p1" "u1" demoPatch).2.2 = [])) :=
  ⟨by rfl, by rfl, by rfl,
    C28_patch_passes_only_whitelisted demoLib demoService [demoProfile] .Background "p1" "u1"
      demoPatch⟩

end ProfileService

namespace ProfileService

open Auth (Err Context UUID Time)

variable {ρ : Type}

/-- C30 (as stated, refuted): the stored profile and the request are both at version
`2 ^ 63 - 1`, the largest `int`. The request passes validation and the versions are equal, so
`Update` succeeds; `profile.Version++` wraps around, and the profile written and returned has
`Version = -2 ^ 63`, not one greater than the stored one. -/
theorem C30_counterexample :
    demoService.validator.Update { demoUpdate with Version := 9223372036854775807 } = none ∧
    demoService.repo.GetByID [{ demoProfile with Version := 9223372036854775807 }] .Background
        "p1" "u1"
      = (some { demoProfile with Version := 9223372036854775807 }, none) ∧
    demoService.Update demoLib [{ demoProfile with Version := 9223372036854775807 }]
        .Background (2000 * Auth.Second) "p1" "u1"
        { demoUpdate with Version := 9223372036854775807 }
      = (.ok { demoUpdated with Version := -9223372036854775808 },
          [{ demoUpdated with Version := -9223372036854775808 }],
          [.GetByID "p1" "u1", .Update { demoUpdated with Version := -9223372036854775808 }]) ∧
    (-9223372036854775808 : Int) ≠ 9223372036854775807 + 1 :=
  ⟨rfl, by rfl, by rfl, by decide⟩

/-- C30 (amended): `Service.Update` enforces optimistic versioning. For every request that
passes validation and every profile the repository returns for the ID and owner: if the stored
`Version` differs from the request's, `Update` returns `ErrVersionConflict`, the repository is
left as it was and `Repository.Update` is not called, the lookup being the only call; if they
are equal, then whenever `Update` succeeds the profile returned is the one it passed to
`Repository.Update`, in its only write, and has the same `ID` and `UserID` and the `Version`
that `Version++` gives on an `int`: exactly one greater than the stored one when the stored
one is below the largest `int`; and `Update` does succeed whenever the optional fields are
assigned without error and `Repository.Update` reports none. -/
theorem C30_update_optimistic_versioning (lib : Lib) (s : Service ρ) (r : ρ) (ctx : Context)
    (now : Time) (id userID : UUID) (req : UpdateRequest) (stored : Profile)
    (hvalid : s.validator.Update req = none)
    (hstored : s.repo.GetByID r ctx id userID = (some stored, none))
    (hint : -9223372036854775808 ≤ stored.Version) :
    (stored.Version ≠ req.Version →
      s.Update lib r ctx now id userID req
        = (.error ErrVersionConflict, r, [.GetByID id userID])) ∧
    (stored.Version = req.Version →
      (∀ out, (s.Update lib r ctx now id userID req).1 = .ok out →
        out.Version = Go.wrap64 (stored.Version + 1) ∧
        (stored.Version < 9223372036854775807 → out.Version = stored.Version + 1) ∧
        out.ID = stored.ID ∧ out.UserID = stored.UserID ∧
        (s.Update lib r ctx now id userID req).2.2 = [.GetByID id userID, .Update out] ∧
        s.repo.Update r ctx out = (none, (s.Update lib r ctx now id userID req).2.1)) ∧
      (∀ q, assignOptionalFields lib s.sanitizer
            { stored with
              FirstName := sanitizeField lib s.sanitizer req.FirstName
              LastName := sanitizeField lib s.sanitizer req.LastName } req.toCreateRequest
          = .ok q →
        (s.repo.Update r ctx
          { q with Version := Go.wrap64 (q.Version + 1), UpdatedAt := now }).1 = none →
        (s.Update lib r ctx now id userID req).1
          = .ok { q with Version := Go.wrap64 (q.Version + 1), UpdatedAt := now })) := by
  refine ⟨fun hne => ?_, fun heq => ⟨fun out hout => ?_, fun q hq hupd => ?_⟩⟩
  · unfold Service.Update
    simp only [hvalid, hstored, hne, ne_eq, not_false_eq_true, ↓reduceIte]
  · have hnn : ¬ stored.Version ≠ req.Version := fun h => h heq
    unfold Service.Update at hout ⊢
    simp only [hvalid, hstored, if_neg hnn] at hout ⊢
    cases hq : assignOptionalFields lib s.sanitizer
        { stored with
          FirstName := sanitizeField lib s.sanitizer req.FirstName
          LastName := sanitizeField lib s.sanitizer req.LastName } req.toCreateRequest with
    | error e => simp [hq] at hout
    | ok q =>
      obtain ⟨h1, h2, h3⟩ := assignOptionalFields_keeps lib s.sanitizer _ _ q hq
      simp only [hq] at hout ⊢
      cases hu : s.repo.Update r ctx
          { q with Version := Go.wrap64 (q.Version + 1), UpdatedAt := now } with
      | mk err r' =>
        cases err with
        | some e => simp [hu] at hout
        | none =>
          simp only [hu, Except.ok.injEq] at hout ⊢
          subst hout
          have h3' : q.Version = stored.Version := by simpa using h3
          refine ⟨by simp only [h3'], fun hlt => ?_, h1, h2, rfl, hu⟩
          simp only [h3']
          exact Go.wrap64_of_range (by unfold Go.MinInt64; omega) (by unfold Go.MaxInt64; omega)
  · have hnn : ¬ stored.Version ≠ req.Version := fun h => h heq
    unfold Service.Update
    simp only [hvalid, hstored, if_neg hnn, hq]
    cases hu : s.repo.Update r ctx
        { q with Version := Go.wrap64 (q.Version + 1), UpdatedAt := now } with
    | mk err r' =>
      rw [hu] at hupd
      simp only at hupd
      subst hupd
      rfl

/-- C30 witness: `demoProfile` is stored at version 3. The request `demoUpdate` for version 3
writes and returns `demoUpdated`, at version 4 with the same ID and owner; the same request
for version 2 is refused with `ErrVersionConflict` and nothing is written. -/
theorem C30_update_optimistic_versioning_witness :
    demoService.validator.Update demoUpdate = none ∧
    demoService.repo.GetByID [demoProfile] .Background "p1" "u1" = (some demoProfile, none) ∧
    -9223372036854775808 ≤ demoProfile.Version ∧
    demoProfile.Version < 9223372036854775807 ∧
    demoService.Update demoLib [demoProfile] .Background (2000 * Auth.Second) "p1" "u1"
        demoUpdate
      = (.ok demoUpdated, [demoUpdated], [.GetByID "p1" "u1", .Update demoUpdated]) ∧
    demoUpdated.Version = demoProfile.Version + 1 ∧
    demoService.Update demoLib [demoProfile] .Background (2000 * Auth.Second) "p1" "u1"
        { demoUpdate with Version := 2 }
      = (.error ErrVersionConflict, [demoProfile], [.GetByID "p1" "u1"]) ∧
    ((demoProfile.Version ≠ demoUpdate.Version →
      demoService.Update demoLib [demoProfile] .Background (2000 * Auth.Second) "p1" "u1"
          demoUpdate
        = (.error ErrVersionConflict, [demoProfile], [.GetByID "p1" "u1"])) ∧
    (demoProfile.Version = demoUpdate.Version →
      (∀ out, (demoService.Update demoLib [demoProfile] .Background (2000 * Auth.Second) "p1"
          "u1" demoUpdate).1 = .ok out →
        out.Version = Go.wrap64 (demoProfile.Version + 1) ∧
        (demoProfile.Version < 9223372036854775807 →
          out.Version = demoProfile.Version + 1) ∧
        out.ID = demoProfile.ID ∧
        out.UserID = demoProfile.UserID ∧
        (demoService.Update demoLib [demoProfile] .Background (2000 * Auth.Second) "p1" "u1"
          demoUpdate).2.2 = [.GetByID "p1" "u1", .Update out] ∧
        demoService.repo.Update [demoProfile] .Background out
          = (none, (demoService.Update demoLib [demoProfile] .Background (2000 * Auth.Second)
              "p1" "u1" demoUpdate).2.1)) ∧
      (∀ q, assignOptionalFields demoLib demoService.sanitizer
            { demoProfile with
              FirstName := sanitizeField demoLib demoService.sanitizer demoUpdate.FirstName
              LastName := sanitizeField demoLib demoService.sanitizer demoUpdate.LastName }
            demoUpdate.toCreateRequest = .ok q →
        (demoService.repo.Update [demoProfile] .Background
          { q with Version := Go.wrap64 (q.Version + 1),
                   UpdatedAt := 2000 * Auth.Second }).1 = none →
        (demoService.Update demoLib [demoProfile] .Background (2000 * Auth.Second) "p1" "u1"
            demoUpdate).1
          = .ok { q with Version := Go.wrap64 (q.Version + 1),
                         UpdatedAt := 2000 * Auth.Second }))) :=
  ⟨rfl, by rfl, by decide, by decide, by rfl, by decide, by rfl,
    C30_update_optimistic_versioning demoLib demoService [demoProfile] .Background
      (2000 * Auth.Second) "p1" "u1" demoUpdate demoProfile rfl (by rfl) (by decide)⟩

end ProfileService
